import Mathlib

/-!
# Pose solver of `ctrl::pose` (src/ctrl/pose/pose_DrawBoneMode.cpp)

A shallow embedding of `RigidBone`, `BoneDynamics` and `DrawBoneMode::pullBone`.

* `float` is idealised as an arbitrary linear ordered field `α`; the C and Qt
  numeric primitives the code calls (`cos`, `sin`, `sqrt`, the two angle helpers of
  `util::MathUtil`, the constant `core::Constant::normalizable()`) are the fields of
  a `MathEnv α`, so every definition is executable once an environment is given.
* The intrusive pointer tree (`TreeNodeBase`) is a rose tree `Tree`; a reference
  `RigidBone&` into the tree is a `Focus`: the subtree at that node together with
  the chain of its ancestors (nearest parent first), each with the siblings on
  either side.  `Focus.plug` gives the whole tree back.
* Closed statements are made over the reals, in the environment `realEnv eps` of the
  real `cos`, `sin` and `sqrt`.
-/

namespace Pose

/-! ## Vectors -/

/-- The two-component vector `QVector2D` of Qt, over the scalar type `α`. -/
@[ext] structure QVector2D (α : Type) where
  x : α
  y : α

namespace QVector2D

variable {α : Type} [LinearOrderedField α]

instance : Zero (QVector2D α) := ⟨⟨0, 0⟩⟩
instance : Add (QVector2D α) := ⟨fun a b => ⟨a.x + b.x, a.y + b.y⟩⟩
instance : Sub (QVector2D α) := ⟨fun a b => ⟨a.x - b.x, a.y - b.y⟩⟩
/-- The product `float * QVector2D`. -/
instance : HMul α (QVector2D α) (QVector2D α) := ⟨fun k v => ⟨k * v.x, k * v.y⟩⟩
/-- The product `QVector2D * float`. -/
instance : HMul (QVector2D α) α (QVector2D α) := ⟨fun v k => ⟨v.x * k, v.y * k⟩⟩
/-- The quotient `QVector2D / float`. -/
instance : HDiv (QVector2D α) α (QVector2D α) := ⟨fun v k => ⟨v.x / k, v.y / k⟩⟩

/-- The static `QVector2D::dotProduct`. -/
def dotProduct (a b : QVector2D α) : α := a.x * b.x + a.y * b.y

end QVector2D

/-! ## Numeric environment -/

/-- The numeric primitives that the solver calls and that live outside the file:
`cos`, `sin` and `sqrt` of the C library, `normalizeAngleRad` and
`getAngleDifferenceRad` of `util::MathUtil`, and the threshold
`core::Constant::normalizable()`. -/
structure MathEnv (α : Type) where
  cos : α → α
  sin : α → α
  sqrt : α → α
  normalizeAngleRad : α → α
  getAngleDifferenceRad : α → α → α
  normalizable : α

section Numerics

variable {α : Type} [LinearOrderedField α]

/-- The method `QVector2D::length`. -/
def QVector2D.length (E : MathEnv α) (v : QVector2D α) : α :=
  E.sqrt (v.x * v.x + v.y * v.y)

/-- The method `QVector2D::normalized`: the vector divided by its length, and the
null vector for a vector of length zero. -/
def QVector2D.normalized (E : MathEnv α) (v : QVector2D α) : QVector2D α :=
  if v.length E = 0 then 0 else v / v.length E

/-- Modelled from the spec: `util::MathUtil::getVectorFromPolarCoord` is not among
the sources; the vector of length `l` at angle `a` is `(l cos a, l sin a)`. -/
def getVectorFromPolarCoord (E : MathEnv α) (l a : α) : QVector2D α :=
  ⟨l * E.cos a, l * E.sin a⟩

/-- Modelled from the spec: `util::MathUtil::getRotateVectorRad` is not among the
sources; it is the standard rotation of `v` by `r` radians. -/
def getRotateVectorRad (E : MathEnv α) (v : QVector2D α) (r : α) : QVector2D α :=
  ⟨E.cos r * v.x - E.sin r * v.y, E.sin r * v.x + E.cos r * v.y⟩

/-- Modelled from the spec: `util::CollDetect::getCross` is not among the sources;
it is the scalar cross product of two plane vectors. -/
def getCross (a b : QVector2D α) : α := a.x * b.y - a.y * b.x

end Numerics

/-! ## Trees -/

/-- A node of an intrusive tree (`util::TreeNodeBase`) with its children in order. -/
inductive Tree (β : Type) where
  | node : β → List (Tree β) → Tree β

namespace Tree

variable {β γ : Type}

/-- The payload of the top node. -/
def value : Tree β → β
  | node b _ => b

/-- The children of the top node. -/
def children : Tree β → List (Tree β)
  | node _ cs => cs

mutual
/-- Number of nodes of a tree. -/
def size : Tree β → Nat
  | node _ cs => 1 + sizeList cs
/-- Number of nodes of a forest. -/
def sizeList : List (Tree β) → Nat
  | [] => 0
  | c :: cs => size c + sizeList cs
end

mutual
/-- The same tree with `f` applied to every payload. -/
def map (f : β → γ) : Tree β → Tree γ
  | node b cs => node (f b) (mapList f cs)
/-- The same forest with `f` applied to every payload. -/
def mapList (f : β → γ) : List (Tree β) → List (Tree γ)
  | [] => []
  | c :: cs => map f c :: mapList f cs
end

mutual
/-- Modelled from the spec: the iterator of `util::TreeNodeBase` is not among the
sources; it visits the nodes in pre-order, a parent before its children and the
children in order. Each visited node is paired with what its `parent()` link
gives (`none` for a node without a parent). -/
def preorder : Option β → Tree β → List (Option β × β)
  | p, node b cs => (p, b) :: preorderList b cs
/-- The pre-order visit of the children `cs` of a node with payload `p`. -/
def preorderList : β → List (Tree β) → List (Option β × β)
  | _, [] => []
  | p, c :: cs => preorder (some p) c ++ preorderList p cs
end

/-- The nodes in iterator order. -/
def nodes (t : Tree β) : List β := (preorder none t).map Prod.snd

end Tree

/-! ## The source skeleton and the rigid shadow tree -/

/-- What the solver reads of a source bone `core::Bone2`: its address (for the
identity test `ptr == &aTarget`), `worldPos()`, `worldAngle()`, `localAngle()`
and `rotate()`. The links `parent()` and `children()` are the tree itself. -/
structure Bone2 (α : Type) where
  addr : Nat
  worldPos : QVector2D α
  worldAngle : α
  localAngle : α
  rotate : α

/-- The node `RigidBone`; `ptr` is the source bone it points to. -/
structure RigidBone (α : Type) where
  ptr : Bone2 α
  rootPos : QVector2D α
  angle : α
  length : α
  force : QVector2D α
  torque : α

namespace RigidBone

variable {α : Type} [LinearOrderedField α]

/-- The constructor `RigidBone::RigidBone(aOrigin)`; `parent` is `aOrigin.parent()`. -/
def create (E : MathEnv α) (aOrigin : Bone2 α) (parent : Option (Bone2 α)) : RigidBone α :=
  let rootPos := match parent with
    | some p => p.worldPos
    | none => aOrigin.worldPos
  { ptr := aOrigin
    rootPos := rootPos
    angle := aOrigin.worldAngle
    length := (aOrigin.worldPos - rootPos).length E
    force := 0
    torque := 0 }

/-- The method `RigidBone::dir`. -/
def dir (E : MathEnv α) (b : RigidBone α) : QVector2D α :=
  getVectorFromPolarCoord E b.length b.angle

/-- The method `RigidBone::tailPos`. -/
def tailPos (E : MathEnv α) (b : RigidBone α) : QVector2D α :=
  b.rootPos + getVectorFromPolarCoord E b.length b.angle

/-- Modelled from the spec: the default argument of `updateMotion` is declared in
the header, which is not among the sources; the degenerate target step applies
its force "with `Free` pivot", the mode `-1`. -/
def defaultCentroid : Int := -1

/-- The method `RigidBone::updateMotion(aCentroid)`. -/
def updateMotion (E : MathEnv α) (aCentroid : Int) (b : RigidBone α) : RigidBone α :=
  let b1 : RigidBone α := { b with rootPos := b.rootPos + b.force }
  let b2 : RigidBone α :=
    if aCentroid = -1 then
      { b1 with angle := b1.angle + b1.torque }
    else if aCentroid = 0 then
      let rotate := b1.torque
      let center := b1.rootPos + (1 / 2 : α) * b1.dir E
      { b1 with
        rootPos := center + getRotateVectorRad E (b1.rootPos - center) rotate
        angle := b1.angle + rotate }
    else if aCentroid = 1 then
      let rotate := b1.torque
      let center := b1.tailPos E
      { b1 with
        rootPos := center + getRotateVectorRad E (b1.rootPos - center) rotate
        angle := b1.angle + rotate }
    else b1
  { b2 with force := 0, torque := 0 }

end RigidBone

/-! ## References into the rigid tree -/

/-- An ancestor of the referenced node: its own data and its other children, those
before (`left`) and those after (`right`) the child on the way down. -/
structure Crumb (α : Type) where
  bone : RigidBone α
  left : List (Tree (RigidBone α))
  right : List (Tree (RigidBone α))

/-- A reference `RigidBone&` into a rigid tree: the node, its children, and its
ancestors from the nearest parent up to the top of the tree. -/
structure Focus (α : Type) where
  bone : RigidBone α
  children : List (Tree (RigidBone α))
  ancestors : List (Crumb α)

section Zipper

variable {α : Type}

/-- The ancestor `c` with the subtree `t` put back among its children. -/
def Crumb.close (c : Crumb α) (t : Tree (RigidBone α)) : Tree (RigidBone α) :=
  Tree.node c.bone (c.left ++ t :: c.right)

/-- The tree around `t` rebuilt through the ancestors, nearest parent first. -/
def plugChain : Tree (RigidBone α) → List (Crumb α) → Tree (RigidBone α)
  | t, [] => t
  | t, c :: cs => plugChain (c.close t) cs

/-- The whole tree that a reference points into. -/
def Focus.plug (f : Focus α) : Tree (RigidBone α) :=
  plugChain (Tree.node f.bone f.children) f.ancestors

/-- The top node reached from a node with ancestors `cs` by following `parent()`
to the end. -/
def chainRoot : RigidBone α → List (Crumb α) → RigidBone α
  | b, [] => b
  | _, c :: cs => chainRoot c.bone cs

/-- The node just below the top node on the chain from a node with ancestors `cs`
up to the top, when the chain has an ancestor at all. -/
def chainRootChild : RigidBone α → List (Crumb α) → Option (RigidBone α)
  | _, [] => none
  | b, [_] => some b
  | _, c :: c2 :: cs => chainRootChild c.bone (c2 :: cs)

/-- The top node of the tree that a reference points into. -/
def Focus.root (f : Focus α) : RigidBone α := chainRoot f.bone f.ancestors

/-- The child of the top node that is the referenced node or one of its ancestors
(`none` when the referenced node is the top node). -/
def Focus.rootChild (f : Focus α) : Option (RigidBone α) :=
  chainRootChild f.bone f.ancestors

/-- The fields of a node that no method of the solver assigns: the source bone it
points to and its length. -/
def RigidBone.fixed (b : RigidBone α) : Bone2 α × α := (b.ptr, b.length)

/-- An ancestor without the fields of its node that the solver assigns. -/
def Crumb.fixed (c : Crumb α) :
    (Bone2 α × α) × List (Tree (RigidBone α)) × List (Tree (RigidBone α)) :=
  (c.bone.fixed, c.left, c.right)

/-- A reference into a tree without the fields that the solver assigns: the shape of
the tree around the node, and for each node on the chain and below the referenced
node the source bone it points to and its length. -/
def Focus.fixed (f : Focus α) :
    (Bone2 α × α) × List (Tree (Bone2 α × α)) ×
      List ((Bone2 α × α) × List (Tree (RigidBone α)) × List (Tree (RigidBone α))) :=
  (f.bone.fixed, Tree.mapList RigidBone.fixed f.children, f.ancestors.map Crumb.fixed)

mutual
/-- The search loop of `DrawBoneMode::pullBone` (lines 446-456): the first node in
iterator order whose `ptr` is the address `aTarget`, as a reference into the tree;
`ctx` holds the ancestors of the subtree being searched. -/
def findTarget (aTarget : Nat) : List (Crumb α) → Tree (RigidBone α) → Option (Focus α)
  | ctx, Tree.node b cs =>
    if b.ptr.addr = aTarget then some ⟨b, cs, ctx⟩
    else findTargetList aTarget b ctx [] cs
/-- The search through the children `cs` of `b`, those in `left` already visited. -/
def findTargetList (aTarget : Nat) :
    RigidBone α → List (Crumb α) → List (Tree (RigidBone α)) → List (Tree (RigidBone α)) →
    Option (Focus α)
  | _, _, _, [] => none
  | b, ctx, left, c :: cs =>
    match findTarget aTarget (⟨b, left, cs⟩ :: ctx) c with
    | some f => some f
    | none => findTargetList aTarget b ctx (left ++ [c]) cs
end

end Zipper

/-! ## `BoneDynamics` -/

/-- The state of a `BoneDynamics`: the source skeleton `mTopBone`, the rigid tree
`mRigidTopBone` and the damping factor `mConduction`. -/
structure BoneDynamics (α : Type) where
  mTopBone : Tree (Bone2 α)
  mRigidTopBone : Tree (RigidBone α)
  mConduction : α

namespace BoneDynamics

variable {α : Type} [LinearOrderedField α]

mutual
/-- Modelled from the spec: `util::TreeUtil::createShadow` is not among the sources;
it builds one `RigidBone` per source bone with the same parent and children.
`parent` is the source parent of the bone at the top of the subtree. -/
def createShadow (E : MathEnv α) : Option (Bone2 α) → Tree (Bone2 α) → Tree (RigidBone α)
  | p, Tree.node b cs => Tree.node (RigidBone.create E b p) (createShadowList E b cs)
/-- The shadows of the children `cs` of the source bone `p`. -/
def createShadowList (E : MathEnv α) :
    Bone2 α → List (Tree (Bone2 α)) → List (Tree (RigidBone α))
  | _, [] => []
  | p, c :: cs => createShadow E (some p) c :: createShadowList E p cs
end

/-- The constructor `BoneDynamics::BoneDynamics(aTopBone)`, for a top bone without
a parent (`DrawBoneMode::pullBone` passes the root of the source tree). -/
def create (E : MathEnv α) (aTopBone : Tree (Bone2 α)) : BoneDynamics α :=
  { mTopBone := aTopBone
    mRigidTopBone := createShadow E none aTopBone
    mConduction := 1 / 10 }

/-- The value that the loop body of `rotationDifferences` (lines 89-98) pushes for
the visited node `rigidBone` whose `parent()` is `parent`. -/
def rotationDifference (E : MathEnv α) (parent : Option (RigidBone α))
    (rigidBone : RigidBone α) : α :=
  match parent with
  | some p =>
    let rotate := rigidBone.angle - p.angle - rigidBone.ptr.localAngle
    E.getAngleDifferenceRad (E.normalizeAngleRad rigidBone.ptr.rotate)
      (E.normalizeAngleRad rotate)
  | none => 0

/-- The method `BoneDynamics::rotationDifferences`: the loop over the iterator,
pushing one value per visited node. -/
def rotationDifferences (E : MathEnv α) (D : BoneDynamics α) : List α :=
  (Tree.preorder none D.mRigidTopBone).foldl
    (fun differences it => differences ++ [rotationDifference E it.1 it.2]) []

/-- The target step of `BoneDynamics::pullBone` (lines 107-143) on the node itself. -/
def pullTarget (E : MathEnv α) (mConduction : α) (aTarget : RigidBone α)
    (aPull : QVector2D α) (aPullPos : α) : RigidBone α :=
  if aTarget.length ≥ E.normalizable then
    let rotateRateLinear := |2 * (aPullPos - 1 / 2)|
    let rotateRate := 1 - (1 - rotateRateLinear) * (1 - rotateRateLinear)
    let rotateRate := mConduction * rotateRate + (1 - mConduction)
    let normDir := (aTarget.dir E).normalized E
    let vertical := normDir * QVector2D.dotProduct normDir aPull
    let horizontal := aPull - vertical
    let force := mConduction * (vertical + (1 - rotateRate) * horizontal)
    let rotate := horizontal * rotateRate
    let torque := (rotate.length E / aTarget.length) *
      (if aPullPos ≥ 1 / 2 then 1 else -1) *
      (if getCross normDir rotate > 0 then 1 else -1)
    RigidBone.updateMotion E (if aPullPos ≥ 1 / 2 then -1 else 1)
      { aTarget with force := force, torque := torque }
  else
    RigidBone.updateMotion E RigidBone.defaultCentroid { aTarget with force := aPull }

/-- The weight `rotateRate` that `BoneDynamics::pullBone` computes (lines 110-112). -/
def rotateRate (mConduction aPullPos : α) : α :=
  let rotateRateLinear := |2 * (aPullPos - 1 / 2)|
  let rotateRate := 1 - (1 - rotateRateLinear) * (1 - rotateRateLinear)
  mConduction * rotateRate + (1 - mConduction)

/-- The value that `BoneDynamics::pullBone` assigns to `aTarget.force` in the branch
`length >= normalizable()` (lines 114-117). -/
def pullForce (E : MathEnv α) (mConduction : α) (aTarget : RigidBone α)
    (aPull : QVector2D α) (aPullPos : α) : QVector2D α :=
  let rotateRate := rotateRate mConduction aPullPos
  let normDir := (aTarget.dir E).normalized E
  let vertical := normDir * QVector2D.dotProduct normDir aPull
  let horizontal := aPull - vertical
  mConduction * (vertical + (1 - rotateRate) * horizontal)

/-- The value that `BoneDynamics::pullBone` assigns to `aTarget.torque` in the branch
`length >= normalizable()` (lines 114-123). -/
def pullTorque (E : MathEnv α) (mConduction : α) (aTarget : RigidBone α)
    (aPull : QVector2D α) (aPullPos : α) : α :=
  let rotateRate := rotateRate mConduction aPullPos
  let normDir := (aTarget.dir E).normalized E
  let vertical := normDir * QVector2D.dotProduct normDir aPull
  let horizontal := aPull - vertical
  let rotate := horizontal * rotateRate
  (rotate.length E / aTarget.length) *
    (if aPullPos ≥ 1 / 2 then 1 else -1) *
    (if getCross normDir rotate > 0 then 1 else -1)

/-- The body of `adjustByOriginConstraint` (lines 172-189) for one node, once the
pull is known: the node after its motion and the pull that is returned. -/
def originStep (E : MathEnv α) (aTarget : RigidBone α) (pull : QVector2D α) :
    RigidBone α × QVector2D α :=
  if aTarget.length ≥ E.normalizable then
    let normDir := (aTarget.dir E).normalized E
    let trans := normDir * QVector2D.dotProduct normDir pull
    let rotate := pull - trans
    let torque := (rotate.length E / aTarget.length) *
      (if getCross normDir rotate < 0 then 1 else -1)
    (RigidBone.updateMotion E 1 { aTarget with force := trans, torque := torque }, trans)
  else
    (RigidBone.updateMotion E 1 { aTarget with force := pull }, pull)

/-- The recursion of `adjustByOriginConstraint` along the parent chain: `chain` are
the ancestors of the node, nearest first. The top node takes the gap to
`originPos`, and every node down the chain the pull its parent returned. -/
def originChain (E : MathEnv α) (originPos : QVector2D α) :
    RigidBone α → List (Crumb α) → (RigidBone α × List (Crumb α)) × QVector2D α
  | b, [] =>
    let r := originStep E b (originPos - b.rootPos)
    ((r.1, []), r.2)
  | b, c :: cs =>
    let up := originChain E originPos c.bone cs
    let r := originStep E b up.2
    ((r.1, { c with bone := up.1.1 } :: up.1.2), r.2)

/-- The method `BoneDynamics::adjustByOriginConstraint(aTarget)`: the tree after the
pass and the returned pull. -/
def adjustByOriginConstraint (E : MathEnv α) (D : BoneDynamics α) (aTarget : Focus α) :
    Focus α × QVector2D α :=
  let r := originChain E D.mTopBone.value.worldPos aTarget.bone aTarget.ancestors
  ({ aTarget with bone := r.1.1, ancestors := r.1.2 }, r.2)

/-- The loop of `pullParentBones` over the ancestors `parent`, nearest first, with
the running `pull`. -/
def pullParentChain (E : MathEnv α) (mConduction : α) :
    List (Crumb α) → QVector2D α → List (Crumb α)
  | [], _ => []
  | c :: cs, pull =>
    let parent := c.bone
    if parent.length ≥ E.normalizable then
      let normDir := (parent.dir E).normalized E
      let trans := normDir * QVector2D.dotProduct normDir pull
      let rotate := pull - trans
      let torque := (rotate.length E / parent.length) *
        (if getCross normDir rotate > 0 then 1 else -1)
      let parent := RigidBone.updateMotion E (-1)
        { parent with force := mConduction * trans, torque := torque }
      { c with bone := parent } :: pullParentChain E mConduction cs (mConduction * trans)
    else
      let parent := RigidBone.updateMotion E (-1) { parent with force := mConduction * pull }
      { c with bone := parent } :: pullParentChain E mConduction cs pull

/-- The method `BoneDynamics::pullParentBones(aTarget, aPull)`. -/
def pullParentBones (E : MathEnv α) (D : BoneDynamics α) (aTarget : Focus α)
    (aPull : QVector2D α) : Focus α :=
  { aTarget with ancestors := pullParentChain E D.mConduction aTarget.ancestors aPull }

/-- The loop body of `pullChildBonesRecursive` (lines 221-237) for one child: the
child after its motion and the translation handed to the recursive call. -/
def pullChildStep (E : MathEnv α) (child : RigidBone α) (aPull : QVector2D α) :
    RigidBone α × QVector2D α :=
  if child.length ≥ E.normalizable then
    let normDir := (child.dir E).normalized E
    let trans := normDir * QVector2D.dotProduct normDir aPull
    let rotate := aPull - trans
    let torque := (rotate.length E / child.length) *
      (if getCross normDir rotate < 0 then 1 else -1)
    (RigidBone.updateMotion E 1 { child with force := trans, torque := torque }, trans)
  else
    (RigidBone.updateMotion E 1 { child with force := aPull }, aPull)

mutual
/-- One turn of the loop of `pullChildBonesRecursive`: the child moves, then the
call recurses into it with the translation. -/
def pullChild (E : MathEnv α) : Tree (RigidBone α) → QVector2D α → Tree (RigidBone α)
  | Tree.node child cs, aPull =>
    Tree.node (pullChildStep E child aPull).1
      (pullChildren E cs (pullChildStep E child aPull).2)
/-- The loop of `pullChildBonesRecursive` over the children of a node. -/
def pullChildren (E : MathEnv α) :
    List (Tree (RigidBone α)) → QVector2D α → List (Tree (RigidBone α))
  | [], _ => []
  | c :: cs, aPull => pullChild E c aPull :: pullChildren E cs aPull
end

/-- The method `BoneDynamics::pullChildBonesRecursive(aTarget, aPull)`. -/
def pullChildBonesRecursive (E : MathEnv α) (aTarget : Focus α) (aPull : QVector2D α) :
    Focus α :=
  { aTarget with children := pullChildren E aTarget.children aPull }

/-- The loop body of `adjustParentBones` (lines 247-262) for the ancestor `parent`
whose child on the chain is `prev`. -/
def adjustParentStep (E : MathEnv α) (prev parent : RigidBone α) : RigidBone α :=
  let pull := prev.rootPos - parent.tailPos E
  if parent.length ≥ E.normalizable then
    let normDir := (parent.dir E).normalized E
    let trans := normDir * QVector2D.dotProduct normDir pull
    let rotate := pull - trans
    let torque := (rotate.length E / parent.length) *
      (if getCross normDir rotate > 0 then 1 else -1)
    RigidBone.updateMotion E (-1) { parent with force := trans, torque := torque }
  else
    RigidBone.updateMotion E (-1) { parent with force := pull }

/-- The loop of `adjustParentBones` over the ancestors, nearest first. -/
def adjustParentChain (E : MathEnv α) : RigidBone α → List (Crumb α) → List (Crumb α)
  | _, [] => []
  | prev, c :: cs =>
    let parent := adjustParentStep E prev c.bone
    { c with bone := parent } :: adjustParentChain E parent cs

/-- The method `BoneDynamics::adjustParentBones(aTarget)`. -/
def adjustParentBones (E : MathEnv α) (aTarget : Focus α) : Focus α :=
  { aTarget with ancestors := adjustParentChain E aTarget.bone aTarget.ancestors }

/-- The loop body of `adjustChildBonesRecursive` (lines 271-286) for one child of a
node whose tail is at `parentTail`. -/
def adjustChildStep (E : MathEnv α) (parentTail : QVector2D α) (child : RigidBone α) :
    RigidBone α :=
  let pull := parentTail - child.rootPos
  if child.length ≥ E.normalizable then
    let normDir := (child.dir E).normalized E
    let trans := normDir * QVector2D.dotProduct normDir pull
    let rotate := pull - trans
    let torque := (rotate.length E / child.length) *
      (if getCross normDir rotate < 0 then 1 else -1)
    RigidBone.updateMotion E 1 { child with force := trans, torque := torque }
  else
    RigidBone.updateMotion E 1 { child with force := pull }

mutual
/-- One turn of the loop of `adjustChildBonesRecursive`: the child moves, then the
call recurses into it. -/
def adjustChild (E : MathEnv α) : QVector2D α → Tree (RigidBone α) → Tree (RigidBone α)
  | parentTail, Tree.node child cs =>
    Tree.node (adjustChildStep E parentTail child)
      (adjustChildren E ((adjustChildStep E parentTail child).tailPos E) cs)
/-- The loop of `adjustChildBonesRecursive` over the children of a node. -/
def adjustChildren (E : MathEnv α) :
    QVector2D α → List (Tree (RigidBone α)) → List (Tree (RigidBone α))
  | _, [] => []
  | parentTail, c :: cs => adjustChild E parentTail c :: adjustChildren E parentTail cs
end

/-- The method `BoneDynamics::adjustChildBonesRecursive(aTarget)`. -/
def adjustChildBonesRecursive (E : MathEnv α) (aTarget : Focus α) : Focus α :=
  { aTarget with children := adjustChildren E (aTarget.bone.tailPos E) aTarget.children }

/-- The method `BoneDynamics::pullBone` up to the propagation to the children
(lines 105-149), before the adjustment loop. -/
def pullBonePropagate (E : MathEnv α) (D : BoneDynamics α) (aTarget : Focus α)
    (aPull : QVector2D α) (aPullPos : α) : Focus α :=
  let preRoot := aTarget.bone.rootPos
  let preTail := aTarget.bone.tailPos E
  let t1 : Focus α :=
    { aTarget with bone := pullTarget E D.mConduction aTarget.bone aPull aPullPos }
  let t2 := pullParentBones E D t1 (t1.bone.rootPos - preRoot)
  let t3 := (adjustByOriginConstraint E D t2).1
  pullChildBonesRecursive E t3 (t3.bone.tailPos E - preTail)

/-- One turn of the adjustment loop of `pullBone` (lines 154-155). -/
def adjustOnce (E : MathEnv α) (aTarget : Focus α) : Focus α :=
  adjustChildBonesRecursive E (adjustParentBones E aTarget)

/-- The method `BoneDynamics::pullBone(aTarget, aPull, aPullPos)`; the result is the
tree after the call, seen from the target. -/
def pullBone (E : MathEnv α) (D : BoneDynamics α) (aTarget : Focus α)
    (aPull : QVector2D α) (aPullPos : α) : Focus α :=
  (adjustOnce E)^[3] (pullBonePropagate E D aTarget aPull aPullPos)

/-- The method `BoneDynamics::updateMotions`. -/
def updateMotions (E : MathEnv α) (D : BoneDynamics α) : BoneDynamics α :=
  { D with mRigidTopBone :=
      Tree.map (RigidBone.updateMotion E RigidBone.defaultCentroid) D.mRigidTopBone }

/-- The point `connectPos` of `reconnectBonesRecursive` (lines 324-330): the loop
adds each child's `rootPos / count` to `tailPos / count`. -/
def connectPos (tailPos : QVector2D α) (children : List (Tree (RigidBone α))) :
    QVector2D α :=
  let count : α := ((1 + children.length : Nat) : α)
  children.foldl (fun connectPos child => connectPos + child.value.rootPos / count)
    (tailPos / count)

/-- The assignments of `reconnectBonesRecursive` (lines 334-352) to the node itself. -/
def reconnectStep (E : MathEnv α) (aCurrent : RigidBone α)
    (aRootPull tailPull : QVector2D α) : RigidBone α :=
  let dir := aCurrent.dir E
  let halfLength := (1 / 2 : α) * aCurrent.length
  if aCurrent.length ≥ E.normalizable then
    let normDir := dir.normalized E
    let rootTrans := normDir * QVector2D.dotProduct normDir aRootPull
    let rootRotate := aRootPull - rootTrans
    let tailTrans := normDir * QVector2D.dotProduct normDir tailPull
    let tailRotate := tailPull - tailTrans
    let rootTorque := (rootRotate.length E / halfLength) *
      (if getCross normDir rootRotate < 0 then 1 else -1)
    let tailTorque := (tailRotate.length E / halfLength) *
      (if getCross normDir tailRotate > 0 then 1 else -1)
    { aCurrent with force := rootTrans + tailTrans, torque := rootTorque + tailTorque }
  else
    { aCurrent with force := aRootPull + tailPull, torque := 0 }

mutual
/-- The method `BoneDynamics::reconnectBonesRecursive(aCurrent, aRootPull)`. -/
def reconnectBonesRecursive (E : MathEnv α) :
    Tree (RigidBone α) → QVector2D α → Tree (RigidBone α)
  | Tree.node aCurrent cs, aRootPull =>
    Tree.node
      (reconnectStep E aCurrent aRootPull
        (connectPos (aCurrent.rootPos + aCurrent.dir E) cs - (aCurrent.rootPos + aCurrent.dir E)))
      (reconnectChildren E (connectPos (aCurrent.rootPos + aCurrent.dir E) cs) cs)
/-- The last loop of `reconnectBonesRecursive` (lines 354-357) over the children,
each called with `connectPos - child->rootPos`. -/
def reconnectChildren (E : MathEnv α) :
    QVector2D α → List (Tree (RigidBone α)) → List (Tree (RigidBone α))
  | _, [] => []
  | connectPos, c :: cs =>
    reconnectBonesRecursive E c (connectPos - c.value.rootPos) ::
      reconnectChildren E connectPos cs
end

/-- The method `BoneDynamics::reconnectBones`. -/
def reconnectBones (E : MathEnv α) (D : BoneDynamics α) : BoneDynamics α :=
  let originPos := D.mRigidTopBone.value.tailPos E
  { D with mRigidTopBone :=
      Tree.node D.mRigidTopBone.value (reconnectChildren E originPos D.mRigidTopBone.children) }

end BoneDynamics

/-- The rigid trees that a `BoneDynamics` can hold: the tree its constructor built,
and the tree after `pullBone` on any node of a tree it can hold. -/
inductive Reachable {α : Type} [LinearOrderedField α] (E : MathEnv α) (D : BoneDynamics α) :
    Tree (RigidBone α) → Prop where
  | init : Reachable E D D.mRigidTopBone
  | pull (aTarget : Focus α) (aPull : QVector2D α) (aPullPos : α) :
      Reachable E D aTarget.plug →
      Reachable E D (BoneDynamics.pullBone E D aTarget aPull aPullPos).plug

/-- The reading of the rotation difference in section 4.4 of the specification: the
entry of every node with a parent is the signed difference from the normalised
value of `angle - parent.angle - localAngle` on the snapshot `before` to the
normalised value of the same expression on the tree `after` the pulls. -/
def SnapshotDifferences {α : Type} [LinearOrderedField α] (E : MathEnv α)
    (before after : BoneDynamics α) : Prop :=
  ∀ (i : Nat) (p0 b0 p b : RigidBone α),
    (Tree.preorder none before.mRigidTopBone)[i]? = some (some p0, b0) →
    (Tree.preorder none after.mRigidTopBone)[i]? = some (some p, b) →
    (BoneDynamics.rotationDifferences E after)[i]? = some
      (E.getAngleDifferenceRad (E.normalizeAngleRad (b0.angle - p0.angle - b0.ptr.localAngle))
        (E.normalizeAngleRad (b.angle - p.angle - b.ptr.localAngle)))

/-- The rotation difference of a source bone `b` with source parent `parent` on the
untouched snapshot: what `rotationDifferences` pushes for its rigid node when no
pull has been applied. -/
def snapshotDifference {α : Type} [LinearOrderedField α] (E : MathEnv α)
    (parent : Option (Bone2 α)) (b : Bone2 α) : α :=
  match parent with
  | some p =>
    E.getAngleDifferenceRad (E.normalizeAngleRad b.rotate)
      (E.normalizeAngleRad (b.worldAngle - p.worldAngle - b.localAngle))
  | none => 0

/-- The pivot of step 6 of section 4.3 of the specification: `Tail` (the mode 1) if
`pullPos ≥ 0.5`, else `Free` (the mode -1). -/
def specPivot {α : Type} [LinearOrderedField α] (aPullPos : α) : Int :=
  if aPullPos ≥ 1 / 2 then 1 else -1

/-- The torque of step 5 of section 4.3 of the specification: the magnitude
`|horizontal| * rotateRate / length`, with the sign `+1` if `pullPos ≥ 0.5` else `-1`,
times `+1` if `cross(direction, horizontal) > 0` else `-1`. -/
def specTorque {α : Type} [LinearOrderedField α] (E : MathEnv α) (mConduction : α)
    (aTarget : RigidBone α) (aPull : QVector2D α) (aPullPos : α) : α :=
  let normDir := (aTarget.dir E).normalized E
  let vertical := normDir * QVector2D.dotProduct normDir aPull
  let horizontal := aPull - vertical
  (horizontal.length E * BoneDynamics.rotateRate mConduction aPullPos / aTarget.length) *
    (if aPullPos ≥ 1 / 2 then 1 else -1) *
    (if getCross normDir horizontal > 0 then 1 else -1)

/-- The angle of a node whose `length` is below the threshold, and nothing for any
other node. -/
def degenerateAngle {α : Type} [LinearOrderedField α] (E : MathEnv α) (b : RigidBone α) :
    Option α :=
  if b.length < E.normalizable then some b.angle else none

/-! ## `DrawBoneMode::pullBone` -/

namespace DrawBoneMode

variable {α : Type} [LinearOrderedField α]

/-- The loop of `DrawBoneMode::pullBone` (lines 472-476) over `diffs`, with the
source bones still to come from the iterator and the values pushed so far. -/
def nextRotsLoop : List α → List (Bone2 α) → List α → List α
  | [], _, nextRots => nextRots
  | _ :: _, [], nextRots => nextRots
  | diff :: diffs, b :: itr, nextRots => nextRotsLoop diffs itr (nextRots ++ [b.rotate + diff])

/-- The first block of `DrawBoneMode::pullBone` (lines 443-464): the solver built
on the source tree `targetRoot`, after the sixteen pulls on the node found for the
address `aTarget` (or untouched when none is found). -/
def pullBoneDynamics (E : MathEnv α) (targetRoot : Tree (Bone2 α)) (aTarget : Nat)
    (aPull : QVector2D α) (aPullPosRate : α) : BoneDynamics α :=
  let dynamics := BoneDynamics.create E targetRoot
  match findTarget aTarget [] dynamics.mRigidTopBone with
  | some rigidTarget =>
    { dynamics with mRigidTopBone :=
        ((fun t => BoneDynamics.pullBone E dynamics t (aPull / (16 : α)) aPullPosRate)^[16]
          rigidTarget).plug }
  | none => dynamics

/-- The values `nextRots` that `DrawBoneMode::pullBone` hands to the command
(`RotateBones` or `modifyValue`), lines 443-477. -/
def pullBone (E : MathEnv α) (targetRoot : Tree (Bone2 α)) (aTarget : Nat)
    (aPull : QVector2D α) (aPullPosRate : α) : List α :=
  let dynamics := pullBoneDynamics E targetRoot aTarget aPull aPullPosRate
  let diffs := BoneDynamics.rotationDifferences E dynamics
  nextRotsLoop diffs (Tree.nodes targetRoot) []

end DrawBoneMode

/-! ## A chain of two bones along the x axis -/

section Axis

variable {α : Type} [LinearOrderedField α]

/-- A source skeleton of two bones: the top bone at the origin and one child bone at
`(10, 0)`, all angles 0, the child with the stored rotation `rot`. -/
def axisSource (rot : α) : Tree (Bone2 α) :=
  Tree.node ⟨0, ⟨0, 0⟩, 0, 0, 0⟩ [Tree.node ⟨1, ⟨10, 0⟩, 0, 0, rot⟩ []]

/-- A node of length 1 at the origin along the x axis, with the force `(1, 0)` and
the torque `1` waiting in its accumulators. -/
def unitBone : RigidBone α :=
  ⟨⟨0, ⟨0, 0⟩, 0, 0, 0⟩, ⟨0, 0⟩, 0, 1, ⟨1, 0⟩, 1⟩

/-- The rigid node of the top bone of `axisSource`, moved to `(r, 0)`. -/
def axisTop (r : α) : RigidBone α :=
  ⟨⟨0, ⟨0, 0⟩, 0, 0, 0⟩, ⟨r, 0⟩, 0, 0, 0, 0⟩

/-- The rigid node of the child bone of `axisSource rot`, moved to `(c, 0)`. -/
def axisChild (rot c : α) : RigidBone α :=
  ⟨⟨1, ⟨10, 0⟩, 0, 0, rot⟩, ⟨c, 0⟩, 0, 10, 0, 0⟩

/-- The rigid tree of `axisSource rot` seen from the child node, with the top node
moved to `(r, 0)` and the child node to `(c, 0)`. -/
def axisFocus (rot r c : α) : Focus α :=
  { bone := axisChild rot c
    children := []
    ancestors := [⟨axisTop r, [], []⟩] }

end Axis

/-! ## The real numbers as scalars -/

/-- Modelled from the spec: `util::MathUtil::normalizeAngleRad` is not among the
sources; it brings an angle into the interval `(-π, π]` by whole turns. -/
noncomputable def normalizeAngleReal (a : ℝ) : ℝ :=
  a - 2 * Real.pi * ⌈(a - Real.pi) / (2 * Real.pi)⌉

/-- Modelled from the spec: `util::MathUtil::getAngleDifferenceRad` is not among
the sources; it is the signed angular difference from `aFrom` to `aTo`. -/
noncomputable def angleDifferenceReal (aFrom aTo : ℝ) : ℝ :=
  normalizeAngleReal (aTo - aFrom)

/-- The environment of exact real arithmetic, with the threshold `eps` for
`core::Constant::normalizable()`. -/
noncomputable def realEnv (eps : ℝ) : MathEnv ℝ :=
  { cos := Real.cos
    sin := Real.sin
    sqrt := Real.sqrt
    normalizeAngleRad := normalizeAngleReal
    getAngleDifferenceRad := angleDifferenceReal
    normalizable := eps }

/-! ## A chain with a bone of length zero in the middle -/

section Coincident

variable {α : Type} [LinearOrderedField α]

/-- The ancestors, nearest first, of a bone in a chain along the x axis whose parent
bone starts and ends at `(10, 0)` (a source bone lying on its own parent, so a rigid
node of length 0), whose grandparent runs from the origin to `(10, 0)` and whose
top node sits at the origin. -/
def coincidentAncestors : List (Crumb α) :=
  [⟨axisTop 10, [], []⟩, ⟨axisChild 0 0, [], []⟩, ⟨axisTop 0, [], []⟩]

end Coincident

/-! ## Predicates on whole trees -/

section TreePredicates

variable {α : Type} [LinearOrderedField α]

mutual
/-- Every node of the tree satisfies `P`. -/
def Tree.All {β : Type} (P : β → Prop) : Tree β → Prop
  | Tree.node b cs => P b ∧ Tree.AllList P cs
/-- Every node of every tree of the forest satisfies `P`. -/
def Tree.AllList {β : Type} (P : β → Prop) : List (Tree β) → Prop
  | [] => True
  | c :: cs => Tree.All P c ∧ Tree.AllList P cs
end

/-- Both accumulators of the node are empty: `force` is the zero vector and `torque`
is 0. -/
def RigidBone.AtRest (b : RigidBone α) : Prop := b.force = 0 ∧ b.torque = 0

mutual
/-- Every child in the tree starts where its parent ends: `child.rootPos` is
`parent.tailPos()`. -/
def Connected (E : MathEnv α) : Tree (RigidBone α) → Prop
  | Tree.node b cs => ConnectedList E (b.tailPos E) cs
/-- Every tree of the forest starts at `tail` and is connected in itself. -/
def ConnectedList (E : MathEnv α) : QVector2D α → List (Tree (RigidBone α)) → Prop
  | _, [] => True
  | tail, c :: cs => (c.value.rootPos = tail ∧ Connected E c) ∧ ConnectedList E tail cs
end

/-- The node `b` and its ancestors `cs`, nearest first, are connected: each starts
where its parent ends. -/
def chainConnected (E : MathEnv α) : RigidBone α → List (Crumb α) → Prop
  | _, [] => True
  | b, c :: cs => b.rootPos = c.bone.tailPos E ∧ chainConnected E c.bone cs

end TreePredicates

/-! # Lemmas -/

namespace QVector2D

variable {α : Type} [LinearOrderedField α]

@[simp] theorem zero_x : (0 : QVector2D α).x = 0 := rfl
@[simp] theorem zero_y : (0 : QVector2D α).y = 0 := rfl
@[simp] theorem add_x (a b : QVector2D α) : (a + b).x = a.x + b.x := rfl
@[simp] theorem add_y (a b : QVector2D α) : (a + b).y = a.y + b.y := rfl
@[simp] theorem sub_x (a b : QVector2D α) : (a - b).x = a.x - b.x := rfl
@[simp] theorem sub_y (a b : QVector2D α) : (a - b).y = a.y - b.y := rfl
@[simp] theorem smul_x (k : α) (v : QVector2D α) : (k * v).x = k * v.x := rfl
@[simp] theorem smul_y (k : α) (v : QVector2D α) : (k * v).y = k * v.y := rfl
@[simp] theorem muls_x (v : QVector2D α) (k : α) : (v * k).x = v.x * k := rfl
@[simp] theorem muls_y (v : QVector2D α) (k : α) : (v * k).y = v.y * k := rfl
@[simp] theorem div_x (v : QVector2D α) (k : α) : (v / k).x = v.x / k := rfl
@[simp] theorem div_y (v : QVector2D α) (k : α) : (v / k).y = v.y / k := rfl

theorem zero_def : (0 : QVector2D α) = ⟨0, 0⟩ := rfl
theorem mk_add_mk (a b c d : α) : (⟨a, b⟩ : QVector2D α) + ⟨c, d⟩ = ⟨a + c, b + d⟩ := rfl
theorem mk_sub_mk (a b c d : α) : (⟨a, b⟩ : QVector2D α) - ⟨c, d⟩ = ⟨a - c, b - d⟩ := rfl
theorem smul_mk (k a b : α) : k * (⟨a, b⟩ : QVector2D α) = ⟨k * a, k * b⟩ := rfl
theorem mk_muls (a b k : α) : (⟨a, b⟩ : QVector2D α) * k = ⟨a * k, b * k⟩ := rfl
theorem mk_div (a b k : α) : (⟨a, b⟩ : QVector2D α) / k = ⟨a / k, b / k⟩ := rfl

end QVector2D

namespace Tree

variable {β γ : Type}

mutual
theorem length_preorder : ∀ (p : Option β) (t : Tree β), (preorder p t).length = size t
  | p, node b cs => by simp [preorder, size, length_preorderList b cs, Nat.add_comm]
theorem length_preorderList : ∀ (p : β) (ts : List (Tree β)),
    (preorderList p ts).length = sizeList ts
  | _, [] => by simp [preorderList, sizeList]
  | p, c :: cs => by
    simp [preorderList, sizeList, length_preorder (some p) c, length_preorderList p cs]
end

end Tree

theorem foldl_push_eq_map {β γ : Type} (g : β → γ) (l : List β) (acc : List γ) :
    l.foldl (fun ds it => ds ++ [g it]) acc = acc ++ l.map g := by
  induction l generalizing acc with
  | nil => simp
  | cons a l ih => simp [ih]

theorem foldl_connect {α : Type} [LinearOrderedField α] (k : α)
    (cs : List (Tree (RigidBone α))) (acc : QVector2D α) :
    cs.foldl (fun (p : QVector2D α) (child : Tree (RigidBone α)) =>
        p + child.value.rootPos / k) acc =
      acc + (cs.map fun c => c.value.rootPos).sum / k := by
  induction cs generalizing acc with
  | nil => ext <;> simp
  | cons c cs ih =>
    rw [List.foldl_cons, ih]
    ext <;> simp <;> ring

theorem reconnectChildren_eq_map {α : Type} [LinearOrderedField α] (E : MathEnv α)
    (p : QVector2D α) (cs : List (Tree (RigidBone α))) :
    BoneDynamics.reconnectChildren E p cs =
      cs.map fun c => BoneDynamics.reconnectBonesRecursive E c (p - c.value.rootPos) := by
  induction cs with
  | nil => simp [BoneDynamics.reconnectChildren]
  | cons c cs ih => simp [BoneDynamics.reconnectChildren, ih]

/-! ## What the solver never writes -/

section Shape

variable {α : Type}

theorem mapList_eq_map {β γ : Type} (f : β → γ) (l : List (Tree β)) :
    Tree.mapList f l = l.map (Tree.map f) := by
  induction l with
  | nil => simp [Tree.mapList]
  | cons c cs ih => simp [Tree.mapList, ih]

theorem map_plugChain (t t2 : Tree (RigidBone α)) (cs cs2 : List (Crumb α))
    (ht : Tree.map RigidBone.fixed t = Tree.map RigidBone.fixed t2)
    (hcs : cs.map Crumb.fixed = cs2.map Crumb.fixed) :
    Tree.map RigidBone.fixed (plugChain t cs) = Tree.map RigidBone.fixed (plugChain t2 cs2) := by
  induction cs generalizing t t2 cs2 with
  | nil =>
    cases cs2 with
    | nil => simpa [plugChain] using ht
    | cons c2 cs2 => simp at hcs
  | cons c cs ih =>
    cases cs2 with
    | nil => simp at hcs
    | cons c2 cs2 =>
      simp only [List.map_cons, List.cons.injEq, Crumb.fixed, Prod.mk.injEq] at hcs
      obtain ⟨⟨hb, hl, hr⟩, hrest⟩ := hcs
      simp only [plugChain]
      apply ih _ _ _ _ hrest
      simp only [Crumb.close, Tree.map, mapList_eq_map, List.map_append, List.map_cons, hl,
        hr, ht, hb]

theorem map_plug_of_fixed (f g : Focus α) (h : f.fixed = g.fixed) :
    Tree.map RigidBone.fixed f.plug = Tree.map RigidBone.fixed g.plug := by
  simp only [Focus.fixed, Prod.mk.injEq] at h
  obtain ⟨hb, hc, ha⟩ := h
  apply map_plugChain _ _ _ _ _ ha
  simp only [Tree.map, hb, hc]

theorem value_plugChain (t : Tree (RigidBone α)) (cs : List (Crumb α)) :
    (plugChain t cs).value = chainRoot t.value cs := by
  induction cs generalizing t with
  | nil => rfl
  | cons c cs ih =>
    rw [plugChain, chainRoot, ih]
    rfl

theorem root_eq_value_plug (f : Focus α) : f.root = f.plug.value := by
  rw [Focus.root, Focus.plug, value_plugChain]
  rfl

mutual
theorem plug_findTarget (a : Nat) : ∀ (t : Tree (RigidBone α)) (ctx : List (Crumb α))
    (f : Focus α), findTarget a ctx t = some f → f.plug = plugChain t ctx
  | Tree.node b cs, ctx, f, h => by
    simp only [findTarget] at h
    split_ifs at h
    · cases h
      rfl
    · simpa using plug_findTargetList a cs b ctx [] f h
theorem plug_findTargetList (a : Nat) : ∀ (cs : List (Tree (RigidBone α))) (b : RigidBone α)
    (ctx : List (Crumb α)) (left : List (Tree (RigidBone α))) (f : Focus α),
    findTargetList a b ctx left cs = some f → f.plug = plugChain (Tree.node b (left ++ cs)) ctx
  | [], _, _, _, _, h => by simp [findTargetList] at h
  | c :: cs, b, ctx, left, f, h => by
    simp only [findTargetList] at h
    cases hc : findTarget a (⟨b, left, cs⟩ :: ctx) c with
    | some g =>
      rw [hc] at h
      cases h
      rw [plug_findTarget a c _ _ hc]
      simp [plugChain, Crumb.close]
    | none =>
      rw [hc] at h
      simpa using plug_findTargetList a cs b ctx (left ++ [c]) f h
end

end Shape

section Fixed

variable {α : Type} [LinearOrderedField α]

theorem fixed_updateMotion (E : MathEnv α) (c : Int) (b : RigidBone α) :
    (RigidBone.updateMotion E c b).fixed = b.fixed := by
  unfold RigidBone.updateMotion
  split_ifs <;> rfl

theorem fixed_pullTarget (E : MathEnv α) (k : α) (b : RigidBone α) (p : QVector2D α) (pos : α) :
    (BoneDynamics.pullTarget E k b p pos).fixed = b.fixed := by
  unfold BoneDynamics.pullTarget
  split_ifs <;> simp only [fixed_updateMotion] <;> rfl

theorem fixed_originStep (E : MathEnv α) (b : RigidBone α) (p : QVector2D α) :
    (BoneDynamics.originStep E b p).1.fixed = b.fixed := by
  unfold BoneDynamics.originStep
  split_ifs <;> simp only [fixed_updateMotion] <;> rfl

theorem fixed_pullChildStep (E : MathEnv α) (b : RigidBone α) (p : QVector2D α) :
    (BoneDynamics.pullChildStep E b p).1.fixed = b.fixed := by
  unfold BoneDynamics.pullChildStep
  split_ifs <;> simp only [fixed_updateMotion] <;> rfl

theorem fixed_adjustParentStep (E : MathEnv α) (prev b : RigidBone α) :
    (BoneDynamics.adjustParentStep E prev b).fixed = b.fixed := by
  unfold BoneDynamics.adjustParentStep
  simp only []
  split_ifs <;> simp only [fixed_updateMotion] <;> rfl

theorem fixed_adjustChildStep (E : MathEnv α) (t : QVector2D α) (b : RigidBone α) :
    (BoneDynamics.adjustChildStep E t b).fixed = b.fixed := by
  unfold BoneDynamics.adjustChildStep
  simp only []
  split_ifs <;> simp only [fixed_updateMotion] <;> rfl

theorem fixed_originChain (E : MathEnv α) (o : QVector2D α) (b : RigidBone α)
    (cs : List (Crumb α)) :
    (BoneDynamics.originChain E o b cs).1.1.fixed = b.fixed ∧
    (BoneDynamics.originChain E o b cs).1.2.map Crumb.fixed = cs.map Crumb.fixed := by
  induction cs generalizing b with
  | nil => simp [BoneDynamics.originChain, fixed_originStep]
  | cons c cs ih =>
    have h := ih c.bone
    simp only [BoneDynamics.originChain, fixed_originStep, List.map_cons, h.2, true_and]
    simp [Crumb.fixed, h.1]

theorem fixed_pullParentChain (E : MathEnv α) (k : α) (cs : List (Crumb α)) (p : QVector2D α) :
    (BoneDynamics.pullParentChain E k cs p).map Crumb.fixed = cs.map Crumb.fixed := by
  induction cs generalizing p with
  | nil => simp [BoneDynamics.pullParentChain]
  | cons c cs ih =>
    unfold BoneDynamics.pullParentChain
    simp only []
    split_ifs <;> simp only [List.map_cons, ih] <;>
      simp only [Crumb.fixed, fixed_updateMotion] <;> rfl

theorem fixed_adjustParentChain (E : MathEnv α) (prev : RigidBone α) (cs : List (Crumb α)) :
    (BoneDynamics.adjustParentChain E prev cs).map Crumb.fixed = cs.map Crumb.fixed := by
  induction cs generalizing prev with
  | nil => simp [BoneDynamics.adjustParentChain]
  | cons c cs ih =>
    simp only [BoneDynamics.adjustParentChain, List.map_cons, ih]
    simp [Crumb.fixed, fixed_adjustParentStep]

mutual
theorem fixed_pullChild (E : MathEnv α) : ∀ (t : Tree (RigidBone α)) (p : QVector2D α),
    Tree.map RigidBone.fixed (BoneDynamics.pullChild E t p) = Tree.map RigidBone.fixed t
  | Tree.node b cs, p => by
    simp only [BoneDynamics.pullChild, Tree.map, fixed_pullChildStep,
      fixed_pullChildren E cs (BoneDynamics.pullChildStep E b p).2]
theorem fixed_pullChildren (E : MathEnv α) : ∀ (ts : List (Tree (RigidBone α))) (p : QVector2D α),
    Tree.mapList RigidBone.fixed (BoneDynamics.pullChildren E ts p) =
      Tree.mapList RigidBone.fixed ts
  | [], _ => by simp [BoneDynamics.pullChildren]
  | c :: cs, p => by
    simp only [BoneDynamics.pullChildren, Tree.mapList, fixed_pullChild E c p,
      fixed_pullChildren E cs p]
end

mutual
theorem fixed_adjustChild (E : MathEnv α) : ∀ (p : QVector2D α) (t : Tree (RigidBone α)),
    Tree.map RigidBone.fixed (BoneDynamics.adjustChild E p t) = Tree.map RigidBone.fixed t
  | p, Tree.node b cs => by
    simp only [BoneDynamics.adjustChild, Tree.map, fixed_adjustChildStep,
      fixed_adjustChildren E ((BoneDynamics.adjustChildStep E p b).tailPos E) cs]
theorem fixed_adjustChildren (E : MathEnv α) : ∀ (p : QVector2D α) (ts : List (Tree (RigidBone α))),
    Tree.mapList RigidBone.fixed (BoneDynamics.adjustChildren E p ts) =
      Tree.mapList RigidBone.fixed ts
  | _, [] => by simp [BoneDynamics.adjustChildren]
  | p, c :: cs => by
    simp only [BoneDynamics.adjustChildren, Tree.mapList, fixed_adjustChild E p c,
      fixed_adjustChildren E p cs]
end

theorem fixed_pullBonePropagate (E : MathEnv α) (D : BoneDynamics α) (f : Focus α)
    (p : QVector2D α) (pos : α) :
    (BoneDynamics.pullBonePropagate E D f p pos).fixed = f.fixed := by
  simp only [BoneDynamics.pullBonePropagate, BoneDynamics.pullChildBonesRecursive,
    BoneDynamics.adjustByOriginConstraint, BoneDynamics.pullParentBones, Focus.fixed,
    fixed_pullChildren, (fixed_originChain E _ _ _).1, (fixed_originChain E _ _ _).2,
    fixed_pullParentChain, fixed_pullTarget]

theorem fixed_adjustOnce (E : MathEnv α) (f : Focus α) :
    (BoneDynamics.adjustOnce E f).fixed = f.fixed := by
  simp only [BoneDynamics.adjustOnce, BoneDynamics.adjustChildBonesRecursive,
    BoneDynamics.adjustParentBones, Focus.fixed, fixed_adjustChildren, fixed_adjustParentChain]

theorem fixed_adjustIter (E : MathEnv α) (n : Nat) (f : Focus α) :
    ((BoneDynamics.adjustOnce E)^[n] f).fixed = f.fixed := by
  induction n generalizing f with
  | zero => rfl
  | succ n ih => rw [Function.iterate_succ_apply, ih, fixed_adjustOnce]

theorem fixed_pullBone (E : MathEnv α) (D : BoneDynamics α) (f : Focus α)
    (p : QVector2D α) (pos : α) :
    (BoneDynamics.pullBone E D f p pos).fixed = f.fixed := by
  rw [BoneDynamics.pullBone, fixed_adjustIter, fixed_pullBonePropagate]

theorem value_map {β γ : Type} (g : β → γ) (t : Tree β) :
    (Tree.map g t).value = g t.value := by
  cases t; rfl

theorem reachable_fixed (E : MathEnv α) (D : BoneDynamics α) (t : Tree (RigidBone α))
    (h : Reachable E D t) :
    Tree.map RigidBone.fixed t = Tree.map RigidBone.fixed D.mRigidTopBone := by
  induction h with
  | init => rfl
  | pull f p pos _ ih => exact (map_plug_of_fixed _ _ (fixed_pullBone E D f p pos)).trans ih

mutual
theorem size_map {β γ : Type} (g : β → γ) : ∀ t : Tree β, (Tree.map g t).size = t.size
  | Tree.node b cs => by simp only [Tree.map, Tree.size, sizeList_mapList g cs]
theorem sizeList_mapList {β γ : Type} (g : β → γ) : ∀ ts : List (Tree β),
    Tree.sizeList (Tree.mapList g ts) = Tree.sizeList ts
  | [] => rfl
  | c :: cs => by simp only [Tree.mapList, Tree.sizeList, size_map g c, sizeList_mapList g cs]
end

mutual
theorem size_createShadow (E : MathEnv α) : ∀ (p : Option (Bone2 α)) (t : Tree (Bone2 α)),
    (BoneDynamics.createShadow E p t).size = t.size
  | p, Tree.node b cs => by
    simp only [BoneDynamics.createShadow, Tree.size, sizeList_createShadowList E b cs]
theorem sizeList_createShadowList (E : MathEnv α) : ∀ (p : Bone2 α) (ts : List (Tree (Bone2 α))),
    Tree.sizeList (BoneDynamics.createShadowList E p ts) = Tree.sizeList ts
  | _, [] => rfl
  | p, c :: cs => by
    simp only [BoneDynamics.createShadowList, Tree.sizeList, size_createShadow E (some p) c,
      sizeList_createShadowList E p cs]
end

end Fixed

section Shape2

variable {α : Type}

theorem size_eq_of_fixed (t t2 : Tree (RigidBone α))
    (h : Tree.map RigidBone.fixed t = Tree.map RigidBone.fixed t2) : t.size = t2.size := by
  rw [← size_map RigidBone.fixed t, h, size_map]

theorem fixed_iterate (g : Focus α → Focus α) (hg : ∀ f, (g f).fixed = f.fixed) (n : Nat)
    (f : Focus α) : (g^[n] f).fixed = f.fixed := by
  induction n generalizing f with
  | zero => rfl
  | succ n ih => rw [Function.iterate_succ_apply, ih, hg]

end Shape2

section Fixed2

variable {α : Type} [LinearOrderedField α]

theorem nextRotsLoop_eq (ds : List α) (bs : List (Bone2 α)) (acc : List α) :
    DrawBoneMode.nextRotsLoop ds bs acc =
      acc ++ List.zipWith (fun b d => b.rotate + d) bs ds := by
  induction ds generalizing bs acc with
  | nil => simp [DrawBoneMode.nextRotsLoop]
  | cons d ds ih =>
    cases bs with
    | nil => simp [DrawBoneMode.nextRotsLoop]
    | cons b bs => simp [DrawBoneMode.nextRotsLoop, ih]

theorem length_rotationDifferences (E : MathEnv α) (D : BoneDynamics α) :
    (BoneDynamics.rotationDifferences E D).length = D.mRigidTopBone.size := by
  unfold BoneDynamics.rotationDifferences
  rw [foldl_push_eq_map
    (fun it : Option (RigidBone α) × RigidBone α => BoneDynamics.rotationDifference E it.1 it.2)]
  simp [Tree.length_preorder]

theorem size_pullBoneDynamics (E : MathEnv α) (targetRoot : Tree (Bone2 α)) (aTarget : Nat)
    (aPull : QVector2D α) (aPullPosRate : α) :
    (DrawBoneMode.pullBoneDynamics E targetRoot aTarget aPull aPullPosRate).mRigidTopBone.size
      = targetRoot.size := by
  unfold DrawBoneMode.pullBoneDynamics
  simp only []
  cases hf : findTarget aTarget [] (BoneDynamics.create E targetRoot).mRigidTopBone with
  | none => simp [BoneDynamics.create, size_createShadow]
  | some f =>
    simp only []
    have h1 := fixed_iterate
      (fun t => BoneDynamics.pullBone E (BoneDynamics.create E targetRoot) t
        (aPull / (16 : α)) aPullPosRate)
      (fun t => fixed_pullBone E _ t _ _) 16 f
    rw [size_eq_of_fixed _ _ (map_plug_of_fixed _ _ h1), plug_findTarget _ _ _ _ hf]
    simp [plugChain, BoneDynamics.create, size_createShadow]

end Fixed2

/-! ## The top node -/

section TopShape

variable {α : Type}

theorem chainRoot_fixed (b b2 : RigidBone α) (cs cs2 : List (Crumb α))
    (hb : b.fixed = b2.fixed) (hcs : cs.map Crumb.fixed = cs2.map Crumb.fixed) :
    (chainRoot b cs).fixed = (chainRoot b2 cs2).fixed := by
  induction cs generalizing b b2 cs2 with
  | nil =>
    cases cs2 with
    | nil => simpa [chainRoot] using hb
    | cons c2 cs2 => simp at hcs
  | cons c cs ih =>
    cases cs2 with
    | nil => simp at hcs
    | cons c2 cs2 =>
      simp only [List.map_cons, List.cons.injEq, Crumb.fixed, Prod.mk.injEq] at hcs
      simp only [chainRoot]
      exact ih c.bone c2.bone cs2 hcs.1.1 hcs.2

theorem root_length_of_fixed (f g : Focus α) (h : f.fixed = g.fixed) :
    f.root.length = g.root.length := by
  simp only [Focus.fixed, Prod.mk.injEq] at h
  have := chainRoot_fixed f.bone g.bone f.ancestors g.ancestors h.1 h.2.2
  simp only [RigidBone.fixed, Prod.mk.injEq] at this
  exact this.2

theorem ancestors_ne_nil_of_fixed (f g : Focus α) (h : f.fixed = g.fixed)
    (hf : f.ancestors ≠ []) : g.ancestors ≠ [] := by
  simp only [Focus.fixed, Prod.mk.injEq] at h
  intro hg
  rw [hg] at h
  exact hf (by simpa using h.2.2)

end TopShape

section TopNode

variable {α : Type} [LinearOrderedField α]

theorem length_root_of_reachable (E : MathEnv α) (hsqrt : E.sqrt 0 = 0)
    (targetRoot : Tree (Bone2 α)) (f : Focus α)
    (h : Reachable E (BoneDynamics.create E targetRoot) f.plug) : f.root.length = 0 := by
  have h1 := congrArg Tree.value (reachable_fixed E _ _ h)
  rw [value_map, value_map, ← root_eq_value_plug] at h1
  have h2 : f.root.length = (BoneDynamics.create E targetRoot).mRigidTopBone.value.length := by
    simpa [RigidBone.fixed] using congrArg Prod.snd h1
  rw [h2]
  cases targetRoot with
  | node b cs =>
    simp [BoneDynamics.create, BoneDynamics.createShadow, Tree.value, RigidBone.create,
      QVector2D.length, hsqrt]

theorem originStep_rootPos_of_length_zero (E : MathEnv α) (heps : 0 < E.normalizable)
    (b : RigidBone α) (hlen : b.length = 0) (o : QVector2D α) :
    (BoneDynamics.originStep E b (o - b.rootPos)).1.rootPos = o := by
  have hlt : ¬ (b.length ≥ E.normalizable) := by
    rw [hlen]
    exact not_le.mpr heps
  unfold BoneDynamics.originStep
  rw [if_neg hlt]
  ext <;>
    simp [RigidBone.updateMotion, RigidBone.tailPos, getVectorFromPolarCoord,
      getRotateVectorRad, hlen]

theorem originChain_root (E : MathEnv α) (heps : 0 < E.normalizable) (o : QVector2D α)
    (b : RigidBone α) (cs : List (Crumb α)) (hlen : (chainRoot b cs).length = 0) :
    (chainRoot (BoneDynamics.originChain E o b cs).1.1
      (BoneDynamics.originChain E o b cs).1.2).rootPos = o := by
  induction cs generalizing b with
  | nil =>
    simp only [BoneDynamics.originChain, chainRoot]
    exact originStep_rootPos_of_length_zero E heps b hlen o
  | cons c cs ih =>
    simp only [BoneDynamics.originChain, chainRoot]
    exact ih c.bone hlen

theorem adjustParentStep_rootPos_of_length_zero (E : MathEnv α) (heps : 0 < E.normalizable)
    (prev b : RigidBone α) (hlen : b.length = 0) :
    (BoneDynamics.adjustParentStep E prev b).rootPos = prev.rootPos := by
  have hlt : ¬ (b.length ≥ E.normalizable) := by
    rw [hlen]
    exact not_le.mpr heps
  unfold BoneDynamics.adjustParentStep
  simp only []
  rw [if_neg hlt]
  ext <;>
    simp [RigidBone.updateMotion, RigidBone.tailPos, getVectorFromPolarCoord, hlen]

theorem adjustParentChain_root (E : MathEnv α) (heps : 0 < E.normalizable)
    (prev : RigidBone α) (cs : List (Crumb α)) (hcs : cs ≠ [])
    (hlen : (chainRoot prev cs).length = 0) :
    ∃ c, chainRootChild prev (BoneDynamics.adjustParentChain E prev cs) = some c ∧
      (chainRoot prev (BoneDynamics.adjustParentChain E prev cs)).rootPos = c.rootPos := by
  induction cs generalizing prev with
  | nil => exact absurd rfl hcs
  | cons c cs ih =>
    cases cs with
    | nil =>
      refine ⟨prev, ?_, ?_⟩
      · simp [BoneDynamics.adjustParentChain, chainRootChild]
      · simp only [BoneDynamics.adjustParentChain, chainRoot]
        exact adjustParentStep_rootPos_of_length_zero E heps prev c.bone hlen
    | cons c2 cs =>
      have h := ih (BoneDynamics.adjustParentStep E prev c.bone) (by simp) hlen
      simpa [BoneDynamics.adjustParentChain, chainRootChild, chainRoot] using h

theorem adjustOnce_root (E : MathEnv α) (heps : 0 < E.normalizable) (f : Focus α)
    (hanc : f.ancestors ≠ []) (hlen : f.root.length = 0) :
    ∃ c, (BoneDynamics.adjustOnce E f).rootChild = some c ∧
      (BoneDynamics.adjustOnce E f).root.rootPos = c.rootPos :=
  adjustParentChain_root E heps f.bone f.ancestors hanc hlen

theorem pullBonePropagate_root (E : MathEnv α) (heps : 0 < E.normalizable)
    (D : BoneDynamics α) (f : Focus α) (hlen : f.root.length = 0)
    (aPull : QVector2D α) (aPullPos : α) :
    (BoneDynamics.pullBonePropagate E D f aPull aPullPos).root.rootPos =
      D.mTopBone.value.worldPos := by
  simp only [BoneDynamics.pullBonePropagate, BoneDynamics.pullChildBonesRecursive,
    BoneDynamics.adjustByOriginConstraint, BoneDynamics.pullParentBones, Focus.root]
  apply originChain_root E heps
  have h := chainRoot_fixed
    (BoneDynamics.pullTarget E D.mConduction f.bone aPull aPullPos) f.bone
    (BoneDynamics.pullParentChain E D.mConduction f.ancestors
      ((BoneDynamics.pullTarget E D.mConduction f.bone aPull aPullPos).rootPos - f.bone.rootPos))
    f.ancestors (fixed_pullTarget _ _ _ _ _) (fixed_pullParentChain _ _ _ _)
  simp only [RigidBone.fixed, Prod.mk.injEq] at h
  rw [h.2]
  exact hlen

end TopNode

/-! ## The chain along the x axis -/

section AxisLemmas

variable {α : Type} [LinearOrderedField α]

theorem axis_create (E : MathEnv α) (hsqrt0 : E.sqrt 0 = 0) (hsqrt : E.sqrt 100 = 10)
    (rot : α) :
    (BoneDynamics.create E (axisSource rot)).mRigidTopBone = (axisFocus rot 0 0).plug := by
  simp [BoneDynamics.create, axisSource, axisFocus, axisTop, axisChild,
    BoneDynamics.createShadow,
    BoneDynamics.createShadowList, RigidBone.create, QVector2D.length, Focus.plug, plugChain,
    Crumb.close, hsqrt0]
  norm_num [hsqrt]

theorem axis_findTarget (rot r c : α) :
    findTarget 1 [] (axisFocus rot r c).plug = some (axisFocus rot r c) := by
  simp [findTarget, findTargetList, axisFocus, axisTop, axisChild, Focus.plug, plugChain,
    Crumb.close]

theorem axis_normDir (E : MathEnv α) (hcos : E.cos 0 = 1) (hsin : E.sin 0 = 0)
    (hsqrt : E.sqrt 100 = 10) (ptr : Bone2 α) (q f : QVector2D α) (t : α) :
    (RigidBone.dir E ⟨ptr, q, 0, 10, f, t⟩).normalized E = ⟨1, 0⟩ := by
  have h100 : (10 : α) * 10 = 100 := by norm_num
  simp [RigidBone.dir, getVectorFromPolarCoord, QVector2D.normalized, QVector2D.length,
    hcos, hsin, h100, hsqrt]
  ext <;> simp

theorem axis_pullTarget (E : MathEnv α) (hcos : E.cos 0 = 1) (hsin : E.sin 0 = 0)
    (hsqrt0 : E.sqrt 0 = 0) (hsqrt : E.sqrt 100 = 10)
    (heps10 : E.normalizable ≤ 10) (ptr : Bone2 α) (k c p : α) :
    BoneDynamics.pullTarget E k ⟨ptr, ⟨c, 0⟩, 0, 10, 0, 0⟩ ⟨p, 0⟩ 1 =
      ⟨ptr, ⟨c + k * p, 0⟩, 0, 10, 0, 0⟩ := by
  have h2 : (10 : α) ≥ E.normalizable := heps10
  have h3 : (1 : α) ≥ 1 / 2 := by norm_num
  unfold BoneDynamics.pullTarget
  simp only [if_pos h2, if_pos h3, axis_normDir E hcos hsin hsqrt]
  simp [RigidBone.updateMotion, QVector2D.dotProduct, getCross, QVector2D.length,
    QVector2D.mk_add_mk, QVector2D.mk_sub_mk, QVector2D.smul_mk, QVector2D.mk_muls,
    QVector2D.zero_def, hsqrt0]

theorem axis_pullParentChain (E : MathEnv α) (heps : 0 < E.normalizable)
    (ptr : Bone2 α) (k r q : α) :
    BoneDynamics.pullParentChain E k [⟨⟨ptr, ⟨r, 0⟩, 0, 0, 0, 0⟩, [], []⟩] ⟨q, 0⟩ =
      [⟨⟨ptr, ⟨r + k * q, 0⟩, 0, 0, 0, 0⟩, [], []⟩] := by
  have h1 : ¬ ((0 : α) ≥ E.normalizable) := not_le.mpr heps
  simp [BoneDynamics.pullParentChain, h1, RigidBone.updateMotion,
    QVector2D.mk_add_mk, QVector2D.smul_mk, QVector2D.zero_def]

theorem axis_originChain (E : MathEnv α) (hcos : E.cos 0 = 1) (hsin : E.sin 0 = 0)
    (hsqrt0 : E.sqrt 0 = 0) (hsqrt : E.sqrt 100 = 10) (heps : 0 < E.normalizable)
    (heps10 : E.normalizable ≤ 10) (ptr ptr0 : Bone2 α) (r c : α) :
    BoneDynamics.originChain E ⟨0, 0⟩ ⟨ptr, ⟨c, 0⟩, 0, 10, 0, 0⟩
        [⟨⟨ptr0, ⟨r, 0⟩, 0, 0, 0, 0⟩, [], []⟩] =
      ((⟨ptr, ⟨c - r, 0⟩, 0, 10, 0, 0⟩, [⟨⟨ptr0, ⟨0, 0⟩, 0, 0, 0, 0⟩, [], []⟩]), ⟨-r, 0⟩) := by
  have h1 : ¬ ((0 : α) ≥ E.normalizable) := not_le.mpr heps
  have h2 : (10 : α) ≥ E.normalizable := heps10
  simp only [BoneDynamics.originChain, BoneDynamics.originStep, if_neg h1, if_pos h2,
    axis_normDir E hcos hsin hsqrt]
  simp [RigidBone.updateMotion, RigidBone.tailPos, getVectorFromPolarCoord, getRotateVectorRad,
    QVector2D.dotProduct, getCross, QVector2D.length,
    QVector2D.mk_add_mk, QVector2D.mk_sub_mk, QVector2D.smul_mk, QVector2D.mk_muls,
    QVector2D.zero_def, hsqrt0, hcos, hsin]
  ring

theorem axis_adjustParentChain (E : MathEnv α) (heps : 0 < E.normalizable)
    (prev : RigidBone α) (ptr0 : Bone2 α) (r : α) :
    BoneDynamics.adjustParentChain E prev [⟨⟨ptr0, ⟨r, 0⟩, 0, 0, 0, 0⟩, [], []⟩] =
      [⟨⟨ptr0, prev.rootPos, 0, 0, 0, 0⟩, [], []⟩] := by
  have h1 : ¬ ((0 : α) ≥ E.normalizable) := not_le.mpr heps
  simp only [BoneDynamics.adjustParentChain, BoneDynamics.adjustParentStep, if_neg h1]
  simp [RigidBone.updateMotion, RigidBone.tailPos, getVectorFromPolarCoord,
    QVector2D.mk_add_mk, QVector2D.zero_def]
  ext <;> simp

theorem axis_pullBone (E : MathEnv α) (hcos : E.cos 0 = 1) (hsin : E.sin 0 = 0)
    (hsqrt0 : E.sqrt 0 = 0) (hsqrt : E.sqrt 100 = 10) (heps : 0 < E.normalizable)
    (heps10 : E.normalizable ≤ 10) (rot r c p : α) :
    BoneDynamics.pullBone E (BoneDynamics.create E (axisSource rot)) (axisFocus rot r c)
      ⟨p, 0⟩ 1 =
      axisFocus rot (c + p / 10 - p / 100 - r) (c + p / 10 - p / 100 - r) := by
  have hprop : BoneDynamics.pullBonePropagate E (BoneDynamics.create E (axisSource rot))
      (axisFocus rot r c) ⟨p, 0⟩ 1 = axisFocus rot 0 (c + p / 10 - p / 100 - r) := by
    simp only [BoneDynamics.pullBonePropagate, BoneDynamics.pullParentBones,
      BoneDynamics.adjustByOriginConstraint, BoneDynamics.pullChildBonesRecursive, axisFocus,
      axisTop, axisChild,
      BoneDynamics.create, axisSource, Tree.value,
      axis_pullTarget E hcos hsin hsqrt0 hsqrt heps10, QVector2D.mk_sub_mk, sub_self,
      add_sub_cancel_left, axis_pullParentChain E heps,
      axis_originChain E hcos hsin hsqrt0 hsqrt heps heps10, BoneDynamics.pullChildren]
    norm_num
    ring
  have hadj : ∀ r2 c2 : α,
      BoneDynamics.adjustOnce E (axisFocus rot r2 c2) = axisFocus rot c2 c2 := by
    intro r2 c2
    simp only [BoneDynamics.adjustOnce, BoneDynamics.adjustParentBones,
      BoneDynamics.adjustChildBonesRecursive, axisFocus, axisTop, axisChild,
      axis_adjustParentChain E heps,
      BoneDynamics.adjustChildren]
  rw [BoneDynamics.pullBone, hprop]
  simp only [Function.iterate_succ, Function.iterate_zero, Function.comp_apply, id_eq, hadj]

theorem axis_iterate (E : MathEnv α) (hcos : E.cos 0 = 1) (hsin : E.sin 0 = 0)
    (hsqrt0 : E.sqrt 0 = 0) (hsqrt : E.sqrt 100 = 10) (heps : 0 < E.normalizable)
    (heps10 : E.normalizable ≤ 10) (rot p : α) (n : Nat) (r c : α) :
    ∃ x y, (fun t => BoneDynamics.pullBone E (BoneDynamics.create E (axisSource rot)) t
      ⟨p, 0⟩ 1)^[n] (axisFocus rot r c) = axisFocus rot x y := by
  induction n generalizing r c with
  | zero => exact ⟨r, c, rfl⟩
  | succ n ih =>
    rw [Function.iterate_succ_apply, axis_pullBone E hcos hsin hsqrt0 hsqrt heps heps10]
    exact ih _ _

theorem axis_pullBoneDynamics (E : MathEnv α) (hcos : E.cos 0 = 1) (hsin : E.sin 0 = 0)
    (hsqrt0 : E.sqrt 0 = 0) (hsqrt : E.sqrt 100 = 10) (heps : 0 < E.normalizable)
    (heps10 : E.normalizable ≤ 10) (rot q : α) :
    ∃ x y, DrawBoneMode.pullBoneDynamics E (axisSource rot) 1 ⟨q, 0⟩ 1 =
      ⟨axisSource rot, (axisFocus rot x y).plug, 1 / 10⟩ := by
  obtain ⟨x, y, h⟩ := axis_iterate E hcos hsin hsqrt0 hsqrt heps heps10 rot (q / 16) 16 0 0
  refine ⟨x, y, ?_⟩
  unfold DrawBoneMode.pullBoneDynamics
  simp only [axis_create E hsqrt0 hsqrt rot, axis_findTarget, QVector2D.mk_div, zero_div, h]
  simp [BoneDynamics.create]

theorem axis_rotationDifferences (E : MathEnv α) (top : Tree (Bone2 α)) (k rot x y : α) :
    BoneDynamics.rotationDifferences E ⟨top, (axisFocus rot x y).plug, k⟩ =
      [0, E.getAngleDifferenceRad (E.normalizeAngleRad rot) (E.normalizeAngleRad (0 - 0 - 0))] := by
  simp [BoneDynamics.rotationDifferences, BoneDynamics.rotationDifference, axisFocus, axisTop,
    axisChild, Focus.plug,
    plugChain, Crumb.close, Tree.preorder, Tree.preorderList]

end AxisLemmas

/-! ## Search and snapshot -/

section Search

variable {α : Type}

mutual
theorem findTarget_none (a : Nat) : ∀ (t : Tree (RigidBone α)) (p : Option (RigidBone α))
    (ctx : List (Crumb α)), (∀ it ∈ Tree.preorder p t, it.2.ptr.addr ≠ a) →
    findTarget a ctx t = none
  | Tree.node b cs, p, ctx, h => by
    have hb : b.ptr.addr ≠ a := h (p, b) (by simp [Tree.preorder])
    simp only [findTarget, if_neg hb]
    exact findTargetList_none a cs b ctx []
      (fun it hit => h it (by simp [Tree.preorder, hit]))
theorem findTargetList_none (a : Nat) : ∀ (cs : List (Tree (RigidBone α))) (b : RigidBone α)
    (ctx : List (Crumb α)) (left : List (Tree (RigidBone α))),
    (∀ it ∈ Tree.preorderList b cs, it.2.ptr.addr ≠ a) →
    findTargetList a b ctx left cs = none
  | [], _, _, _, _ => by simp [findTargetList]
  | c :: cs, b, ctx, left, h => by
    simp only [findTargetList]
    rw [findTarget_none a c (some b) _
      (fun it hit => h it (by simp [Tree.preorderList, hit]))]
    exact findTargetList_none a cs b ctx _
      (fun it hit => h it (by simp [Tree.preorderList, hit]))
end

end Search

section Snapshot

variable {α : Type} [LinearOrderedField α]

mutual
theorem differences_createShadow (E : MathEnv α) : ∀ (t : Tree (Bone2 α))
    (p : Option (Bone2 α)) (q : Option (RigidBone α)),
    q.map RigidBone.angle = p.map Bone2.worldAngle →
    (Tree.preorder q (BoneDynamics.createShadow E p t)).map
        (fun it => BoneDynamics.rotationDifference E it.1 it.2) =
      (Tree.preorder p t).map (fun it => snapshotDifference E it.1 it.2)
  | Tree.node b cs, p, q, h => by
    simp only [BoneDynamics.createShadow, Tree.preorder, List.map_cons]
    rw [differences_createShadowList E cs b (RigidBone.create E b p) rfl]
    congr 1
    cases q <;> cases p <;> simp at h <;>
      simp [BoneDynamics.rotationDifference, snapshotDifference, RigidBone.create, h]
theorem differences_createShadowList (E : MathEnv α) : ∀ (cs : List (Tree (Bone2 α)))
    (pb : Bone2 α) (rb : RigidBone α), rb.angle = pb.worldAngle →
    (Tree.preorderList rb (BoneDynamics.createShadowList E pb cs)).map
        (fun it => BoneDynamics.rotationDifference E it.1 it.2) =
      (Tree.preorderList pb cs).map (fun it => snapshotDifference E it.1 it.2)
  | [], _, _, _ => rfl
  | c :: cs, pb, rb, h => by
    simp only [BoneDynamics.createShadowList, Tree.preorderList, List.map_append]
    rw [differences_createShadow E c (some pb) (some rb) (by simp [h]),
      differences_createShadowList E cs pb rb h]
end

theorem rotationDifferences_create (E : MathEnv α) (targetRoot : Tree (Bone2 α)) :
    BoneDynamics.rotationDifferences E (BoneDynamics.create E targetRoot) =
      (Tree.preorder none targetRoot).map (fun it => snapshotDifference E it.1 it.2) := by
  unfold BoneDynamics.rotationDifferences
  rw [foldl_push_eq_map
    (fun it : Option (RigidBone α) × RigidBone α => BoneDynamics.rotationDifference E it.1 it.2)]
  simp only [List.nil_append, BoneDynamics.create]
  exact differences_createShadow E targetRoot none none rfl

theorem pullBoneDynamics_of_unmatched (E : MathEnv α) (targetRoot : Tree (Bone2 α))
    (aTarget : Nat) (aPull : QVector2D α) (aPullPosRate : α)
    (hno : ∀ b ∈ Tree.nodes (BoneDynamics.create E targetRoot).mRigidTopBone,
      b.ptr.addr ≠ aTarget) :
    DrawBoneMode.pullBoneDynamics E targetRoot aTarget aPull aPullPosRate =
      BoneDynamics.create E targetRoot := by
  unfold DrawBoneMode.pullBoneDynamics
  simp only []
  rw [findTarget_none aTarget _ none []
    (fun it hit => hno it.2 (List.mem_map_of_mem Prod.snd hit))]

theorem pullBone_of_unmatched (E : MathEnv α) (targetRoot : Tree (Bone2 α))
    (aTarget : Nat) (aPull : QVector2D α) (aPullPosRate : α)
    (hno : ∀ b ∈ Tree.nodes (BoneDynamics.create E targetRoot).mRigidTopBone,
      b.ptr.addr ≠ aTarget) :
    DrawBoneMode.pullBone E targetRoot aTarget aPull aPullPosRate =
      (Tree.preorder none targetRoot).map
        (fun it => it.2.rotate + snapshotDifference E it.1 it.2) := by
  unfold DrawBoneMode.pullBone
  simp only []
  rw [pullBoneDynamics_of_unmatched E targetRoot aTarget aPull aPullPosRate hno,
    nextRotsLoop_eq, rotationDifferences_create, Tree.nodes, List.zipWith_map,
    List.zipWith_same, List.nil_append]

end Snapshot

/-! ## Real angles -/

theorem sqrt_hundred : Real.sqrt 100 = 10 := by
  rw [show (100 : ℝ) = 10 ^ 2 by norm_num, Real.sqrt_sq (by norm_num)]

theorem normalizeAngleReal_of_mem (a : ℝ) (h1 : -Real.pi < a) (h2 : a ≤ Real.pi) :
    normalizeAngleReal a = a := by
  have hpi := Real.pi_pos
  have hc : ⌈(a - Real.pi) / (2 * Real.pi)⌉ = 0 := by
    rw [Int.ceil_eq_iff]
    constructor
    · rw [lt_div_iff₀ (by positivity)]
      push_cast
      linarith
    · rw [div_le_iff₀ (by positivity)]
      push_cast
      linarith
  simp [normalizeAngleReal, hc]

theorem normalizeAngleReal_zero : normalizeAngleReal 0 = 0 :=
  normalizeAngleReal_of_mem 0 (by linarith [Real.pi_pos]) (by linarith [Real.pi_pos])

theorem normalizeAngleReal_one : normalizeAngleReal 1 = 1 :=
  normalizeAngleReal_of_mem 1 (by linarith [Real.pi_gt_three]) (by linarith [Real.pi_gt_three])

theorem normalizeAngleReal_neg_one : normalizeAngleReal (-1) = -1 :=
  normalizeAngleReal_of_mem (-1) (by linarith [Real.pi_gt_three]) (by linarith [Real.pi_gt_three])

/-! ## Length, shape and frame -/

section Frame

variable {α : Type} [LinearOrderedField α]

mutual
theorem map_map_tree {β γ δ : Type} (g : γ → δ) (f : β → γ) : ∀ t : Tree β,
    Tree.map g (Tree.map f t) = Tree.map (fun b => g (f b)) t
  | Tree.node b cs => by simp only [Tree.map, mapList_mapList g f cs]
theorem mapList_mapList {β γ δ : Type} (g : γ → δ) (f : β → γ) : ∀ ts : List (Tree β),
    Tree.mapList g (Tree.mapList f ts) = Tree.mapList (fun b => g (f b)) ts
  | [] => rfl
  | c :: cs => by simp only [Tree.mapList, map_map_tree g f c, mapList_mapList g f cs]
end

theorem fixed_reconnectStep (E : MathEnv α) (b : RigidBone α) (p q : QVector2D α) :
    (BoneDynamics.reconnectStep E b p q).fixed = b.fixed := by
  unfold BoneDynamics.reconnectStep
  simp only []
  split_ifs <;> rfl

mutual
theorem fixed_reconnectBonesRecursive (E : MathEnv α) :
    ∀ (t : Tree (RigidBone α)) (p : QVector2D α),
    Tree.map RigidBone.fixed (BoneDynamics.reconnectBonesRecursive E t p) =
      Tree.map RigidBone.fixed t
  | Tree.node b cs, p => by
    simp only [BoneDynamics.reconnectBonesRecursive, Tree.map, fixed_reconnectStep,
      fixed_reconnectChildren E cs]
theorem fixed_reconnectChildren (E : MathEnv α) :
    ∀ (ts : List (Tree (RigidBone α))) (p : QVector2D α),
    Tree.mapList RigidBone.fixed (BoneDynamics.reconnectChildren E p ts) =
      Tree.mapList RigidBone.fixed ts
  | [], _ => by simp [BoneDynamics.reconnectChildren]
  | c :: cs, p => by
    simp only [BoneDynamics.reconnectChildren, Tree.mapList,
      fixed_reconnectBonesRecursive E c, fixed_reconnectChildren E cs p]
end

theorem fixed_reconnectBones (E : MathEnv α) (D : BoneDynamics α) :
    Tree.map RigidBone.fixed (BoneDynamics.reconnectBones E D).mRigidTopBone =
      Tree.map RigidBone.fixed D.mRigidTopBone := by
  cases h : D.mRigidTopBone with
  | node b cs =>
    simp only [BoneDynamics.reconnectBones, h, Tree.value, Tree.children, Tree.map,
      fixed_reconnectChildren]

theorem fixed_updateMotions (E : MathEnv α) (D : BoneDynamics α) :
    Tree.map RigidBone.fixed (BoneDynamics.updateMotions E D).mRigidTopBone =
      Tree.map RigidBone.fixed D.mRigidTopBone := by
  simp only [BoneDynamics.updateMotions, map_map_tree, fixed_updateMotion]

end Frame

section FrameShape

variable {α : Type}

theorem frame_of_fixed (f g : Focus α) (h : g.fixed = f.fixed) :
    g.ancestors.map (fun c => (c.left, c.right)) =
      f.ancestors.map (fun c => (c.left, c.right)) := by
  simp only [Focus.fixed, Prod.mk.injEq] at h
  have h2 := congrArg (List.map Prod.snd) h.2.2
  simpa [List.map_map, Function.comp_def, Crumb.fixed] using h2

end FrameShape

/-! ## The rotation weight -/

section Weight

variable {α : Type} [LinearOrderedField α]

theorem rotateRate_linear_mem (p : α) (hp0 : 0 ≤ p) (hp1 : p ≤ 1) :
    0 ≤ |2 * (p - 1 / 2)| ∧ |2 * (p - 1 / 2)| ≤ 1 := by
  refine ⟨abs_nonneg _, ?_⟩
  rw [abs_le]
  constructor <;> linarith

theorem rotateRate_mem (c p : α) (hc0 : 0 ≤ c) (hp0 : 0 ≤ p) (hp1 : p ≤ 1) :
    1 - c ≤ BoneDynamics.rotateRate c p ∧ BoneDynamics.rotateRate c p ≤ 1 := by
  obtain ⟨h0, h1⟩ := rotateRate_linear_mem p hp0 hp1
  simp only [BoneDynamics.rotateRate]
  constructor
  · nlinarith [mul_nonneg hc0 (mul_nonneg h0 (sub_nonneg.mpr h1)),
      mul_nonneg hc0 (sub_nonneg.mpr h1)]
  · nlinarith [mul_nonneg hc0 (mul_self_nonneg (1 - |2 * (p - 1 / 2)|))]

theorem rotateRate_mono (c p q : α) (hc0 : 0 ≤ c) (hq0 : 0 ≤ q) (hq1 : q ≤ 1)
    (h : |p - 1 / 2| ≤ |q - 1 / 2|) :
    BoneDynamics.rotateRate c p ≤ BoneDynamics.rotateRate c q := by
  obtain ⟨-, hq⟩ := rotateRate_linear_mem q hq0 hq1
  have hp : |2 * (p - 1 / 2)| ≤ |2 * (q - 1 / 2)| := by
    rw [abs_mul, abs_mul]
    exact mul_le_mul_of_nonneg_left h (abs_nonneg _)
  have hp0 : 0 ≤ |2 * (p - 1 / 2)| := abs_nonneg _
  simp only [BoneDynamics.rotateRate]
  have hsq : (1 - |2 * (q - 1 / 2)|) * (1 - |2 * (q - 1 / 2)|) ≤
      (1 - |2 * (p - 1 / 2)|) * (1 - |2 * (p - 1 / 2)|) := by
    apply mul_self_le_mul_self <;> linarith
  nlinarith [mul_le_mul_of_nonneg_left hsq hc0]

theorem pullForce_of_rotateRate_one (E : MathEnv α) (c : α) (b : RigidBone α)
    (pull : QVector2D α) (p : α) (h : BoneDynamics.rotateRate c p = 1) :
    BoneDynamics.pullForce E c b pull p =
      c * (((b.dir E).normalized E) *
        QVector2D.dotProduct ((b.dir E).normalized E) pull) := by
  simp only [BoneDynamics.pullForce, h]
  ext <;> simp

end Weight

/-! ## The target step in parts -/

section TargetStep

variable {α : Type} [LinearOrderedField α]

theorem pullTarget_of_ge (E : MathEnv α) (k : α) (b : RigidBone α) (pull : QVector2D α)
    (pos : α) (h : b.length ≥ E.normalizable) :
    BoneDynamics.pullTarget E k b pull pos =
      RigidBone.updateMotion E (if pos ≥ 1 / 2 then -1 else 1)
        { b with
          force := BoneDynamics.pullForce E k b pull pos
          torque := BoneDynamics.pullTorque E k b pull pos } := by
  unfold BoneDynamics.pullTarget
  rw [if_pos h]
  rfl

theorem updateMotion_free (E : MathEnv α) (b : RigidBone α) :
    (RigidBone.updateMotion E (-1) b).rootPos = b.rootPos + b.force ∧
    (RigidBone.updateMotion E (-1) b).angle = b.angle + b.torque ∧
    (RigidBone.updateMotion E (-1) b).length = b.length := by
  simp [RigidBone.updateMotion]

theorem updateMotion_tail (E : MathEnv α)
    (hcos : ∀ a b : α, E.cos (a + b) = E.cos a * E.cos b - E.sin a * E.sin b)
    (hsin : ∀ a b : α, E.sin (a + b) = E.sin a * E.cos b + E.cos a * E.sin b)
    (b : RigidBone α) :
    (RigidBone.updateMotion E 1 b).tailPos E = b.tailPos E + b.force ∧
    (RigidBone.updateMotion E 1 b).angle = b.angle + b.torque ∧
    (RigidBone.updateMotion E 1 b).length = b.length := by
  refine ⟨?_, ?_, ?_⟩
  · ext <;>
      simp [RigidBone.updateMotion, RigidBone.tailPos, getVectorFromPolarCoord,
        getRotateVectorRad, hcos, hsin] <;> ring
  · simp [RigidBone.updateMotion]
  · simp [RigidBone.updateMotion]

theorem pullChildren_eq_map (E : MathEnv α) (cs : List (Tree (RigidBone α)))
    (p : QVector2D α) :
    BoneDynamics.pullChildren E cs p = cs.map (fun c => BoneDynamics.pullChild E c p) := by
  induction cs with
  | nil => simp [BoneDynamics.pullChildren]
  | cons c cs ih => simp [BoneDynamics.pullChildren, ih]

theorem normalized_dir (E : MathEnv α)
    (hmul : ∀ x k : α, 0 ≤ x → 0 ≤ k → E.sqrt (k * k * x) = k * E.sqrt x)
    (hone : E.sqrt 1 = 1)
    (hpyth : ∀ a : α, E.cos a * E.cos a + E.sin a * E.sin a = 1)
    (b : RigidBone α) (hlen : 0 < b.length) :
    (b.dir E).normalized E = ⟨E.cos b.angle, E.sin b.angle⟩ := by
  have hl : (b.dir E).length E = b.length := by
    have h1 := hmul 1 b.length zero_le_one hlen.le
    rw [hone, mul_one, mul_one] at h1
    have harg : b.length * E.cos b.angle * (b.length * E.cos b.angle) +
        b.length * E.sin b.angle * (b.length * E.sin b.angle) = b.length * b.length := by
      linear_combination (b.length * b.length) * hpyth b.angle
    simp only [RigidBone.dir, getVectorFromPolarCoord, QVector2D.length]
    rw [harg, h1]
  have hne : b.length ≠ 0 := ne_of_gt hlen
  simp only [QVector2D.normalized, hl, if_neg hne]
  ext <;> simp [RigidBone.dir, getVectorFromPolarCoord] <;> field_simp

theorem length_muls (E : MathEnv α)
    (hmul : ∀ x k : α, 0 ≤ x → 0 ≤ k → E.sqrt (k * k * x) = k * E.sqrt x)
    (v : QVector2D α) (k : α) (hk : 0 ≤ k) :
    (v * k).length E = v.length E * k := by
  simp only [QVector2D.length, QVector2D.muls_x, QVector2D.muls_y]
  rw [mul_comm (E.sqrt _) k, ← hmul _ k (add_nonneg (mul_self_nonneg _) (mul_self_nonneg _)) hk]
  congr 1
  ring

theorem pullTorque_eq_specTorque (E : MathEnv α)
    (hmul : ∀ x k : α, 0 ≤ x → 0 ≤ k → E.sqrt (k * k * x) = k * E.sqrt x)
    (k : α) (hk0 : 0 ≤ k) (hk1 : k ≤ 1) (b : RigidBone α) (pull : QVector2D α) (pos : α)
    (hp0 : 0 ≤ pos) (hp1 : pos ≤ 1) :
    BoneDynamics.pullTorque E k b pull pos = specTorque E k b pull pos := by
  obtain ⟨hr0, -⟩ := rotateRate_mem k pos hk0 hp0 hp1
  have hr : 0 ≤ BoneDynamics.rotateRate k pos := le_trans (sub_nonneg.mpr hk1) hr0
  simp only [BoneDynamics.pullTorque, specTorque, length_muls E hmul _ _ hr]
  rcases eq_or_lt_of_le hr with h0 | hpos
  · rw [← h0]
    simp
  · have hcross : ∀ n h : QVector2D α,
        (getCross n (h * BoneDynamics.rotateRate k pos) > 0 ↔ getCross n h > 0) := by
      intro n h
      have : getCross n (h * BoneDynamics.rotateRate k pos) =
          getCross n h * BoneDynamics.rotateRate k pos := by
        simp only [getCross, QVector2D.muls_x, QVector2D.muls_y]
        ring
      rw [this]
      constructor
      · intro hh
        exact (pos_iff_pos_of_mul_pos hh).mpr hpos
      · intro hh
        exact mul_pos hh hpos
    simp only [hcross]

end TargetStep

/-! ## A pull across the chain along the x axis -/

section Across

variable {α : Type} [LinearOrderedField α]

theorem rotateRate_one (k : α) : BoneDynamics.rotateRate k 1 = 1 := by
  have : |(2 : α) * (1 - 1 / 2)| = 1 := by norm_num
  simp only [BoneDynamics.rotateRate, this]
  ring

theorem across_pullForce (E : MathEnv α) (hcos : E.cos 0 = 1) (hsin : E.sin 0 = 0)
    (hsqrt : E.sqrt 100 = 10) (k rot c p : α) :
    BoneDynamics.pullForce E k (axisChild rot c) ⟨0, p⟩ 1 = ⟨0, 0⟩ := by
  simp only [BoneDynamics.pullForce, rotateRate_one, axisChild,
    axis_normDir E hcos hsin hsqrt]
  simp [QVector2D.dotProduct, QVector2D.mk_add_mk, QVector2D.mk_sub_mk, QVector2D.smul_mk,
    QVector2D.mk_muls]

theorem across_pullTorque (E : MathEnv α) (hcos : E.cos 0 = 1) (hsin : E.sin 0 = 0)
    (hsqrt : E.sqrt 100 = 10) (hone : E.sqrt 1 = 1) (k rot c : α) :
    BoneDynamics.pullTorque E k (axisChild rot c) ⟨0, 1⟩ 1 = 1 / 10 := by
  have h3 : (1 : α) ≥ 1 / 2 := by norm_num
  simp only [BoneDynamics.pullTorque, rotateRate_one, axisChild,
    axis_normDir E hcos hsin hsqrt, if_pos h3]
  simp [QVector2D.dotProduct, getCross, QVector2D.length, QVector2D.mk_sub_mk,
    QVector2D.mk_muls, hone]

theorem across_pullChildStep (E : MathEnv α) (hcos : E.cos 0 = 1) (hsin : E.sin 0 = 0)
    (hsqrt : E.sqrt 100 = 10) (hone : E.sqrt 1 = 1) (heps10 : E.normalizable ≤ 10)
    (rot c : α) :
    BoneDynamics.pullChildStep E (axisChild rot c) ⟨0, 1⟩ =
      (RigidBone.updateMotion E 1 { axisChild rot c with force := ⟨0, 0⟩, torque := -(1 / 10) },
        ⟨0, 0⟩) := by
  have h2 : (10 : α) ≥ E.normalizable := heps10
  have h4 : ¬ ((1 : α) < 0) := by norm_num
  simp only [BoneDynamics.pullChildStep, axisChild, if_pos h2,
    axis_normDir E hcos hsin hsqrt]
  simp [QVector2D.dotProduct, getCross, QVector2D.length, QVector2D.mk_sub_mk,
    QVector2D.mk_muls, hone, h4]

end Across

theorem sin_tenth_pos : 0 < Real.sin (1 / 10) :=
  Real.sin_pos_of_pos_of_lt_pi (by norm_num) (by linarith [Real.pi_gt_three])

theorem real_sqrt_mul (x k : ℝ) (_hx : 0 ≤ x) (hk : 0 ≤ k) :
    Real.sqrt (k * k * x) = k * Real.sqrt x := by
  rw [Real.sqrt_mul (mul_self_nonneg k), Real.sqrt_mul_self hk]

theorem real_pyth (a : ℝ) : Real.cos a * Real.cos a + Real.sin a * Real.sin a = 1 := by
  have := Real.cos_sq_add_sin_sq a
  nlinarith [this]

/-! ## The chain with a bone of length zero in the middle -/

section CoincidentLemmas

variable {α : Type} [LinearOrderedField α]

theorem coincident_pullParentChain (E : MathEnv α) (hcos : E.cos 0 = 1) (hsin : E.sin 0 = 0)
    (hsqrt0 : E.sqrt 0 = 0) (hsqrt : E.sqrt 100 = 10) (heps : 0 < E.normalizable)
    (heps10 : E.normalizable ≤ 10) (k p : α) :
    BoneDynamics.pullParentChain E k coincidentAncestors ⟨p, 0⟩ =
      [⟨axisTop (10 + k * p), [], []⟩, ⟨axisChild 0 (0 + k * p), [], []⟩,
        ⟨axisTop (0 + k * (k * p)), [], []⟩] := by
  have h1 : ¬ ((0 : α) ≥ E.normalizable) := not_le.mpr heps
  have h2 : (10 : α) ≥ E.normalizable := heps10
  simp only [coincidentAncestors, BoneDynamics.pullParentChain, axisTop, axisChild,
    if_neg h1, if_pos h2, axis_normDir E hcos hsin hsqrt]
  simp [RigidBone.updateMotion, QVector2D.dotProduct, getCross, QVector2D.length,
    QVector2D.mk_add_mk, QVector2D.mk_sub_mk, QVector2D.smul_mk, QVector2D.mk_muls,
    QVector2D.zero_def, hsqrt0]

end CoincidentLemmas

/-! ## Predicates on whole trees and references -/

section AllShape

variable {α : Type}

theorem allList_append {β : Type} (P : β → Prop) (l : List (Tree β)) (t : Tree β)
    (r : List (Tree β)) :
    Tree.AllList P (l ++ t :: r) ↔ Tree.AllList P l ∧ Tree.All P t ∧ Tree.AllList P r := by
  induction l with
  | nil => simp [Tree.AllList]
  | cons c cs ih => simp [Tree.AllList, ih, and_assoc]

theorem all_plugChain (P : RigidBone α → Prop) (t : Tree (RigidBone α)) (cs : List (Crumb α)) :
    Tree.All P (plugChain t cs) ↔
      Tree.All P t ∧ ∀ c ∈ cs, P c.bone ∧ Tree.AllList P c.left ∧ Tree.AllList P c.right := by
  induction cs generalizing t with
  | nil => simp [plugChain]
  | cons c cs ih =>
    simp only [plugChain, ih, Crumb.close, Tree.All, allList_append, List.mem_cons,
      forall_eq_or_imp]
    tauto

theorem all_plug (P : RigidBone α → Prop) (f : Focus α) :
    Tree.All P f.plug ↔
      (P f.bone ∧ Tree.AllList P f.children) ∧
        ∀ c ∈ f.ancestors, P c.bone ∧ Tree.AllList P c.left ∧ Tree.AllList P c.right := by
  simp only [Focus.plug, all_plugChain, Tree.All]

theorem map_plugChain_key {γ : Type} (κ : RigidBone α → γ) (t t2 : Tree (RigidBone α))
    (cs cs2 : List (Crumb α)) (ht : Tree.map κ t = Tree.map κ t2)
    (hcs : cs.map (fun c => (κ c.bone, c.left, c.right)) =
      cs2.map (fun c => (κ c.bone, c.left, c.right))) :
    Tree.map κ (plugChain t cs) = Tree.map κ (plugChain t2 cs2) := by
  induction cs generalizing t t2 cs2 with
  | nil =>
    cases cs2 with
    | nil => simpa [plugChain] using ht
    | cons c2 cs2 => simp at hcs
  | cons c cs ih =>
    cases cs2 with
    | nil => simp at hcs
    | cons c2 cs2 =>
      simp only [List.map_cons, List.cons.injEq, Prod.mk.injEq] at hcs
      obtain ⟨⟨hb, hl, hr⟩, hrest⟩ := hcs
      simp only [plugChain]
      apply ih _ _ _ _ hrest
      simp only [Crumb.close, Tree.map, mapList_eq_map, List.map_append, List.map_cons, hl,
        hr, ht, hb]

end AllShape

/-! ## Accumulators and the angle of short nodes -/

section Calm

variable {α : Type} [LinearOrderedField α]

theorem atRest_updateMotion (E : MathEnv α) (m : Int) (b : RigidBone α) :
    (RigidBone.updateMotion E m b).AtRest := by
  simp [RigidBone.AtRest, RigidBone.updateMotion]

theorem degenerateAngle_updateMotion (E : MathEnv α) (m : Int) (b : RigidBone α)
    (h : b.length < E.normalizable → b.torque = 0) :
    degenerateAngle E (RigidBone.updateMotion E m b) = degenerateAngle E b := by
  have hl : (RigidBone.updateMotion E m b).length = b.length := by
    have := fixed_updateMotion E m b
    simp only [RigidBone.fixed, Prod.mk.injEq] at this
    exact this.2
  unfold degenerateAngle
  rw [hl]
  by_cases hlt : b.length < E.normalizable
  · have ht := h hlt
    simp only [if_pos hlt, Option.some.injEq]
    unfold RigidBone.updateMotion
    split_ifs <;> simp [ht]
  · simp only [if_neg hlt]

/-- What every step of the solver does to a node: it leaves it at rest, and with the
angle of a short node unchanged when the torque accumulator was empty. -/
theorem calm_step (E : MathEnv α) (m : Int) (b : RigidBone α) (F : QVector2D α) (T : α)
    (h : b.length < E.normalizable → T = 0) :
    (RigidBone.updateMotion E m { b with force := F, torque := T }).AtRest ∧
    degenerateAngle E (RigidBone.updateMotion E m { b with force := F, torque := T }) =
      degenerateAngle E b :=
  ⟨atRest_updateMotion E m _, degenerateAngle_updateMotion E m _ h⟩

theorem calm_pullTarget (E : MathEnv α) (k : α) (b : RigidBone α) (p : QVector2D α) (pos : α)
    (ht : b.torque = 0) :
    (BoneDynamics.pullTarget E k b p pos).AtRest ∧
    degenerateAngle E (BoneDynamics.pullTarget E k b p pos) = degenerateAngle E b := by
  unfold BoneDynamics.pullTarget
  by_cases hlen : b.length ≥ E.normalizable
  · rw [if_pos hlen]
    exact calm_step E _ b _ _ (fun hlt => absurd hlen (not_le.mpr hlt))
  · rw [if_neg hlen]
    exact calm_step E _ b _ b.torque (fun _ => ht)

theorem calm_originStep (E : MathEnv α) (b : RigidBone α) (p : QVector2D α)
    (ht : b.torque = 0) :
    (BoneDynamics.originStep E b p).1.AtRest ∧
    degenerateAngle E (BoneDynamics.originStep E b p).1 = degenerateAngle E b := by
  unfold BoneDynamics.originStep
  by_cases hlen : b.length ≥ E.normalizable
  · rw [if_pos hlen]
    exact calm_step E _ b _ _ (fun hlt => absurd hlen (not_le.mpr hlt))
  · rw [if_neg hlen]
    exact calm_step E _ b _ b.torque (fun _ => ht)

theorem calm_pullChildStep (E : MathEnv α) (b : RigidBone α) (p : QVector2D α)
    (ht : b.torque = 0) :
    (BoneDynamics.pullChildStep E b p).1.AtRest ∧
    degenerateAngle E (BoneDynamics.pullChildStep E b p).1 = degenerateAngle E b := by
  unfold BoneDynamics.pullChildStep
  by_cases hlen : b.length ≥ E.normalizable
  · rw [if_pos hlen]
    exact calm_step E _ b _ _ (fun hlt => absurd hlen (not_le.mpr hlt))
  · rw [if_neg hlen]
    exact calm_step E _ b _ b.torque (fun _ => ht)

theorem calm_adjustParentStep (E : MathEnv α) (prev b : RigidBone α) (ht : b.torque = 0) :
    (BoneDynamics.adjustParentStep E prev b).AtRest ∧
    degenerateAngle E (BoneDynamics.adjustParentStep E prev b) = degenerateAngle E b := by
  unfold BoneDynamics.adjustParentStep
  simp only []
  by_cases hlen : b.length ≥ E.normalizable
  · rw [if_pos hlen]
    exact calm_step E _ b _ _ (fun hlt => absurd hlen (not_le.mpr hlt))
  · rw [if_neg hlen]
    exact calm_step E _ b _ b.torque (fun _ => ht)

theorem calm_adjustChildStep (E : MathEnv α) (t : QVector2D α) (b : RigidBone α)
    (ht : b.torque = 0) :
    (BoneDynamics.adjustChildStep E t b).AtRest ∧
    degenerateAngle E (BoneDynamics.adjustChildStep E t b) = degenerateAngle E b := by
  unfold BoneDynamics.adjustChildStep
  simp only []
  by_cases hlen : b.length ≥ E.normalizable
  · rw [if_pos hlen]
    exact calm_step E _ b _ _ (fun hlt => absurd hlen (not_le.mpr hlt))
  · rw [if_neg hlen]
    exact calm_step E _ b _ b.torque (fun _ => ht)

end Calm

section CalmChains

variable {α : Type} [LinearOrderedField α]

theorem calm_cons (E : MathEnv α) (c : Crumb α) (b2 : RigidBone α) (rest2 rest : List (Crumb α))
    (hb : b2.AtRest ∧ degenerateAngle E b2 = degenerateAngle E c.bone)
    (hc : Tree.AllList RigidBone.AtRest c.left ∧ Tree.AllList RigidBone.AtRest c.right)
    (ih : (∀ c2 ∈ rest2, c2.bone.AtRest ∧ Tree.AllList RigidBone.AtRest c2.left ∧
        Tree.AllList RigidBone.AtRest c2.right) ∧
      rest2.map (fun c => (degenerateAngle E c.bone, c.left, c.right)) =
        rest.map (fun c => (degenerateAngle E c.bone, c.left, c.right))) :
    (∀ c2 ∈ ({ c with bone := b2 } : Crumb α) :: rest2,
      c2.bone.AtRest ∧ Tree.AllList RigidBone.AtRest c2.left ∧
        Tree.AllList RigidBone.AtRest c2.right) ∧
    (({ c with bone := b2 } : Crumb α) :: rest2).map
        (fun c => (degenerateAngle E c.bone, c.left, c.right)) =
      (c :: rest).map (fun c => (degenerateAngle E c.bone, c.left, c.right)) := by
  refine ⟨?_, ?_⟩
  · intro c2 hc2
    rcases List.mem_cons.mp hc2 with h | h
    · subst h
      exact ⟨hb.1, hc.1, hc.2⟩
    · exact ih.1 c2 h
  · simp only [List.map_cons, ih.2, hb.2]

theorem calm_pullParentChain (E : MathEnv α) (k : α) (cs : List (Crumb α)) (p : QVector2D α)
    (h : ∀ c ∈ cs, c.bone.torque = 0 ∧ Tree.AllList RigidBone.AtRest c.left ∧
      Tree.AllList RigidBone.AtRest c.right) :
    (∀ c ∈ BoneDynamics.pullParentChain E k cs p,
      c.bone.AtRest ∧ Tree.AllList RigidBone.AtRest c.left ∧
        Tree.AllList RigidBone.AtRest c.right) ∧
    (BoneDynamics.pullParentChain E k cs p).map
        (fun c => (degenerateAngle E c.bone, c.left, c.right)) =
      cs.map (fun c => (degenerateAngle E c.bone, c.left, c.right)) := by
  induction cs generalizing p with
  | nil => simp [BoneDynamics.pullParentChain]
  | cons c cs ih =>
    have hc := h c (List.mem_cons_self _ _)
    have hcs := fun c2 hc2 => h c2 (List.mem_cons_of_mem _ hc2)
    by_cases hlen : c.bone.length ≥ E.normalizable
    · simp only [BoneDynamics.pullParentChain, if_pos hlen]
      exact calm_cons E c _ _ _
        (calm_step E _ c.bone _ _ (fun hlt => absurd hlen (not_le.mpr hlt))) hc.2 (ih _ hcs)
    · simp only [BoneDynamics.pullParentChain, if_neg hlen]
      exact calm_cons E c _ _ _ (calm_step E _ c.bone _ c.bone.torque (fun _ => hc.1)) hc.2
        (ih _ hcs)

theorem calm_adjustParentChain (E : MathEnv α) (prev : RigidBone α) (cs : List (Crumb α))
    (h : ∀ c ∈ cs, c.bone.torque = 0 ∧ Tree.AllList RigidBone.AtRest c.left ∧
      Tree.AllList RigidBone.AtRest c.right) :
    (∀ c ∈ BoneDynamics.adjustParentChain E prev cs,
      c.bone.AtRest ∧ Tree.AllList RigidBone.AtRest c.left ∧
        Tree.AllList RigidBone.AtRest c.right) ∧
    (BoneDynamics.adjustParentChain E prev cs).map
        (fun c => (degenerateAngle E c.bone, c.left, c.right)) =
      cs.map (fun c => (degenerateAngle E c.bone, c.left, c.right)) := by
  induction cs generalizing prev with
  | nil => simp [BoneDynamics.adjustParentChain]
  | cons c cs ih =>
    have hc := h c (List.mem_cons_self _ _)
    have hcs := fun c2 hc2 => h c2 (List.mem_cons_of_mem _ hc2)
    simp only [BoneDynamics.adjustParentChain]
    exact calm_cons E c _ _ _ (calm_adjustParentStep E prev c.bone hc.1) hc.2 (ih _ hcs)

theorem calm_originChain (E : MathEnv α) (o : QVector2D α) (cs : List (Crumb α))
    (b : RigidBone α) (hb : b.torque = 0)
    (h : ∀ c ∈ cs, c.bone.torque = 0 ∧ Tree.AllList RigidBone.AtRest c.left ∧
      Tree.AllList RigidBone.AtRest c.right) :
    ((BoneDynamics.originChain E o b cs).1.1.AtRest ∧
      degenerateAngle E (BoneDynamics.originChain E o b cs).1.1 = degenerateAngle E b) ∧
    (∀ c ∈ (BoneDynamics.originChain E o b cs).1.2,
      c.bone.AtRest ∧ Tree.AllList RigidBone.AtRest c.left ∧
        Tree.AllList RigidBone.AtRest c.right) ∧
    (BoneDynamics.originChain E o b cs).1.2.map
        (fun c => (degenerateAngle E c.bone, c.left, c.right)) =
      cs.map (fun c => (degenerateAngle E c.bone, c.left, c.right)) := by
  induction cs generalizing b with
  | nil =>
    simp only [BoneDynamics.originChain]
    refine ⟨calm_originStep E b _ hb, ?_, ?_⟩
    · intro c hc
      cases hc
    · trivial
  | cons c cs ih =>
    have hc := h c (List.mem_cons_self _ _)
    have hcs := fun c2 hc2 => h c2 (List.mem_cons_of_mem _ hc2)
    have hup := ih c.bone hc.1 hcs
    simp only [BoneDynamics.originChain]
    exact ⟨calm_originStep E b _ hb, calm_cons E c _ _ _ hup.1 hc.2 hup.2⟩

mutual
theorem calm_pullChild (E : MathEnv α) : ∀ (t : Tree (RigidBone α)) (p : QVector2D α),
    Tree.All RigidBone.AtRest t →
    Tree.All RigidBone.AtRest (BoneDynamics.pullChild E t p) ∧
    Tree.map (degenerateAngle E) (BoneDynamics.pullChild E t p) =
      Tree.map (degenerateAngle E) t
  | Tree.node b cs, p, h => by
    simp only [Tree.All] at h
    have hb := calm_pullChildStep E b p h.1.2
    have hcs := calm_pullChildren E cs (BoneDynamics.pullChildStep E b p).2 h.2
    simp only [BoneDynamics.pullChild, Tree.All, Tree.map, hb.2, hcs.2]
    exact ⟨⟨hb.1, hcs.1⟩, trivial⟩
theorem calm_pullChildren (E : MathEnv α) : ∀ (ts : List (Tree (RigidBone α)))
    (p : QVector2D α), Tree.AllList RigidBone.AtRest ts →
    Tree.AllList RigidBone.AtRest (BoneDynamics.pullChildren E ts p) ∧
    Tree.mapList (degenerateAngle E) (BoneDynamics.pullChildren E ts p) =
      Tree.mapList (degenerateAngle E) ts
  | [], _, _ => by simp [BoneDynamics.pullChildren, Tree.AllList]
  | c :: cs, p, h => by
    simp only [Tree.AllList] at h
    have hc := calm_pullChild E c p h.1
    have hcs := calm_pullChildren E cs p h.2
    simp only [BoneDynamics.pullChildren, Tree.AllList, Tree.mapList, hc.2, hcs.2]
    exact ⟨⟨hc.1, hcs.1⟩, trivial⟩
end

mutual
theorem calm_adjustChild (E : MathEnv α) : ∀ (t : Tree (RigidBone α)) (p : QVector2D α),
    Tree.All RigidBone.AtRest t →
    Tree.All RigidBone.AtRest (BoneDynamics.adjustChild E p t) ∧
    Tree.map (degenerateAngle E) (BoneDynamics.adjustChild E p t) =
      Tree.map (degenerateAngle E) t
  | Tree.node b cs, p, h => by
    simp only [Tree.All] at h
    have hb := calm_adjustChildStep E p b h.1.2
    have hcs := calm_adjustChildren E cs
      ((BoneDynamics.adjustChildStep E p b).tailPos E) h.2
    simp only [BoneDynamics.adjustChild, Tree.All, Tree.map, hb.2, hcs.2]
    exact ⟨⟨hb.1, hcs.1⟩, trivial⟩
theorem calm_adjustChildren (E : MathEnv α) : ∀ (ts : List (Tree (RigidBone α)))
    (p : QVector2D α), Tree.AllList RigidBone.AtRest ts →
    Tree.AllList RigidBone.AtRest (BoneDynamics.adjustChildren E p ts) ∧
    Tree.mapList (degenerateAngle E) (BoneDynamics.adjustChildren E p ts) =
      Tree.mapList (degenerateAngle E) ts
  | [], _, _ => by simp [BoneDynamics.adjustChildren, Tree.AllList]
  | c :: cs, p, h => by
    simp only [Tree.AllList] at h
    have hc := calm_adjustChild E c p h.1
    have hcs := calm_adjustChildren E cs p h.2
    simp only [BoneDynamics.adjustChildren, Tree.AllList, Tree.mapList, hc.2, hcs.2]
    exact ⟨⟨hc.1, hcs.1⟩, trivial⟩
end

end CalmChains

section CalmFocus

variable {α : Type} [LinearOrderedField α]

theorem calm_focus (E : MathEnv α) (f g : Focus α)
    (hb : g.bone.AtRest ∧ degenerateAngle E g.bone = degenerateAngle E f.bone)
    (hch : Tree.AllList RigidBone.AtRest g.children ∧
      Tree.mapList (degenerateAngle E) g.children = Tree.mapList (degenerateAngle E) f.children)
    (hanc : (∀ c ∈ g.ancestors, c.bone.AtRest ∧ Tree.AllList RigidBone.AtRest c.left ∧
        Tree.AllList RigidBone.AtRest c.right) ∧
      g.ancestors.map (fun c => (degenerateAngle E c.bone, c.left, c.right)) =
        f.ancestors.map (fun c => (degenerateAngle E c.bone, c.left, c.right))) :
    Tree.All RigidBone.AtRest g.plug ∧
    Tree.map (degenerateAngle E) g.plug = Tree.map (degenerateAngle E) f.plug := by
  refine ⟨(all_plug _ g).mpr ⟨⟨hb.1, hch.1⟩, hanc.1⟩, ?_⟩
  apply map_plugChain_key _ _ _ _ _ _ hanc.2
  simp only [Tree.map, hb.2, hch.2]

theorem torque_of_rest (cs : List (Crumb α))
    (h : ∀ c ∈ cs, c.bone.AtRest ∧ Tree.AllList RigidBone.AtRest c.left ∧
      Tree.AllList RigidBone.AtRest c.right) :
    ∀ c ∈ cs, c.bone.torque = 0 ∧ Tree.AllList RigidBone.AtRest c.left ∧
      Tree.AllList RigidBone.AtRest c.right :=
  fun c hc => ⟨(h c hc).1.2, (h c hc).2⟩

theorem calm_pullBonePropagate (E : MathEnv α) (D : BoneDynamics α) (f : Focus α)
    (p : QVector2D α) (pos : α) (hf : Tree.All RigidBone.AtRest f.plug) :
    Tree.All RigidBone.AtRest (BoneDynamics.pullBonePropagate E D f p pos).plug ∧
    Tree.map (degenerateAngle E) (BoneDynamics.pullBonePropagate E D f p pos).plug =
      Tree.map (degenerateAngle E) f.plug := by
  obtain ⟨⟨hb, hch⟩, hanc⟩ := (all_plug _ f).mp hf
  have h1 := calm_pullTarget E D.mConduction f.bone p pos hb.2
  have h2 := calm_pullParentChain E D.mConduction f.ancestors
    ((BoneDynamics.pullTarget E D.mConduction f.bone p pos).rootPos - f.bone.rootPos)
    (torque_of_rest _ hanc)
  have h3 := calm_originChain E D.mTopBone.value.worldPos _ _ h1.1.2 (torque_of_rest _ h2.1)
  have h4 := calm_pullChildren E f.children
    ((BoneDynamics.originChain E D.mTopBone.value.worldPos
      (BoneDynamics.pullTarget E D.mConduction f.bone p pos)
      (BoneDynamics.pullParentChain E D.mConduction f.ancestors
        ((BoneDynamics.pullTarget E D.mConduction f.bone p pos).rootPos
          - f.bone.rootPos))).1.1.tailPos E - f.bone.tailPos E) hch
  apply calm_focus E f
  · exact ⟨h3.1.1, h3.1.2.trans h1.2⟩
  · exact h4
  · exact ⟨h3.2.1, h3.2.2.trans h2.2⟩

theorem calm_adjustOnce (E : MathEnv α) (f : Focus α)
    (hf : Tree.All RigidBone.AtRest f.plug) :
    Tree.All RigidBone.AtRest (BoneDynamics.adjustOnce E f).plug ∧
    Tree.map (degenerateAngle E) (BoneDynamics.adjustOnce E f).plug =
      Tree.map (degenerateAngle E) f.plug := by
  obtain ⟨⟨hb, hch⟩, hanc⟩ := (all_plug _ f).mp hf
  apply calm_focus E f
  · exact ⟨hb, rfl⟩
  · exact calm_adjustChildren E f.children (f.bone.tailPos E) hch
  · exact calm_adjustParentChain E f.bone f.ancestors (torque_of_rest _ hanc)

theorem calm_adjustIter (E : MathEnv α) (n : Nat) (f : Focus α)
    (hf : Tree.All RigidBone.AtRest f.plug) :
    Tree.All RigidBone.AtRest ((BoneDynamics.adjustOnce E)^[n] f).plug ∧
    Tree.map (degenerateAngle E) ((BoneDynamics.adjustOnce E)^[n] f).plug =
      Tree.map (degenerateAngle E) f.plug := by
  induction n generalizing f with
  | zero => exact ⟨hf, rfl⟩
  | succ n ih =>
    rw [Function.iterate_succ_apply]
    have h1 := calm_adjustOnce E f hf
    have h2 := ih (BoneDynamics.adjustOnce E f) h1.1
    exact ⟨h2.1, h2.2.trans h1.2⟩

theorem calm_pullBone (E : MathEnv α) (D : BoneDynamics α) (f : Focus α)
    (p : QVector2D α) (pos : α) (hf : Tree.All RigidBone.AtRest f.plug) :
    Tree.All RigidBone.AtRest (BoneDynamics.pullBone E D f p pos).plug ∧
    Tree.map (degenerateAngle E) (BoneDynamics.pullBone E D f p pos).plug =
      Tree.map (degenerateAngle E) f.plug := by
  have h1 := calm_pullBonePropagate E D f p pos hf
  have h2 := calm_adjustIter E 3 _ h1.1
  exact ⟨h2.1, h2.2.trans h1.2⟩

end CalmFocus

/-! ## The zero pull -/

section ZeroPull

variable {α : Type} [LinearOrderedField α]

theorem vec_add_zero (v : QVector2D α) : v + 0 = v := by ext <;> simp
theorem vec_zero_add (v : QVector2D α) : 0 + v = v := by ext <;> simp
theorem vec_sub_self (v : QVector2D α) : v - v = 0 := by ext <;> simp
theorem vec_sub_zero (v : QVector2D α) : v - 0 = v := by ext <;> simp
theorem vec_smul_zero (k : α) : k * (0 : QVector2D α) = 0 := by ext <;> simp
theorem vec_muls_zero (v : QVector2D α) : v * (0 : α) = 0 := by ext <;> simp
theorem dotProduct_zero (v : QVector2D α) : QVector2D.dotProduct v 0 = 0 := by
  simp [QVector2D.dotProduct]
theorem length_zero (E : MathEnv α) (hsqrt0 : E.sqrt 0 = 0) :
    (0 : QVector2D α).length E = 0 := by
  simp [QVector2D.length, hsqrt0]

theorem with_rest (b : RigidBone α) (hb : b.AtRest) :
    ({ b with force := 0, torque := 0 } : RigidBone α) = b := by
  obtain ⟨ptr, r, a, l, F, T⟩ := b
  simp only [RigidBone.AtRest] at hb
  obtain ⟨rfl, rfl⟩ := hb
  rfl

theorem with_force_rest (b : RigidBone α) (hb : b.AtRest) :
    ({ b with force := 0 } : RigidBone α) = b := by
  obtain ⟨ptr, r, a, l, F, T⟩ := b
  simp only [RigidBone.AtRest] at hb
  obtain ⟨rfl, rfl⟩ := hb
  rfl

theorem updateMotion_of_rest (E : MathEnv α) (hcos : E.cos 0 = 1) (hsin : E.sin 0 = 0)
    (m : Int) (b : RigidBone α) (hb : b.AtRest) : RigidBone.updateMotion E m b = b := by
  obtain ⟨ptr, r, a, l, F, T⟩ := b
  simp only [RigidBone.AtRest] at hb
  obtain ⟨rfl, rfl⟩ := hb
  unfold RigidBone.updateMotion
  split_ifs <;>
    simp [vec_add_zero, getRotateVectorRad, hcos, hsin, RigidBone.dir, RigidBone.tailPos] <;>
    ext <;> simp

end ZeroPull

section ZeroSteps

variable {α : Type} [LinearOrderedField α]

theorem vec_zero_muls (k : α) : (0 : QVector2D α) * k = 0 := by ext <;> simp

theorem zero_pullTarget (E : MathEnv α) (hcos : E.cos 0 = 1) (hsin : E.sin 0 = 0)
    (hsqrt0 : E.sqrt 0 = 0) (k : α) (b : RigidBone α) (pos : α) (hb : b.AtRest) :
    BoneDynamics.pullTarget E k b 0 pos = b := by
  unfold BoneDynamics.pullTarget
  by_cases hlen : b.length ≥ E.normalizable
  · rw [if_pos hlen]
    simp only [dotProduct_zero, vec_muls_zero, vec_sub_self, vec_smul_zero, vec_add_zero,
      vec_zero_muls, length_zero E hsqrt0, zero_div, zero_mul, with_rest b hb,
      updateMotion_of_rest E hcos hsin _ b hb]
  · rw [if_neg hlen]
    simp only [with_force_rest b hb, updateMotion_of_rest E hcos hsin _ b hb]

theorem zero_originStep (E : MathEnv α) (hcos : E.cos 0 = 1) (hsin : E.sin 0 = 0)
    (hsqrt0 : E.sqrt 0 = 0) (b : RigidBone α) (hb : b.AtRest) :
    BoneDynamics.originStep E b 0 = (b, 0) := by
  unfold BoneDynamics.originStep
  by_cases hlen : b.length ≥ E.normalizable
  · rw [if_pos hlen]
    simp only [dotProduct_zero, vec_muls_zero, vec_sub_self, length_zero E hsqrt0, zero_div,
      zero_mul, with_rest b hb, updateMotion_of_rest E hcos hsin _ b hb]
  · rw [if_neg hlen]
    simp only [with_force_rest b hb, updateMotion_of_rest E hcos hsin _ b hb]

theorem zero_pullChildStep (E : MathEnv α) (hcos : E.cos 0 = 1) (hsin : E.sin 0 = 0)
    (hsqrt0 : E.sqrt 0 = 0) (b : RigidBone α) (hb : b.AtRest) :
    BoneDynamics.pullChildStep E b 0 = (b, 0) := by
  unfold BoneDynamics.pullChildStep
  by_cases hlen : b.length ≥ E.normalizable
  · rw [if_pos hlen]
    simp only [dotProduct_zero, vec_muls_zero, vec_sub_self, length_zero E hsqrt0, zero_div,
      zero_mul, with_rest b hb, updateMotion_of_rest E hcos hsin _ b hb]
  · rw [if_neg hlen]
    simp only [with_force_rest b hb, updateMotion_of_rest E hcos hsin _ b hb]

theorem zero_adjustParentStep (E : MathEnv α) (hcos : E.cos 0 = 1) (hsin : E.sin 0 = 0)
    (hsqrt0 : E.sqrt 0 = 0) (prev b : RigidBone α) (hb : b.AtRest)
    (hconn : prev.rootPos = b.tailPos E) :
    BoneDynamics.adjustParentStep E prev b = b := by
  unfold BoneDynamics.adjustParentStep
  simp only [hconn, vec_sub_self]
  by_cases hlen : b.length ≥ E.normalizable
  · rw [if_pos hlen]
    simp only [dotProduct_zero, vec_muls_zero, vec_sub_self, length_zero E hsqrt0, zero_div,
      zero_mul, with_rest b hb, updateMotion_of_rest E hcos hsin _ b hb]
  · rw [if_neg hlen]
    simp only [with_force_rest b hb, updateMotion_of_rest E hcos hsin _ b hb]

theorem zero_adjustChildStep (E : MathEnv α) (hcos : E.cos 0 = 1) (hsin : E.sin 0 = 0)
    (hsqrt0 : E.sqrt 0 = 0) (tail : QVector2D α) (b : RigidBone α) (hb : b.AtRest)
    (hconn : b.rootPos = tail) :
    BoneDynamics.adjustChildStep E tail b = b := by
  subst hconn
  unfold BoneDynamics.adjustChildStep
  simp only [vec_sub_self]
  by_cases hlen : b.length ≥ E.normalizable
  · rw [if_pos hlen]
    simp only [dotProduct_zero, vec_muls_zero, vec_sub_self, length_zero E hsqrt0, zero_div,
      zero_mul, with_rest b hb, updateMotion_of_rest E hcos hsin _ b hb]
  · rw [if_neg hlen]
    simp only [with_force_rest b hb, updateMotion_of_rest E hcos hsin _ b hb]

theorem zero_pullParentChain (E : MathEnv α) (hcos : E.cos 0 = 1) (hsin : E.sin 0 = 0)
    (hsqrt0 : E.sqrt 0 = 0) (k : α) (cs : List (Crumb α)) (h : ∀ c ∈ cs, c.bone.AtRest) :
    BoneDynamics.pullParentChain E k cs 0 = cs := by
  induction cs with
  | nil => rfl
  | cons c cs ih =>
    have hc := h c (List.mem_cons_self _ _)
    have hcs := ih (fun c2 hc2 => h c2 (List.mem_cons_of_mem _ hc2))
    unfold BoneDynamics.pullParentChain
    by_cases hlen : c.bone.length ≥ E.normalizable
    · simp only [if_pos hlen, dotProduct_zero, vec_muls_zero, vec_sub_self, vec_smul_zero,
        length_zero E hsqrt0, zero_div, zero_mul, with_rest c.bone hc,
        updateMotion_of_rest E hcos hsin _ c.bone hc, hcs]
    · simp only [if_neg hlen, vec_smul_zero, with_force_rest c.bone hc,
        updateMotion_of_rest E hcos hsin _ c.bone hc, hcs]

theorem zero_originChain (E : MathEnv α) (hcos : E.cos 0 = 1) (hsin : E.sin 0 = 0)
    (hsqrt0 : E.sqrt 0 = 0) (o : QVector2D α) (cs : List (Crumb α)) (b : RigidBone α)
    (hroot : (chainRoot b cs).rootPos = o) (hb : b.AtRest) (h : ∀ c ∈ cs, c.bone.AtRest) :
    BoneDynamics.originChain E o b cs = ((b, cs), 0) := by
  induction cs generalizing b with
  | nil =>
    simp only [chainRoot] at hroot
    simp only [BoneDynamics.originChain, ← hroot, vec_sub_self,
      zero_originStep E hcos hsin hsqrt0 b hb]
  | cons c cs ih =>
    have hc := h c (List.mem_cons_self _ _)
    have hup := ih c.bone hroot hc (fun c2 hc2 => h c2 (List.mem_cons_of_mem _ hc2))
    simp only [BoneDynamics.originChain, hup, zero_originStep E hcos hsin hsqrt0 b hb]

theorem zero_adjustParentChain (E : MathEnv α) (hcos : E.cos 0 = 1) (hsin : E.sin 0 = 0)
    (hsqrt0 : E.sqrt 0 = 0) (cs : List (Crumb α)) (prev : RigidBone α)
    (hconn : chainConnected E prev cs) (h : ∀ c ∈ cs, c.bone.AtRest) :
    BoneDynamics.adjustParentChain E prev cs = cs := by
  induction cs generalizing prev with
  | nil => rfl
  | cons c cs ih =>
    have hc := h c (List.mem_cons_self _ _)
    simp only [chainConnected] at hconn
    have hstep := zero_adjustParentStep E hcos hsin hsqrt0 prev c.bone hc hconn.1
    simp only [BoneDynamics.adjustParentChain, hstep,
      ih c.bone hconn.2 (fun c2 hc2 => h c2 (List.mem_cons_of_mem _ hc2))]

mutual
theorem zero_pullChild (E : MathEnv α) (hcos : E.cos 0 = 1) (hsin : E.sin 0 = 0)
    (hsqrt0 : E.sqrt 0 = 0) : ∀ t : Tree (RigidBone α), Tree.All RigidBone.AtRest t →
    BoneDynamics.pullChild E t 0 = t
  | Tree.node b cs, h => by
    simp only [Tree.All] at h
    simp only [BoneDynamics.pullChild, zero_pullChildStep E hcos hsin hsqrt0 b h.1,
      zero_pullChildren E hcos hsin hsqrt0 cs h.2]
theorem zero_pullChildren (E : MathEnv α) (hcos : E.cos 0 = 1) (hsin : E.sin 0 = 0)
    (hsqrt0 : E.sqrt 0 = 0) : ∀ ts : List (Tree (RigidBone α)),
    Tree.AllList RigidBone.AtRest ts → BoneDynamics.pullChildren E ts 0 = ts
  | [], _ => rfl
  | c :: cs, h => by
    simp only [Tree.AllList] at h
    simp only [BoneDynamics.pullChildren, zero_pullChild E hcos hsin hsqrt0 c h.1,
      zero_pullChildren E hcos hsin hsqrt0 cs h.2]
end

mutual
theorem zero_adjustChild (E : MathEnv α) (hcos : E.cos 0 = 1) (hsin : E.sin 0 = 0)
    (hsqrt0 : E.sqrt 0 = 0) : ∀ (t : Tree (RigidBone α)) (tail : QVector2D α),
    Tree.All RigidBone.AtRest t → t.value.rootPos = tail → Connected E t →
    BoneDynamics.adjustChild E tail t = t
  | Tree.node b cs, tail, h, hroot, hconn => by
    simp only [Tree.All] at h
    simp only [Connected] at hconn
    simp only [Tree.value] at hroot
    simp only [BoneDynamics.adjustChild,
      zero_adjustChildStep E hcos hsin hsqrt0 tail b h.1 hroot,
      zero_adjustChildren E hcos hsin hsqrt0 cs (b.tailPos E) h.2 hconn]
theorem zero_adjustChildren (E : MathEnv α) (hcos : E.cos 0 = 1) (hsin : E.sin 0 = 0)
    (hsqrt0 : E.sqrt 0 = 0) : ∀ (ts : List (Tree (RigidBone α))) (tail : QVector2D α),
    Tree.AllList RigidBone.AtRest ts → ConnectedList E tail ts →
    BoneDynamics.adjustChildren E tail ts = ts
  | [], _, _, _ => rfl
  | c :: cs, tail, h, hconn => by
    simp only [Tree.AllList] at h
    simp only [ConnectedList] at hconn
    simp only [BoneDynamics.adjustChildren,
      zero_adjustChild E hcos hsin hsqrt0 c tail h.1 hconn.1.1 hconn.1.2,
      zero_adjustChildren E hcos hsin hsqrt0 cs tail h.2 hconn.2]
end

theorem connectedList_append (E : MathEnv α) (tail : QVector2D α)
    (l : List (Tree (RigidBone α))) (t : Tree (RigidBone α)) (r : List (Tree (RigidBone α))) :
    ConnectedList E tail (l ++ t :: r) →
      t.value.rootPos = tail ∧ Connected E t := by
  induction l with
  | nil =>
    intro h
    simp only [List.nil_append, ConnectedList] at h
    exact h.1
  | cons c cs ih =>
    intro h
    simp only [List.cons_append, ConnectedList] at h
    exact ih h.2

theorem connected_plugChain (E : MathEnv α) (t : Tree (RigidBone α)) (cs : List (Crumb α)) :
    Connected E (plugChain t cs) → Connected E t ∧ chainConnected E t.value cs := by
  induction cs generalizing t with
  | nil =>
    intro h
    exact ⟨h, trivial⟩
  | cons c cs ih =>
    intro h
    have h1 := ih (c.close t) h
    have h2 := connectedList_append E _ c.left t c.right (by
      simpa only [Crumb.close, Connected] using h1.1)
    exact ⟨h2.2, h2.1, by simpa only [Crumb.close, Tree.value] using h1.2⟩

end ZeroSteps

section NodesOfMap

mutual
theorem preorder_map_snd {β γ : Type} (κ : β → γ) : ∀ (t : Tree β) (p : Option β)
    (q : Option γ),
    (Tree.preorder q (Tree.map κ t)).map Prod.snd = ((Tree.preorder p t).map Prod.snd).map κ
  | Tree.node b cs, p, q => by
    simp only [Tree.map, Tree.preorder, List.map_cons, preorderList_map_snd κ cs b (κ b)]
theorem preorderList_map_snd {β γ : Type} (κ : β → γ) : ∀ (ts : List (Tree β)) (p : β)
    (q : γ),
    (Tree.preorderList q (Tree.mapList κ ts)).map Prod.snd =
      ((Tree.preorderList p ts).map Prod.snd).map κ
  | [], _, _ => rfl
  | c :: cs, p, q => by
    simp only [Tree.mapList, Tree.preorderList, List.map_append,
      preorder_map_snd κ c (some p) (some q), preorderList_map_snd κ cs p q]
end

theorem nodes_map {β γ : Type} (κ : β → γ) (t : Tree β) :
    Tree.nodes (Tree.map κ t) = (Tree.nodes t).map κ :=
  preorder_map_snd κ t none none

end NodesOfMap

/-! ## A pull across the segment, over the reals -/

section AcrossReal

theorem real_normalized_dir (eps : ℝ) (b : RigidBone ℝ) (hlen : 0 < b.length) :
    (b.dir (realEnv eps)).normalized (realEnv eps) = ⟨Real.cos b.angle, Real.sin b.angle⟩ :=
  normalized_dir (realEnv eps) real_sqrt_mul Real.sqrt_one real_pyth b hlen

theorem tail_shift_free (eps : ℝ) (b : RigidBone ℝ) (pull : QVector2D ℝ) :
    QVector2D.dotProduct
        ((RigidBone.updateMotion (realEnv eps) (-1) b).tailPos (realEnv eps) -
          b.tailPos (realEnv eps)) pull =
      QVector2D.dotProduct b.force pull +
        b.length * ((Real.cos (b.angle + b.torque) - Real.cos b.angle) * pull.x +
          (Real.sin (b.angle + b.torque) - Real.sin b.angle) * pull.y) := by
  simp [RigidBone.updateMotion, RigidBone.tailPos, getVectorFromPolarCoord,
    QVector2D.dotProduct, realEnv]
  ring

theorem root_shift_tail (eps : ℝ) (b : RigidBone ℝ) (pull : QVector2D ℝ) :
    QVector2D.dotProduct
        ((RigidBone.updateMotion (realEnv eps) 1 b).rootPos - b.rootPos) pull =
      QVector2D.dotProduct b.force pull -
        b.length * ((Real.cos (b.angle + b.torque) - Real.cos b.angle) * pull.x +
          (Real.sin (b.angle + b.torque) - Real.sin b.angle) * pull.y) := by
  simp [RigidBone.updateMotion, RigidBone.tailPos, getVectorFromPolarCoord,
    getRotateVectorRad, QVector2D.dotProduct, realEnv, Real.cos_add, Real.sin_add]
  ring

theorem turn_across (a T px py : ℝ) (hd : Real.cos a * px + Real.sin a * py = 0) :
    (Real.cos (a + T) - Real.cos a) * px + (Real.sin (a + T) - Real.sin a) * py =
      Real.sin T * (Real.cos a * py - Real.sin a * px) := by
  rw [Real.cos_add, Real.sin_add]
  linear_combination (Real.cos T - 1) * hd

theorem norm_across (a px py : ℝ) (hd : Real.cos a * px + Real.sin a * py = 0) :
    px * px + py * py =
      (Real.cos a * py - Real.sin a * px) * (Real.cos a * py - Real.sin a * px) := by
  have h := real_pyth a
  linear_combination (-(px * px + py * py)) * h + (Real.cos a * px + Real.sin a * py) * hd

end AcrossReal

section AcrossSign

theorem sin_signed (θ s σ : ℝ) (hs : s ≠ 0) (hσ : σ = 1 ∨ σ = -1) :
    Real.sin (θ * σ * (if s > 0 then 1 else -1)) * s = σ * (Real.sin θ * |s|) := by
  rcases lt_or_gt_of_ne hs with hneg | hpos
  · have h1 : ¬ (s > 0) := not_lt.mpr hneg.le
    rw [if_neg h1, abs_of_neg hneg]
    rcases hσ with rfl | rfl
    · rw [show θ * 1 * -1 = -θ by ring, Real.sin_neg]
      ring
    · rw [show θ * -1 * -1 = θ by ring]
      ring
  · rw [if_pos hpos, abs_of_pos hpos]
    rcases hσ with rfl | rfl
    · rw [show θ * 1 * 1 = θ by ring]
      ring
    · rw [show θ * -1 * 1 = -θ by ring, Real.sin_neg]
      ring

theorem toward_pull (c rr L s : ℝ) (hc : 0 < c) (hr0 : 0 ≤ rr) (hr1 : rr ≤ 1) (hL : 0 < L)
    (hs : s ≠ 0) (hπ : |s| * rr / L < Real.pi) :
    0 < c * (1 - rr) * (s * s) + L * (Real.sin (|s| * rr / L) * |s|) := by
  have hss : 0 < s * s := mul_self_pos.mpr hs
  have habs : 0 < |s| := abs_pos.mpr hs
  rcases eq_or_lt_of_le hr0 with h0 | hpos
  · rw [← h0]
    simp only [mul_zero, zero_div, Real.sin_zero, zero_mul, add_zero, sub_zero, mul_one]
    exact mul_pos hc hss
  · have hθ : 0 < |s| * rr / L := div_pos (mul_pos habs hpos) hL
    have hsin := Real.sin_pos_of_pos_of_lt_pi hθ hπ
    have h1 : 0 ≤ c * (1 - rr) * (s * s) :=
      mul_nonneg (mul_nonneg hc.le (sub_nonneg.mpr hr1)) hss.le
    have h2 : 0 < L * (Real.sin (|s| * rr / L) * |s|) := mul_pos hL (mul_pos hsin habs)
    linarith

end AcrossSign

/-! # Properties of the solver -/

section Properties

variable {α : Type} [LinearOrderedField α]

/-- C1: `rotationDifferences` returns exactly one entry per rigid node, the entries
are those of the nodes in pre-order (the i-th entry is the value computed for the
i-th visited node), and the entry of every node without a parent is 0, in whatever
state the tree is. -/
theorem C1_rotationDifferences_one_entry_per_node (E : MathEnv α) (D : BoneDynamics α) :
    (BoneDynamics.rotationDifferences E D).length = D.mRigidTopBone.size ∧
    BoneDynamics.rotationDifferences E D =
      (Tree.preorder none D.mRigidTopBone).map
        (fun it => BoneDynamics.rotationDifference E it.1 it.2) ∧
    ∀ i : Nat, ∀ it ∈ (Tree.preorder none D.mRigidTopBone)[i]?, it.1 = none →
      (BoneDynamics.rotationDifferences E D)[i]? = some 0 := by
  have hmap : BoneDynamics.rotationDifferences E D =
      (Tree.preorder none D.mRigidTopBone).map
        (fun it => BoneDynamics.rotationDifference E it.1 it.2) := by
    unfold BoneDynamics.rotationDifferences
    rw [foldl_push_eq_map
      (fun it : Option (RigidBone α) × RigidBone α => BoneDynamics.rotationDifference E it.1 it.2)]
    simp
  refine ⟨?_, hmap, ?_⟩
  · rw [hmap, List.length_map, Tree.length_preorder]
  · intro i it hit hnone
    rw [hmap, List.getElem?_map]
    rw [Option.mem_def] at hit
    rw [hit]
    simp [BoneDynamics.rotationDifference, hnone]

/-- C2: the values that `DrawBoneMode::pullBone` hands to the command are one per
source bone, in pre-order, and the i-th value is the stored `rotate()` of the i-th
source bone plus the i-th rotation difference of the solver after the pulls. -/
theorem C2_nextRots_add_difference_to_rotate (E : MathEnv α) (targetRoot : Tree (Bone2 α))
    (aTarget : Nat) (aPull : QVector2D α) (aPullPosRate : α) :
    (DrawBoneMode.pullBone E targetRoot aTarget aPull aPullPosRate).length
      = (Tree.nodes targetRoot).length ∧
    (BoneDynamics.rotationDifferences E
        (DrawBoneMode.pullBoneDynamics E targetRoot aTarget aPull aPullPosRate)).length
      = (Tree.nodes targetRoot).length ∧
    DrawBoneMode.pullBone E targetRoot aTarget aPull aPullPosRate =
      List.zipWith (fun b d => b.rotate + d) (Tree.nodes targetRoot)
        (BoneDynamics.rotationDifferences E
          (DrawBoneMode.pullBoneDynamics E targetRoot aTarget aPull aPullPosRate)) := by
  have hlen : (BoneDynamics.rotationDifferences E
        (DrawBoneMode.pullBoneDynamics E targetRoot aTarget aPull aPullPosRate)).length
      = (Tree.nodes targetRoot).length := by
    rw [length_rotationDifferences, size_pullBoneDynamics, Tree.nodes, List.length_map,
      Tree.length_preorder]
  have hzip : DrawBoneMode.pullBone E targetRoot aTarget aPull aPullPosRate =
      List.zipWith (fun b d => b.rotate + d) (Tree.nodes targetRoot)
        (BoneDynamics.rotationDifferences E
          (DrawBoneMode.pullBoneDynamics E targetRoot aTarget aPull aPullPosRate)) := by
    simp [DrawBoneMode.pullBone, nextRotsLoop_eq]
  refine ⟨?_, hlen, hzip⟩
  rw [hzip, List.length_zipWith, hlen, Nat.min_self]

/-- C3 as stated fails: on the two-bone chain along the x axis whose child bone
stores the rotation 1 while all world and local angles are 0, pulled by `(16, 0)` at
the tail of the child through `DrawBoneMode::pullBone`, no threshold in `(0, 10]`
makes the rotation differences the differences against the snapshot (the child's
entry is -1, the snapshot reading gives 0). -/
theorem C3_counterexample :
    ¬ ∃ eps : ℝ, 0 < eps ∧ eps ≤ 10 ∧
      SnapshotDifferences (realEnv eps) (BoneDynamics.create (realEnv eps) (axisSource 1))
        (DrawBoneMode.pullBoneDynamics (realEnv eps) (axisSource 1) 1 ⟨16, 0⟩ 1) := by
  rintro ⟨eps, h0, h10, h⟩
  obtain ⟨x, y, hxy⟩ := axis_pullBoneDynamics (realEnv eps) Real.cos_zero Real.sin_zero
    Real.sqrt_zero sqrt_hundred h0 h10 1 16
  rw [hxy] at h
  have h1 := h 1 (axisTop 0) (axisChild 1 0) (axisTop x) (axisChild 1 y)
    (by
      rw [axis_create (realEnv eps) Real.sqrt_zero sqrt_hundred 1]
      rfl)
    rfl
  rw [axis_rotationDifferences] at h1
  simp [axisFocus, axisTop, axisChild, realEnv, angleDifferenceReal, normalizeAngleReal_zero,
    normalizeAngleReal_one, normalizeAngleReal_neg_one] at h1

/-- C3 amended: for every node with a parent, in whatever state the tree is, the
entry of `rotationDifferences` is `getAngleDifferenceRad` from the normalised stored
`rotate()` of the node's source bone to the normalised value of
`angle - parent.angle - localAngle`; it is the difference from a pre-pull value `pre`
of that expression exactly when the two references agree after normalisation. -/
theorem C3_difference_against_stored_rotate (E : MathEnv α) (D : BoneDynamics α) (i : Nat)
    (p b : RigidBone α) (h : (Tree.preorder none D.mRigidTopBone)[i]? = some (some p, b)) :
    (BoneDynamics.rotationDifferences E D)[i]? = some
      (E.getAngleDifferenceRad (E.normalizeAngleRad b.ptr.rotate)
        (E.normalizeAngleRad (b.angle - p.angle - b.ptr.localAngle))) ∧
    ∀ pre : α, E.normalizeAngleRad b.ptr.rotate = E.normalizeAngleRad pre →
      (BoneDynamics.rotationDifferences E D)[i]? = some
        (E.getAngleDifferenceRad (E.normalizeAngleRad pre)
          (E.normalizeAngleRad (b.angle - p.angle - b.ptr.localAngle))) := by
  have hcode : (BoneDynamics.rotationDifferences E D)[i]? = some
      (E.getAngleDifferenceRad (E.normalizeAngleRad b.ptr.rotate)
        (E.normalizeAngleRad (b.angle - p.angle - b.ptr.localAngle))) := by
    unfold BoneDynamics.rotationDifferences
    rw [foldl_push_eq_map
      (fun it : Option (RigidBone α) × RigidBone α =>
        BoneDynamics.rotationDifference E it.1 it.2)]
    simp [List.getElem?_map, h, BoneDynamics.rotationDifference]
  refine ⟨hcode, ?_⟩
  intro pre hpre
  rw [hcode, hpre]

/-- C3 amended, at the child node of the two-bone chain along the x axis whose child
bone stores the rotation 1. -/
theorem C3_difference_against_stored_rotate_witness :
    (BoneDynamics.rotationDifferences (realEnv 1)
        ⟨axisSource 1, (axisFocus 1 0 0).plug, 1 / 10⟩)[1]? = some
      (angleDifferenceReal (normalizeAngleReal 1) (normalizeAngleReal (0 - 0 - 0))) :=
  (C3_difference_against_stored_rotate (realEnv 1)
    ⟨axisSource 1, (axisFocus 1 0 0).plug, 1 / 10⟩ 1 (axisTop 0) (axisChild 1 0) rfl).1

/-- C4: with `cos` and `sin` obeying the addition formulas, `updateMotion` translates
the segment by `force` and rotates it by `torque` about the pivot of the mode: the
angle becomes `angle + torque`, and the pivot (the root for -1, the midpoint for 0,
the tail for 1) ends at its place before the call plus `force`. -/
theorem C4_updateMotion_translates_then_rotates (E : MathEnv α)
    (hcos : ∀ a b : α, E.cos (a + b) = E.cos a * E.cos b - E.sin a * E.sin b)
    (hsin : ∀ a b : α, E.sin (a + b) = E.sin a * E.cos b + E.cos a * E.sin b)
    (b : RigidBone α) :
    ((RigidBone.updateMotion E (-1) b).angle = b.angle + b.torque ∧
      (RigidBone.updateMotion E (-1) b).rootPos = b.rootPos + b.force) ∧
    ((RigidBone.updateMotion E 0 b).angle = b.angle + b.torque ∧
      (RigidBone.updateMotion E 0 b).rootPos + (1 / 2 : α) * (RigidBone.updateMotion E 0 b).dir E
        = (b.rootPos + (1 / 2 : α) * b.dir E) + b.force) ∧
    ((RigidBone.updateMotion E 1 b).angle = b.angle + b.torque ∧
      (RigidBone.updateMotion E 1 b).tailPos E = b.tailPos E + b.force) := by
  refine ⟨⟨?_, ?_⟩, ⟨?_, ?_⟩, ⟨?_, ?_⟩⟩
  · simp [RigidBone.updateMotion]
  · simp [RigidBone.updateMotion]
  · simp [RigidBone.updateMotion]
  · ext <;>
      simp [RigidBone.updateMotion, RigidBone.dir, getVectorFromPolarCoord,
        getRotateVectorRad, hcos, hsin] <;> ring
  · simp [RigidBone.updateMotion]
  · ext <;>
      simp [RigidBone.updateMotion, RigidBone.tailPos, getVectorFromPolarCoord,
        getRotateVectorRad, hcos, hsin] <;> ring

/-- C4 at a concrete node over the reals: a unit segment from the origin along the
x axis, with force `(1, 0)` and torque `1`. -/
theorem C4_updateMotion_translates_then_rotates_witness :
    ((RigidBone.updateMotion (realEnv 1) (-1) unitBone).angle
        = (unitBone : RigidBone ℝ).angle + (unitBone : RigidBone ℝ).torque ∧
      (RigidBone.updateMotion (realEnv 1) (-1) unitBone).rootPos
        = (unitBone : RigidBone ℝ).rootPos + (unitBone : RigidBone ℝ).force) ∧
    ((RigidBone.updateMotion (realEnv 1) 0 unitBone).angle
        = (unitBone : RigidBone ℝ).angle + (unitBone : RigidBone ℝ).torque ∧
      (RigidBone.updateMotion (realEnv 1) 0 unitBone).rootPos +
          (1 / 2 : ℝ) * (RigidBone.updateMotion (realEnv 1) 0 unitBone).dir (realEnv 1)
        = ((unitBone : RigidBone ℝ).rootPos + (1 / 2 : ℝ) * RigidBone.dir (realEnv 1) unitBone)
          + (unitBone : RigidBone ℝ).force) ∧
    ((RigidBone.updateMotion (realEnv 1) 1 unitBone).angle
        = (unitBone : RigidBone ℝ).angle + (unitBone : RigidBone ℝ).torque ∧
      (RigidBone.updateMotion (realEnv 1) 1 unitBone).tailPos (realEnv 1)
        = RigidBone.tailPos (realEnv 1) unitBone + (unitBone : RigidBone ℝ).force) :=
  C4_updateMotion_translates_then_rotates (realEnv 1) Real.cos_add Real.sin_add unitBone

/-- C5: after `updateMotion`, whatever the node and whatever the value of the pivot
argument, the force is the zero vector and the torque is 0. -/
theorem C5_updateMotion_clears_accumulators (E : MathEnv α) (aCentroid : Int)
    (b : RigidBone α) :
    (RigidBone.updateMotion E aCentroid b).force = 0 ∧
    (RigidBone.updateMotion E aCentroid b).torque = 0 := by
  simp [RigidBone.updateMotion]

/-- C6: on a tree built by the constructor (with `sqrt 0 = 0`, so that the top node
has length 0, and a positive threshold), in whatever state earlier pulls left it and
for every target node, the top node sits on the world anchor `mTopBone.worldPos()`
right after `adjustByOriginConstraint(target)`. -/
theorem C6_origin_constraint_pins_root (E : MathEnv α) (hsqrt : E.sqrt 0 = 0)
    (heps : 0 < E.normalizable) (targetRoot : Tree (Bone2 α)) (aTarget : Focus α)
    (hreach : Reachable E (BoneDynamics.create E targetRoot) aTarget.plug) :
    (BoneDynamics.adjustByOriginConstraint E (BoneDynamics.create E targetRoot)
      aTarget).1.root.rootPos = targetRoot.value.worldPos := by
  simp only [BoneDynamics.adjustByOriginConstraint, Focus.root]
  exact originChain_root E heps _ _ _ (length_root_of_reachable E hsqrt targetRoot aTarget hreach)

/-- C6 on the two-bone chain along the x axis over the reals, the child bone being
the target, right after construction. -/
theorem C6_origin_constraint_pins_root_witness :
    (BoneDynamics.adjustByOriginConstraint (realEnv 1)
        (BoneDynamics.create (realEnv 1) (axisSource 0)) (axisFocus 0 0 0)).1.root.rootPos
      = (axisSource (0 : ℝ)).value.worldPos :=
  C6_origin_constraint_pins_root (realEnv 1) Real.sqrt_zero one_pos (axisSource 0)
    (axisFocus 0 0 0)
    (by
      rw [← axis_create (realEnv 1) Real.sqrt_zero sqrt_hundred 0]
      exact Reachable.init)

/-- C7 amended: on a tree built by the constructor and for a target with at least
one ancestor, the top node sits on the world anchor after the target step, the two
propagations and the origin re-pin; the adjustment passes then move the top node
onto its child on the chain of the target, so after the complete `pullBone` the
top node's `rootPos` is that child's `rootPos`. -/
theorem C7_root_follows_its_child (E : MathEnv α) (hsqrt : E.sqrt 0 = 0)
    (heps : 0 < E.normalizable) (targetRoot : Tree (Bone2 α)) (aTarget : Focus α)
    (hreach : Reachable E (BoneDynamics.create E targetRoot) aTarget.plug)
    (hanc : aTarget.ancestors ≠ []) (aPull : QVector2D α) (aPullPos : α) :
    (BoneDynamics.pullBonePropagate E (BoneDynamics.create E targetRoot) aTarget aPull
      aPullPos).root.rootPos = targetRoot.value.worldPos ∧
    ∃ c, (BoneDynamics.pullBone E (BoneDynamics.create E targetRoot) aTarget aPull
        aPullPos).rootChild = some c ∧
      (BoneDynamics.pullBone E (BoneDynamics.create E targetRoot) aTarget aPull
        aPullPos).root.rootPos = c.rootPos := by
  have hlen := length_root_of_reachable E hsqrt targetRoot aTarget hreach
  refine ⟨pullBonePropagate_root E heps _ aTarget hlen aPull aPullPos, ?_⟩
  rw [BoneDynamics.pullBone, Function.iterate_succ_apply']
  have hfix : ((BoneDynamics.adjustOnce E)^[2]
      (BoneDynamics.pullBonePropagate E (BoneDynamics.create E targetRoot) aTarget aPull
        aPullPos)).fixed = aTarget.fixed := by
    rw [fixed_adjustIter, fixed_pullBonePropagate]
  apply adjustOnce_root E heps
  · exact ancestors_ne_nil_of_fixed _ _ hfix.symm hanc
  · rw [root_length_of_fixed _ _ hfix]
    exact hlen

/-- C7 as stated fails: on the two-bone chain along the x axis, built by the
constructor with the top bone at the origin, no threshold in `(0, 10]` makes the top
node end on the anchor after `pullBone` of the child bone by `(1, 0)` at its tail
(it ends at `(9/100, 0)`). -/
theorem C7_counterexample :
    ¬ ∃ eps : ℝ, 0 < eps ∧ eps ≤ 10 ∧
      ∀ aTarget : Focus ℝ,
        findTarget 1 [] (BoneDynamics.create (realEnv eps) (axisSource 0)).mRigidTopBone
          = some aTarget →
        (BoneDynamics.pullBone (realEnv eps) (BoneDynamics.create (realEnv eps) (axisSource 0))
          aTarget ⟨1, 0⟩ 1).root.rootPos = (axisSource (0 : ℝ)).value.worldPos := by
  rintro ⟨eps, h0, h10, h⟩
  have hf := h (axisFocus 0 0 0) (by
    rw [axis_create (realEnv eps) Real.sqrt_zero sqrt_hundred 0]
    exact axis_findTarget 0 0 0)
  rw [axis_pullBone (realEnv eps) Real.cos_zero Real.sin_zero Real.sqrt_zero sqrt_hundred
    h0 h10] at hf
  simp only [Focus.root, chainRoot, axisFocus, axisTop, axisChild, axisSource, Tree.value,
    QVector2D.mk.injEq] at hf
  norm_num at hf

/-- C7 amended, on the two-bone chain along the x axis over the reals with the child
bone pulled by `(1, 0)` at its tail. -/
theorem C7_root_follows_its_child_witness :
    (BoneDynamics.pullBonePropagate (realEnv 1) (BoneDynamics.create (realEnv 1) (axisSource 0))
      (axisFocus 0 0 0) ⟨1, 0⟩ 1).root.rootPos = (axisSource (0 : ℝ)).value.worldPos ∧
    ∃ c, (BoneDynamics.pullBone (realEnv 1) (BoneDynamics.create (realEnv 1) (axisSource 0))
        (axisFocus 0 0 0) ⟨1, 0⟩ 1).rootChild = some c ∧
      (BoneDynamics.pullBone (realEnv 1) (BoneDynamics.create (realEnv 1) (axisSource 0))
        (axisFocus 0 0 0) ⟨1, 0⟩ 1).root.rootPos = c.rootPos :=
  C7_root_follows_its_child (realEnv 1) Real.sqrt_zero one_pos (axisSource 0)
    (axisFocus 0 0 0)
    (by
      rw [← axis_create (realEnv 1) Real.sqrt_zero sqrt_hundred 0]
      exact Reachable.init)
    (by simp [axisFocus, axisTop, axisChild]) ⟨1, 0⟩ 1

/-- C8 as stated fails: for no positive threshold does `updateMotion` with the free
pivot leave the angle of a node of length 0 and torque 1 unchanged. -/
theorem C8_counterexample :
    ¬ ∃ eps : ℝ, (0 : ℝ) < eps ∧
      (RigidBone.updateMotion (realEnv eps) (-1) ⟨⟨0, 0, 0, 0, 0⟩, 0, 0, 0, 0, 1⟩).angle
        = (0 : ℝ) := by
  rintro ⟨eps, -, h⟩
  simp [RigidBone.updateMotion] at h

/-- C8 amended: for every node (whatever its `length`, so also below the threshold),
every force and every value of the pivot argument, `updateMotion` leaves the angle
unchanged when the torque accumulator is zero. -/
theorem C8_updateMotion_angle_unchanged_without_torque (E : MathEnv α) (aCentroid : Int)
    (b : RigidBone α) (htorque : b.torque = 0) :
    (RigidBone.updateMotion E aCentroid b).angle = b.angle := by
  unfold RigidBone.updateMotion
  split_ifs <;> simp [htorque]

/-- C8 amended, at a node of length 0 with force `(3, 4)` and the tail pivot. -/
theorem C8_updateMotion_angle_unchanged_without_torque_witness :
    (RigidBone.updateMotion (realEnv 1) 1 ⟨⟨0, 0, 0, 0, 0⟩, 0, 2, 0, ⟨3, 4⟩, 0⟩).angle
      = (2 : ℝ) :=
  C8_updateMotion_angle_unchanged_without_torque (realEnv 1) 1
    ⟨⟨0, 0, 0, 0, 0⟩, 0, 2, 0, ⟨3, 4⟩, 0⟩ rfl

/-- C9: for a node with `k` children, the connect point of `reconnectBonesRecursive`
is `(tail + sum of the children's rootPos) / (k + 1)` with `tail = rootPos + dir`;
the node is assigned from the tail pull `connectPos - tail`, and every child is
called with the root pull `connectPos - child.rootPos`. -/
theorem C9_connectPos_is_average (E : MathEnv α) (aCurrent : RigidBone α)
    (cs : List (Tree (RigidBone α))) (aRootPull : QVector2D α) :
    BoneDynamics.connectPos (aCurrent.rootPos + aCurrent.dir E) cs =
      ((aCurrent.rootPos + aCurrent.dir E) + (cs.map fun c => c.value.rootPos).sum) /
        (((cs.length + 1 : Nat)) : α) ∧
    BoneDynamics.reconnectBonesRecursive E (Tree.node aCurrent cs) aRootPull =
      Tree.node
        (BoneDynamics.reconnectStep E aCurrent aRootPull
          (BoneDynamics.connectPos (aCurrent.rootPos + aCurrent.dir E) cs -
            (aCurrent.rootPos + aCurrent.dir E)))
        (cs.map fun c => BoneDynamics.reconnectBonesRecursive E c
          (BoneDynamics.connectPos (aCurrent.rootPos + aCurrent.dir E) cs - c.value.rootPos)) := by
  refine ⟨?_, ?_⟩
  · rw [BoneDynamics.connectPos, foldl_connect, Nat.add_comm]
    ext <;> simp <;> ring
  · rw [BoneDynamics.reconnectBonesRecursive, reconnectChildren_eq_map]

/-- C10 as stated fails: on the two-bone chain along the x axis whose child bone
stores the rotation 1 while all world and local angles are 0, the address 7 matches
no rigid node, and the values handed off are `[0, 0]` while the stored rotations are
`[0, 1]` (the threshold plays no part). -/
theorem C10_counterexample :
    (∀ b ∈ Tree.nodes (BoneDynamics.create (realEnv 1) (axisSource 1)).mRigidTopBone,
      b.ptr.addr ≠ 7) ∧
    DrawBoneMode.pullBone (realEnv 1) (axisSource 1) 7 ⟨16, 0⟩ 1 = [0, 0] ∧
    (Tree.nodes (axisSource (1 : ℝ))).map Bone2.rotate = [0, 1] := by
  have hno : ∀ b ∈ Tree.nodes (BoneDynamics.create (realEnv 1) (axisSource 1)).mRigidTopBone,
      b.ptr.addr ≠ 7 := by
    rw [axis_create (realEnv 1) Real.sqrt_zero sqrt_hundred 1]
    simp [Tree.nodes, Tree.preorder, Tree.preorderList, axisFocus, axisTop, axisChild,
      Focus.plug, plugChain, Crumb.close]
  refine ⟨hno, ?_, ?_⟩
  · rw [pullBone_of_unmatched (realEnv 1) (axisSource 1) 7 ⟨16, 0⟩ 1 hno]
    simp [axisSource, Tree.preorder, Tree.preorderList, snapshotDifference, realEnv,
      angleDifferenceReal, normalizeAngleReal_zero, normalizeAngleReal_one,
      normalizeAngleReal_neg_one]
  · simp [Tree.nodes, Tree.preorder, Tree.preorderList, axisSource]

/-- C10 amended: if no rigid node points to the requested target, no pull is applied
(the solver stays as the constructor built it) and the value handed off for a bone is
its stored rotation plus the rotation difference of the untouched snapshot: the
stored rotation itself for a bone without a parent, and for every bone whenever
`getAngleDifferenceRad` of equal angles is 0 and the normalised stored rotation of
each bone with a parent equals its normalised
`worldAngle - parent.worldAngle - localAngle`. -/
theorem C10_unmatched_target_applies_no_pull (E : MathEnv α) (targetRoot : Tree (Bone2 α))
    (aTarget : Nat) (aPull : QVector2D α) (aPullPosRate : α)
    (hno : ∀ b ∈ Tree.nodes (BoneDynamics.create E targetRoot).mRigidTopBone,
      b.ptr.addr ≠ aTarget) :
    DrawBoneMode.pullBoneDynamics E targetRoot aTarget aPull aPullPosRate =
      BoneDynamics.create E targetRoot ∧
    DrawBoneMode.pullBone E targetRoot aTarget aPull aPullPosRate =
      (Tree.preorder none targetRoot).map
        (fun it => it.2.rotate + snapshotDifference E it.1 it.2) ∧
    (∀ (i : Nat) (it : Option (Bone2 α) × Bone2 α),
      (Tree.preorder none targetRoot)[i]? = some it → it.1 = none →
      (DrawBoneMode.pullBone E targetRoot aTarget aPull aPullPosRate)[i]? = some it.2.rotate) ∧
    ((∀ x, E.getAngleDifferenceRad x x = 0) →
      (∀ it ∈ Tree.preorder none targetRoot, ∀ p, it.1 = some p →
        E.normalizeAngleRad it.2.rotate =
          E.normalizeAngleRad (it.2.worldAngle - p.worldAngle - it.2.localAngle)) →
      DrawBoneMode.pullBone E targetRoot aTarget aPull aPullPosRate =
        (Tree.nodes targetRoot).map Bone2.rotate) := by
  have hb := pullBone_of_unmatched E targetRoot aTarget aPull aPullPosRate hno
  refine ⟨pullBoneDynamics_of_unmatched E targetRoot aTarget aPull aPullPosRate hno, hb, ?_, ?_⟩
  · intro i it hit hnone
    rw [hb, List.getElem?_map, hit]
    simp [snapshotDifference, hnone]
  · intro hD hN
    rw [hb, Tree.nodes, List.map_map]
    apply List.map_congr_left
    intro it hit
    rcases it with ⟨p, b⟩
    cases p with
    | none => simp [snapshotDifference]
    | some p =>
      have := hN (some p, b) hit p rfl
      simp only [] at this
      simp [snapshotDifference, this, hD]

/-- C10 amended, on the two-bone chain along the x axis with the absent address 7. -/
theorem C10_unmatched_target_applies_no_pull_witness :
    DrawBoneMode.pullBoneDynamics (realEnv 1) (axisSource 1) 7 ⟨16, 0⟩ 1 =
      BoneDynamics.create (realEnv 1) (axisSource 1) ∧
    DrawBoneMode.pullBone (realEnv 1) (axisSource 1) 7 ⟨16, 0⟩ 1 =
      (Tree.preorder none (axisSource 1)).map
        (fun it => it.2.rotate + snapshotDifference (realEnv 1) it.1 it.2) ∧
    (∀ (i : Nat) (it : Option (Bone2 ℝ) × Bone2 ℝ),
      (Tree.preorder none (axisSource 1))[i]? = some it → it.1 = none →
      (DrawBoneMode.pullBone (realEnv 1) (axisSource 1) 7 ⟨16, 0⟩ 1)[i]? = some it.2.rotate) ∧
    ((∀ x, (realEnv 1).getAngleDifferenceRad x x = 0) →
      (∀ it ∈ Tree.preorder none (axisSource (1 : ℝ)), ∀ p, it.1 = some p →
        (realEnv 1).normalizeAngleRad it.2.rotate =
          (realEnv 1).normalizeAngleRad (it.2.worldAngle - p.worldAngle - it.2.localAngle)) →
      DrawBoneMode.pullBone (realEnv 1) (axisSource 1) 7 ⟨16, 0⟩ 1 =
        (Tree.nodes (axisSource 1)).map Bone2.rotate) :=
  C10_unmatched_target_applies_no_pull (realEnv 1) (axisSource 1) 7 ⟨16, 0⟩ 1 (by
    rw [axis_create (realEnv 1) Real.sqrt_zero sqrt_hundred 1]
    simp [Tree.nodes, Tree.preorder, Tree.preorderList, axisFocus, axisTop, axisChild,
      Focus.plug, plugChain, Crumb.close])

/-- C11: `updateMotion`, the complete `pullBone`, `reconnectBones` and `updateMotions`
leave the shape of the rigid tree and, for every node, the source bone it points to
and its `length` as they were: only `rootPos`, `angle`, `force` and `torque` are
written. -/
theorem C11_length_and_shape_never_written (E : MathEnv α) (D : BoneDynamics α)
    (aCentroid : Int) (b : RigidBone α) (aTarget : Focus α) (aPull : QVector2D α)
    (aPullPos : α) :
    (RigidBone.updateMotion E aCentroid b).fixed = b.fixed ∧
    Tree.map RigidBone.fixed (BoneDynamics.pullBone E D aTarget aPull aPullPos).plug =
      Tree.map RigidBone.fixed aTarget.plug ∧
    Tree.map RigidBone.fixed (BoneDynamics.reconnectBones E D).mRigidTopBone =
      Tree.map RigidBone.fixed D.mRigidTopBone ∧
    Tree.map RigidBone.fixed (BoneDynamics.updateMotions E D).mRigidTopBone =
      Tree.map RigidBone.fixed D.mRigidTopBone :=
  ⟨fixed_updateMotion E aCentroid b,
    map_plug_of_fixed _ _ (fixed_pullBone E D aTarget aPull aPullPos),
    fixed_reconnectBones E D, fixed_updateMotions E D⟩

/-- C12 as stated fails: on the bone of length 10 along the x axis pulled across by
`(0, 1)` at its tail (`pullPos = 1`), for no threshold in `(0, 10]` is the target step
the motion with the pivot of the specification (`Tail` for `pullPos ≥ 0.5`): the code
leaves the root where it is, the tail pivot would move it to `y = -10 sin (1/10)`. -/
theorem C12_counterexample :
    ¬ ∃ eps : ℝ, 0 < eps ∧ eps ≤ 10 ∧
      BoneDynamics.pullTarget (realEnv eps) (1 / 10) (axisChild 0 0) ⟨0, 1⟩ 1 =
        RigidBone.updateMotion (realEnv eps) (specPivot (1 : ℝ))
          { (axisChild 0 0 : RigidBone ℝ) with
            force := BoneDynamics.pullForce (realEnv eps) (1 / 10) (axisChild 0 0) ⟨0, 1⟩ 1
            torque := BoneDynamics.pullTorque (realEnv eps) (1 / 10) (axisChild 0 0) ⟨0, 1⟩ 1 } := by
  rintro ⟨eps, h0, h10, h⟩
  have h2 : (axisChild 0 0 : RigidBone ℝ).length ≥ (realEnv eps).normalizable := h10
  have h3 : (1 : ℝ) ≥ 1 / 2 := by norm_num
  rw [pullTarget_of_ge (realEnv eps) _ _ _ _ h2,
    across_pullForce (realEnv eps) Real.cos_zero Real.sin_zero sqrt_hundred,
    across_pullTorque (realEnv eps) Real.cos_zero Real.sin_zero sqrt_hundred Real.sqrt_one]
    at h
  have h4 : specPivot (1 : ℝ) = 1 := by
    simp only [specPivot, if_pos h3]
  rw [if_pos h3, h4] at h
  have hy := congrArg (fun b : RigidBone ℝ => b.rootPos.y) h
  simp only [] at hy
  rw [(updateMotion_free _ _).1] at hy
  simp [RigidBone.updateMotion, RigidBone.tailPos, getVectorFromPolarCoord,
    getRotateVectorRad, axisChild, realEnv] at hy
  have := sin_tenth_pos
  simp only [one_div] at this
  linarith

/-- C12 amended: in the branch `length >= normalizable()` the target step is
`updateMotion` with the mode -1 (`Free`, the pivot at the root) when `pullPos >= 0.5`
and with the mode 1 (`Tail`) when `pullPos < 0.5`, the pivot at the end opposite to
the pulled one: for `pullPos >= 0.5` the root moves by the force alone, for
`pullPos < 0.5` the tail does, and the angle grows by the torque in both. -/
theorem C12_pivot_opposite_to_pulled_end (E : MathEnv α)
    (hcos : ∀ a b : α, E.cos (a + b) = E.cos a * E.cos b - E.sin a * E.sin b)
    (hsin : ∀ a b : α, E.sin (a + b) = E.sin a * E.cos b + E.cos a * E.sin b)
    (k : α) (b : RigidBone α) (hlen : b.length ≥ E.normalizable) (pull : QVector2D α)
    (pos : α) :
    BoneDynamics.pullTarget E k b pull pos =
      RigidBone.updateMotion E (if pos ≥ 1 / 2 then -1 else 1)
        { b with
          force := BoneDynamics.pullForce E k b pull pos
          torque := BoneDynamics.pullTorque E k b pull pos } ∧
    (pos ≥ 1 / 2 →
      (BoneDynamics.pullTarget E k b pull pos).rootPos =
        b.rootPos + BoneDynamics.pullForce E k b pull pos ∧
      (BoneDynamics.pullTarget E k b pull pos).angle =
        b.angle + BoneDynamics.pullTorque E k b pull pos) ∧
    (pos < 1 / 2 →
      (BoneDynamics.pullTarget E k b pull pos).tailPos E =
        b.tailPos E + BoneDynamics.pullForce E k b pull pos ∧
      (BoneDynamics.pullTarget E k b pull pos).angle =
        b.angle + BoneDynamics.pullTorque E k b pull pos) := by
  refine ⟨pullTarget_of_ge E k b pull pos hlen, ?_, ?_⟩
  · intro hp
    rw [pullTarget_of_ge E k b pull pos hlen, if_pos hp]
    exact ⟨(updateMotion_free E _).1, (updateMotion_free E _).2.1⟩
  · intro hp
    rw [pullTarget_of_ge E k b pull pos hlen, if_neg (not_le.mpr hp)]
    have h := updateMotion_tail E hcos hsin
      { b with
        force := BoneDynamics.pullForce E k b pull pos
        torque := BoneDynamics.pullTorque E k b pull pos }
    exact ⟨h.1, h.2.1⟩

/-- C12 amended, on the bone of length 10 along the x axis pulled by `(0, 1)` at its
tail, over the reals. -/
theorem C12_pivot_opposite_to_pulled_end_witness :
    BoneDynamics.pullTarget (realEnv 1) (1 / 10) (axisChild 0 0) ⟨0, 1⟩ 1 =
      RigidBone.updateMotion (realEnv 1) (if (1 : ℝ) ≥ 1 / 2 then -1 else 1)
        { (axisChild 0 0 : RigidBone ℝ) with
          force := BoneDynamics.pullForce (realEnv 1) (1 / 10) (axisChild 0 0) ⟨0, 1⟩ 1
          torque := BoneDynamics.pullTorque (realEnv 1) (1 / 10) (axisChild 0 0) ⟨0, 1⟩ 1 } ∧
    ((1 : ℝ) ≥ 1 / 2 →
      (BoneDynamics.pullTarget (realEnv 1) (1 / 10) (axisChild 0 0) ⟨0, 1⟩ 1).rootPos =
        (axisChild 0 0 : RigidBone ℝ).rootPos +
          BoneDynamics.pullForce (realEnv 1) (1 / 10) (axisChild 0 0) ⟨0, 1⟩ 1 ∧
      (BoneDynamics.pullTarget (realEnv 1) (1 / 10) (axisChild 0 0) ⟨0, 1⟩ 1).angle =
        (axisChild 0 0 : RigidBone ℝ).angle +
          BoneDynamics.pullTorque (realEnv 1) (1 / 10) (axisChild 0 0) ⟨0, 1⟩ 1) ∧
    ((1 : ℝ) < 1 / 2 →
      (BoneDynamics.pullTarget (realEnv 1) (1 / 10) (axisChild 0 0) ⟨0, 1⟩ 1).tailPos
          (realEnv 1) =
        RigidBone.tailPos (realEnv 1) (axisChild 0 0) +
          BoneDynamics.pullForce (realEnv 1) (1 / 10) (axisChild 0 0) ⟨0, 1⟩ 1 ∧
      (BoneDynamics.pullTarget (realEnv 1) (1 / 10) (axisChild 0 0) ⟨0, 1⟩ 1).angle =
        (axisChild 0 0 : RigidBone ℝ).angle +
          BoneDynamics.pullTorque (realEnv 1) (1 / 10) (axisChild 0 0) ⟨0, 1⟩ 1) :=
  C12_pivot_opposite_to_pulled_end (realEnv 1) Real.cos_add Real.sin_add (1 / 10)
    (axisChild 0 0) (by simp [axisChild, realEnv]) ⟨0, 1⟩ 1

/-- C13: for a target with `length >= normalizable()`, a conduction in `(0, 1]` and a
`pullPos` in `[0, 1]`, with a square root that is homogeneous on non-negative
numbers, `sqrt 1 = 1` and `cos² + sin² = 1`: the unit direction is `(cos, sin)` of
the angle, `vertical` is the projection of the pull on it and `horizontal = pull -
vertical` is orthogonal to it; the force assigned is
`conduction * (vertical + (1 - rotateRate) * horizontal)` and the torque assigned is
the torque of the specification, with magnitude and cross product taken from
`horizontal` itself. -/
theorem C13_force_and_torque_formulas (E : MathEnv α)
    (hmul : ∀ x k : α, 0 ≤ x → 0 ≤ k → E.sqrt (k * k * x) = k * E.sqrt x)
    (hone : E.sqrt 1 = 1)
    (hpyth : ∀ a : α, E.cos a * E.cos a + E.sin a * E.sin a = 1)
    (heps : 0 < E.normalizable)
    (c : α) (hc0 : 0 < c) (hc1 : c ≤ 1) (b : RigidBone α) (hlen : b.length ≥ E.normalizable)
    (pull : QVector2D α) (pos : α) (hp0 : 0 ≤ pos) (hp1 : pos ≤ 1) :
    BoneDynamics.pullTarget E c b pull pos =
      RigidBone.updateMotion E (if pos ≥ 1 / 2 then -1 else 1)
        { b with
          force := BoneDynamics.pullForce E c b pull pos
          torque := BoneDynamics.pullTorque E c b pull pos } ∧
    (b.dir E).normalized E = ⟨E.cos b.angle, E.sin b.angle⟩ ∧
    QVector2D.dotProduct ⟨E.cos b.angle, E.sin b.angle⟩
      (pull - (⟨E.cos b.angle, E.sin b.angle⟩ : QVector2D α) *
        QVector2D.dotProduct ⟨E.cos b.angle, E.sin b.angle⟩ pull) = 0 ∧
    BoneDynamics.pullForce E c b pull pos =
      c * ((⟨E.cos b.angle, E.sin b.angle⟩ : QVector2D α) *
          QVector2D.dotProduct ⟨E.cos b.angle, E.sin b.angle⟩ pull +
        (1 - BoneDynamics.rotateRate c pos) *
          (pull - (⟨E.cos b.angle, E.sin b.angle⟩ : QVector2D α) *
            QVector2D.dotProduct ⟨E.cos b.angle, E.sin b.angle⟩ pull)) ∧
    BoneDynamics.pullTorque E c b pull pos = specTorque E c b pull pos ∧
    specTorque E c b pull pos =
      ((pull - (⟨E.cos b.angle, E.sin b.angle⟩ : QVector2D α) *
          QVector2D.dotProduct ⟨E.cos b.angle, E.sin b.angle⟩ pull).length E *
        BoneDynamics.rotateRate c pos / b.length) *
      (if pos ≥ 1 / 2 then 1 else -1) *
      (if getCross ⟨E.cos b.angle, E.sin b.angle⟩
          (pull - (⟨E.cos b.angle, E.sin b.angle⟩ : QVector2D α) *
            QVector2D.dotProduct ⟨E.cos b.angle, E.sin b.angle⟩ pull) > 0 then 1 else -1) := by
  have hdir := normalized_dir E hmul hone hpyth b (lt_of_lt_of_le heps hlen)
  refine ⟨pullTarget_of_ge E c b pull pos hlen, hdir, ?_, ?_,
    pullTorque_eq_specTorque E hmul c hc0.le hc1 b pull pos hp0 hp1, ?_⟩
  · simp only [QVector2D.dotProduct, QVector2D.sub_x, QVector2D.sub_y, QVector2D.muls_x,
      QVector2D.muls_y]
    linear_combination
      (-(E.cos b.angle * pull.x + E.sin b.angle * pull.y)) * hpyth b.angle
  · simp only [BoneDynamics.pullForce, hdir]
  · simp only [specTorque, hdir]

/-- C13 over the reals, on the bone of length 10 along the x axis pulled by `(0, 1)`
at its tail with the conduction 1/10. -/
theorem C13_force_and_torque_formulas_witness :
    BoneDynamics.pullTorque (realEnv 1) (1 / 10) (axisChild 0 0) ⟨0, 1⟩ 1 =
      specTorque (realEnv 1) (1 / 10) (axisChild 0 0) ⟨0, 1⟩ (1 : ℝ) :=
  (C13_force_and_torque_formulas (realEnv 1) real_sqrt_mul Real.sqrt_one real_pyth one_pos
    (1 / 10) (by norm_num) (by norm_num) (axisChild 0 0) (by simp [axisChild, realEnv])
    ⟨0, 1⟩ 1 (by norm_num) (by norm_num)).2.2.2.2.1

/-- C14: for a positive conduction (so for one in `(0, 1]`) the rotation weight of
`pullBone` lies in `[1 - conduction, 1]` for every `pullPos` in `[0, 1]`, is 1 at
`pullPos = 0` and at
`pullPos = 1`, is `1 - conduction` at `pullPos = 0.5`, is symmetric about 0.5 and is
non-decreasing in `|pullPos - 0.5|`; at an endpoint the force is `conduction` times
the component of the pull along the segment alone. -/
theorem C14_rotateRate_shape (E : MathEnv α) (c : α) (hc0 : 0 < c) :
    (∀ p : α, 0 ≤ p → p ≤ 1 →
      1 - c ≤ BoneDynamics.rotateRate c p ∧ BoneDynamics.rotateRate c p ≤ 1) ∧
    BoneDynamics.rotateRate c 0 = 1 ∧ BoneDynamics.rotateRate c 1 = 1 ∧
    BoneDynamics.rotateRate c (1 / 2) = 1 - c ∧
    (∀ p : α, BoneDynamics.rotateRate c (1 - p) = BoneDynamics.rotateRate c p) ∧
    (∀ p q : α, 0 ≤ p → p ≤ 1 → 0 ≤ q → q ≤ 1 → |p - 1 / 2| ≤ |q - 1 / 2| →
      BoneDynamics.rotateRate c p ≤ BoneDynamics.rotateRate c q) ∧
    (∀ (b : RigidBone α) (pull : QVector2D α),
      BoneDynamics.pullForce E c b pull 0 =
        c * (((b.dir E).normalized E) *
          QVector2D.dotProduct ((b.dir E).normalized E) pull) ∧
      BoneDynamics.pullForce E c b pull 1 =
        c * (((b.dir E).normalized E) *
          QVector2D.dotProduct ((b.dir E).normalized E) pull)) := by
  have h0 : BoneDynamics.rotateRate c 0 = 1 := by
    have : |(2 : α) * (0 - 1 / 2)| = 1 := by norm_num
    simp only [BoneDynamics.rotateRate, this]
    ring
  have h1 : BoneDynamics.rotateRate c 1 = 1 := by
    have : |(2 : α) * (1 - 1 / 2)| = 1 := by norm_num
    simp only [BoneDynamics.rotateRate, this]
    ring
  refine ⟨fun p hp0 hp1 => rotateRate_mem c p hc0.le hp0 hp1, h0, h1, ?_, ?_, ?_, ?_⟩
  · have : |(2 : α) * (1 / 2 - 1 / 2)| = 0 := by norm_num
    simp only [BoneDynamics.rotateRate, this]
    ring
  · intro p
    have : |2 * (1 - p - 1 / 2)| = |2 * (p - 1 / 2)| := by
      rw [← abs_neg]
      congr 1
      ring
    simp only [BoneDynamics.rotateRate, this]
  · intro p q _ _ hq0 hq1 h
    exact rotateRate_mono c p q hc0.le hq0 hq1 h
  · intro b pull
    exact ⟨pullForce_of_rotateRate_one E c b pull 0 h0,
      pullForce_of_rotateRate_one E c b pull 1 h1⟩

/-- C14 over the reals with the conduction 1/10 of the constructor. -/
theorem C14_rotateRate_shape_witness :
    (∀ p : ℝ, 0 ≤ p → p ≤ 1 →
      1 - 1 / 10 ≤ BoneDynamics.rotateRate (1 / 10 : ℝ) p ∧
        BoneDynamics.rotateRate (1 / 10 : ℝ) p ≤ 1) ∧
    BoneDynamics.rotateRate (1 / 10 : ℝ) 0 = 1 ∧ BoneDynamics.rotateRate (1 / 10 : ℝ) 1 = 1 ∧
    BoneDynamics.rotateRate (1 / 10 : ℝ) (1 / 2) = 1 - 1 / 10 ∧
    (∀ p : ℝ, BoneDynamics.rotateRate (1 / 10 : ℝ) (1 - p) =
      BoneDynamics.rotateRate (1 / 10 : ℝ) p) ∧
    (∀ p q : ℝ, 0 ≤ p → p ≤ 1 → 0 ≤ q → q ≤ 1 → |p - 1 / 2| ≤ |q - 1 / 2| →
      BoneDynamics.rotateRate (1 / 10 : ℝ) p ≤ BoneDynamics.rotateRate (1 / 10 : ℝ) q) ∧
    (∀ (b : RigidBone ℝ) (pull : QVector2D ℝ),
      BoneDynamics.pullForce (realEnv 1) (1 / 10) b pull 0 =
        (1 / 10 : ℝ) * (((b.dir (realEnv 1)).normalized (realEnv 1)) *
          QVector2D.dotProduct ((b.dir (realEnv 1)).normalized (realEnv 1)) pull) ∧
      BoneDynamics.pullForce (realEnv 1) (1 / 10) b pull 1 =
        (1 / 10 : ℝ) * (((b.dir (realEnv 1)).normalized (realEnv 1)) *
          QVector2D.dotProduct ((b.dir (realEnv 1)).normalized (realEnv 1)) pull)) :=
  C14_rotateRate_shape (realEnv 1) (1 / 10) (by norm_num)

/-- C15 at the failing input: in the chain with a parent of length zero, pulled by
`(1, 0)` with the conduction 1/10, the second ancestor is moved by `(1/10, 0)`; for
no threshold in `(0, 10]` is the magnitude of that force at most `(1/10)² * |pull|`. -/
theorem C15_second_ancestor_after_degenerate_parent :
    ¬ ∃ eps : ℝ, 0 < eps ∧ eps ≤ 10 ∧
      ∀ c ∈ (BoneDynamics.pullParentChain (realEnv eps) (1 / 10) coincidentAncestors
          ⟨1, 0⟩)[1]?,
        QVector2D.length (realEnv eps) (c.bone.rootPos - (axisChild 0 0 : RigidBone ℝ).rootPos)
          ≤ (1 / 10) ^ 2 * QVector2D.length (realEnv eps) ⟨1, 0⟩ := by
  rintro ⟨eps, h0, h10, h⟩
  rw [coincident_pullParentChain (realEnv eps) Real.cos_zero Real.sin_zero Real.sqrt_zero
    sqrt_hundred h0 h10] at h
  have h1 := h ⟨axisChild 0 (0 + 1 / 10 * 1), [], []⟩ rfl
  have hs : Real.sqrt (10⁻¹ * 10⁻¹) = 10⁻¹ := Real.sqrt_mul_self (by norm_num)
  simp [axisChild, QVector2D.length, QVector2D.mk_sub_mk, realEnv, hs] at h1
  norm_num at h1

/-- C16 as stated fails: the child of length 10 along the x axis, handed the
displacement `(0, 1)` across it, does not end with its root at the root before plus
the parallel component, for any threshold in `(0, 10]`: the step turns it about its
tail and the root goes to `y = 10 sin (1/10)`. -/
theorem C16_counterexample :
    ¬ ∃ eps : ℝ, 0 < eps ∧ eps ≤ 10 ∧
      (BoneDynamics.pullChildStep (realEnv eps) (axisChild 0 0) ⟨0, 1⟩).1.rootPos =
        (axisChild 0 0 : RigidBone ℝ).rootPos +
          (BoneDynamics.pullChildStep (realEnv eps) (axisChild 0 0) ⟨0, 1⟩).2 := by
  rintro ⟨eps, h0, h10, h⟩
  rw [across_pullChildStep (realEnv eps) Real.cos_zero Real.sin_zero sqrt_hundred
    Real.sqrt_one h10] at h
  have hy := congrArg QVector2D.y h
  simp [RigidBone.updateMotion, RigidBone.tailPos, getVectorFromPolarCoord,
    getRotateVectorRad, axisChild, realEnv] at hy
  have := sin_tenth_pos
  simp only [one_div] at this
  linarith

/-- C16 amended: in `pullChildBonesRecursive` every child receives the incoming
displacement as it is (no conduction factor); a child with
`length >= normalizable()` is translated by the component of the displacement along
its direction and turned about its own tail (the mode 1), so that its tail after the
step is its tail before plus the parallel component, and that parallel component is
the displacement passed on to its own children. -/
theorem C16_child_turns_about_its_tail (E : MathEnv α)
    (hcos : ∀ a b : α, E.cos (a + b) = E.cos a * E.cos b - E.sin a * E.sin b)
    (hsin : ∀ a b : α, E.sin (a + b) = E.sin a * E.cos b + E.cos a * E.sin b)
    (child : RigidBone α) (hlen : child.length ≥ E.normalizable)
    (cs : List (Tree (RigidBone α))) (aPull : QVector2D α) :
    (BoneDynamics.pullChildStep E child aPull).2 =
      ((child.dir E).normalized E) *
        QVector2D.dotProduct ((child.dir E).normalized E) aPull ∧
    (BoneDynamics.pullChildStep E child aPull).1.tailPos E =
      child.tailPos E + (BoneDynamics.pullChildStep E child aPull).2 ∧
    BoneDynamics.pullChild E (Tree.node child cs) aPull =
      Tree.node (BoneDynamics.pullChildStep E child aPull).1
        (BoneDynamics.pullChildren E cs (BoneDynamics.pullChildStep E child aPull).2) ∧
    (∀ (ts : List (Tree (RigidBone α))) (p : QVector2D α),
      BoneDynamics.pullChildren E ts p = ts.map (fun t => BoneDynamics.pullChild E t p)) := by
  refine ⟨?_, ?_, ?_, pullChildren_eq_map E⟩
  · simp only [BoneDynamics.pullChildStep, if_pos hlen]
  · simp only [BoneDynamics.pullChildStep, if_pos hlen]
    exact (updateMotion_tail E hcos hsin _).1
  · simp only [BoneDynamics.pullChild]

/-- C16 amended, on the child of length 10 along the x axis handed `(0, 1)`, over the
reals. -/
theorem C16_child_turns_about_its_tail_witness :
    (BoneDynamics.pullChildStep (realEnv 1) (axisChild 0 0) ⟨0, 1⟩).1.tailPos (realEnv 1) =
      RigidBone.tailPos (realEnv 1) (axisChild 0 0) +
        (BoneDynamics.pullChildStep (realEnv 1) (axisChild 0 0) ⟨0, 1⟩).2 :=
  (C16_child_turns_about_its_tail (realEnv 1) Real.cos_add Real.sin_add (axisChild 0 0)
    (by simp [axisChild, realEnv]) [] ⟨0, 1⟩).2.1

/-- C17: over the reals, for a target with `length >= normalizable() > 0`, a
conduction in `(0, 1]`, a `pullPos` in `[0, 1]` and a non-zero pull orthogonal to the
segment with `|pull| * rotateRate / length < π`, the target step of `pullBone` moves
the pulled end (the tail when `pullPos >= 0.5`, the root when `pullPos < 0.5`) by a
vector whose dot product with the pull is strictly positive. -/
theorem C17_pulled_end_moves_toward_pull (eps : ℝ) (heps : 0 < eps) (b : RigidBone ℝ)
    (hlen : b.length ≥ (realEnv eps).normalizable) (c : ℝ) (hc0 : 0 < c) (hc1 : c ≤ 1)
    (pos : ℝ) (hp0 : 0 ≤ pos) (hp1 : pos ≤ 1) (pull : QVector2D ℝ) (hne : pull ≠ 0)
    (hperp : QVector2D.dotProduct (b.dir (realEnv eps)) pull = 0)
    (hsmall : pull.length (realEnv eps) * BoneDynamics.rotateRate c pos / b.length
      < Real.pi) :
    (pos ≥ 1 / 2 →
      0 < QVector2D.dotProduct
        ((BoneDynamics.pullTarget (realEnv eps) c b pull pos).tailPos (realEnv eps) -
          b.tailPos (realEnv eps)) pull) ∧
    (pos < 1 / 2 →
      0 < QVector2D.dotProduct
        ((BoneDynamics.pullTarget (realEnv eps) c b pull pos).rootPos - b.rootPos) pull) := by
  have hL : 0 < b.length := lt_of_lt_of_le heps hlen
  have hdir := real_normalized_dir eps b hL
  have hd : Real.cos b.angle * pull.x + Real.sin b.angle * pull.y = 0 := by
    have h1 : b.length * (Real.cos b.angle * pull.x + Real.sin b.angle * pull.y) = 0 := by
      have h2 := hperp
      simp only [QVector2D.dotProduct, RigidBone.dir, getVectorFromPolarCoord, realEnv] at h2
      linear_combination h2
    exact (mul_eq_zero.mp h1).resolve_left hL.ne'
  have hn := norm_across b.angle pull.x pull.y hd
  have hs : Real.cos b.angle * pull.y - Real.sin b.angle * pull.x ≠ 0 := by
    intro h0
    rw [h0, mul_zero] at hn
    have hx : pull.x = 0 := by nlinarith [mul_self_nonneg pull.x, mul_self_nonneg pull.y]
    have hy : pull.y = 0 := by nlinarith [mul_self_nonneg pull.x, mul_self_nonneg pull.y]
    exact hne (by ext <;> simp [hx, hy])
  have hlp : pull.length (realEnv eps) =
      |Real.cos b.angle * pull.y - Real.sin b.angle * pull.x| := by
    simp only [QVector2D.length, realEnv]
    rw [hn]
    exact Real.sqrt_mul_self_eq_abs _
  obtain ⟨hr0, hr1⟩ := rotateRate_mem c pos hc0.le hp0 hp1
  have hr : 0 ≤ BoneDynamics.rotateRate c pos := le_trans (sub_nonneg.mpr hc1) hr0
  rw [hlp] at hsmall
  have hh : pull - (⟨Real.cos b.angle, Real.sin b.angle⟩ : QVector2D ℝ) *
      QVector2D.dotProduct ⟨Real.cos b.angle, Real.sin b.angle⟩ pull = pull := by
    ext <;> simp [QVector2D.dotProduct, hd]
  have hF : QVector2D.dotProduct (BoneDynamics.pullForce (realEnv eps) c b pull pos) pull =
      c * (1 - BoneDynamics.rotateRate c pos) *
        ((Real.cos b.angle * pull.y - Real.sin b.angle * pull.x) *
          (Real.cos b.angle * pull.y - Real.sin b.angle * pull.x)) := by
    rw [← hn]
    simp only [BoneDynamics.pullForce, hdir, hh]
    simp [QVector2D.dotProduct, hd]
    ring
  have hT : BoneDynamics.pullTorque (realEnv eps) c b pull pos =
      |Real.cos b.angle * pull.y - Real.sin b.angle * pull.x| *
          BoneDynamics.rotateRate c pos / b.length *
        (if pos ≥ 1 / 2 then 1 else -1) *
        (if Real.cos b.angle * pull.y - Real.sin b.angle * pull.x > 0 then 1 else -1) := by
    rw [pullTorque_eq_specTorque (realEnv eps) real_sqrt_mul c hc0.le hc1 b pull pos hp0 hp1]
    simp only [specTorque, hdir, hh, hlp, getCross]
  have key := toward_pull c (BoneDynamics.rotateRate c pos) b.length _ hc0 hr hr1 hL hs hsmall
  constructor
  · intro hp
    rw [pullTarget_of_ge (realEnv eps) c b pull pos hlen, if_pos hp]
    change 0 < QVector2D.dotProduct
      ((RigidBone.updateMotion (realEnv eps) (-1)
          { b with force := BoneDynamics.pullForce (realEnv eps) c b pull pos,
                   torque := BoneDynamics.pullTorque (realEnv eps) c b pull pos }).tailPos
          (realEnv eps) -
        RigidBone.tailPos (realEnv eps)
          { b with force := BoneDynamics.pullForce (realEnv eps) c b pull pos,
                   torque := BoneDynamics.pullTorque (realEnv eps) c b pull pos }) pull
    rw [tail_shift_free]
    simp only []
    rw [turn_across _ _ _ _ hd, hF, hT, if_pos hp, sin_signed _ _ 1 hs (Or.inl rfl)]
    linarith
  · intro hp
    rw [pullTarget_of_ge (realEnv eps) c b pull pos hlen, if_neg (not_le.mpr hp)]
    change 0 < QVector2D.dotProduct
      ((RigidBone.updateMotion (realEnv eps) 1
          { b with force := BoneDynamics.pullForce (realEnv eps) c b pull pos,
                   torque := BoneDynamics.pullTorque (realEnv eps) c b pull pos }).rootPos -
        RigidBone.rootPos
          { b with force := BoneDynamics.pullForce (realEnv eps) c b pull pos,
                   torque := BoneDynamics.pullTorque (realEnv eps) c b pull pos }) pull
    rw [root_shift_tail]
    simp only []
    rw [turn_across _ _ _ _ hd, hF, hT, if_neg (not_le.mpr hp),
      sin_signed _ _ (-1) hs (Or.inr rfl)]
    linarith

/-- C17 on the bone of length 10 along the x axis pulled by `(0, 1)` at its tail, with
the conduction 1/10 and the threshold 1. -/
theorem C17_pulled_end_moves_toward_pull_witness :
    0 < QVector2D.dotProduct
      ((BoneDynamics.pullTarget (realEnv 1) (1 / 10) (axisChild 0 0) ⟨0, 1⟩ 1).tailPos
          (realEnv 1) - RigidBone.tailPos (realEnv 1) (axisChild 0 0))
      (⟨0, 1⟩ : QVector2D ℝ) :=
  (C17_pulled_end_moves_toward_pull 1 one_pos (axisChild 0 0)
    (by simp [axisChild, realEnv]) (1 / 10) (by norm_num) (by norm_num) 1 (by norm_num)
    (by norm_num) ⟨0, 1⟩
    (by
      intro h
      have := congrArg QVector2D.y h
      simp at this)
    (by simp [QVector2D.dotProduct, RigidBone.dir, getVectorFromPolarCoord, axisChild, realEnv])
    (by
      rw [rotateRate_one]
      simp only [QVector2D.length, realEnv, axisChild]
      norm_num
      linarith [Real.pi_gt_three])).1 (by norm_num)

/-- C18: with `cos 0 = 1`, `sin 0 = 0` and `sqrt 0 = 0`, on every rigid tree in which
every child starts where its parent ends, the top node sits on the world anchor and
every force and torque accumulator is empty, `pullBone` of any target by the zero
vector at any `pullPos` returns the tree as it was, `rootPos` and `angle` of every
node included. -/
theorem C18_zero_pull_is_a_fixed_point (E : MathEnv α) (hcos : E.cos 0 = 1)
    (hsin : E.sin 0 = 0) (hsqrt0 : E.sqrt 0 = 0) (D : BoneDynamics α) (aTarget : Focus α)
    (aPullPos : α) (hconn : Connected E aTarget.plug)
    (hanchor : aTarget.root.rootPos = D.mTopBone.value.worldPos)
    (hrest : Tree.All RigidBone.AtRest aTarget.plug) :
    BoneDynamics.pullBone E D aTarget 0 aPullPos = aTarget := by
  obtain ⟨⟨hb, hch⟩, hanc⟩ := (all_plug _ aTarget).mp hrest
  have hancRest : ∀ c ∈ aTarget.ancestors, c.bone.AtRest := fun c hc => (hanc c hc).1
  obtain ⟨hsub, hchain⟩ := connected_plugChain E _ _ hconn
  simp only [Connected, Tree.value] at hsub hchain
  have horigin := zero_originChain E hcos hsin hsqrt0 D.mTopBone.value.worldPos
    aTarget.ancestors aTarget.bone hanchor hb hancRest
  have hprop : BoneDynamics.pullBonePropagate E D aTarget 0 aPullPos = aTarget := by
    simp only [BoneDynamics.pullBonePropagate, BoneDynamics.pullParentBones,
      BoneDynamics.adjustByOriginConstraint, BoneDynamics.pullChildBonesRecursive,
      zero_pullTarget E hcos hsin hsqrt0 D.mConduction aTarget.bone aPullPos hb,
      vec_sub_self, zero_pullParentChain E hcos hsin hsqrt0 D.mConduction _ hancRest,
      horigin, zero_pullChildren E hcos hsin hsqrt0 aTarget.children hch]
  have hadj : BoneDynamics.adjustOnce E aTarget = aTarget := by
    simp only [BoneDynamics.adjustOnce, BoneDynamics.adjustParentBones,
      BoneDynamics.adjustChildBonesRecursive,
      zero_adjustParentChain E hcos hsin hsqrt0 aTarget.ancestors aTarget.bone hchain hancRest,
      zero_adjustChildren E hcos hsin hsqrt0 aTarget.children _ hch hsub]
  rw [BoneDynamics.pullBone, hprop]
  exact Function.iterate_fixed hadj 3

/-- C18 on the two-bone chain along the x axis over the reals, the child bone pulled
by the zero vector at its tail. -/
theorem C18_zero_pull_is_a_fixed_point_witness :
    BoneDynamics.pullBone (realEnv 1) (BoneDynamics.create (realEnv 1) (axisSource 0))
      (axisFocus 0 0 0) 0 1 = axisFocus 0 0 0 :=
  C18_zero_pull_is_a_fixed_point (realEnv 1) Real.cos_zero Real.sin_zero Real.sqrt_zero
    (BoneDynamics.create (realEnv 1) (axisSource 0)) (axisFocus 0 0 0) 1
    (by
      simp only [axisFocus, Focus.plug, plugChain, Crumb.close, List.nil_append, Connected,
        ConnectedList, Tree.value, and_true]
      ext <;> simp [axisChild, axisTop, RigidBone.tailPos, getVectorFromPolarCoord])
    (by simp [Focus.root, chainRoot, axisFocus, axisTop, BoneDynamics.create, axisSource,
      Tree.value])
    (by simp [axisFocus, Focus.plug, plugChain, Crumb.close, Tree.All, Tree.AllList,
      RigidBone.AtRest, axisChild, axisTop])

/-- C19: `pullBone` returns the subtrees hanging off the ancestors of the target beside
the chain (the siblings of the target, the other children of its ancestors and all
below them) exactly as they were, with `rootPos`, `angle`, `force` and `torque` of
every node in them; only the target, its ancestors and its descendants change. -/
theorem C19_pullBone_frame (E : MathEnv α) (D : BoneDynamics α) (aTarget : Focus α)
    (aPull : QVector2D α) (aPullPos : α) :
    (BoneDynamics.pullBone E D aTarget aPull aPullPos).ancestors.map
        (fun c => (c.left, c.right)) =
      aTarget.ancestors.map (fun c => (c.left, c.right)) :=
  frame_of_fixed _ _ (fixed_pullBone E D aTarget aPull aPullPos)

/-- C20: if every force and torque accumulator of the tree is empty on entry to
`pullBone`, then for every target, pull and `pullPos` they are all empty on exit,
and every node with `length` below the threshold has on exit the angle it had on
entry (node by node in iterator order). -/
theorem C20_accumulators_empty_and_short_angles_kept (E : MathEnv α) (D : BoneDynamics α)
    (aTarget : Focus α) (aPull : QVector2D α) (aPullPos : α)
    (hrest : Tree.All RigidBone.AtRest aTarget.plug) :
    Tree.All RigidBone.AtRest (BoneDynamics.pullBone E D aTarget aPull aPullPos).plug ∧
    Tree.map (degenerateAngle E) (BoneDynamics.pullBone E D aTarget aPull aPullPos).plug =
      Tree.map (degenerateAngle E) aTarget.plug ∧
    ∀ (i : Nat) (b b2 : RigidBone α),
      (Tree.nodes aTarget.plug)[i]? = some b →
      (Tree.nodes (BoneDynamics.pullBone E D aTarget aPull aPullPos).plug)[i]? = some b2 →
      b.length < E.normalizable → b2.angle = b.angle := by
  have h := calm_pullBone E D aTarget aPull aPullPos hrest
  refine ⟨h.1, h.2, ?_⟩
  intro i b b2 hb hb2 hlt
  have hn := congrArg Tree.nodes h.2
  rw [nodes_map, nodes_map] at hn
  have hi := congrArg (fun l => l[i]?) hn
  simp only [List.getElem?_map, hb, hb2, Option.map_some', Option.some.injEq] at hi
  unfold degenerateAngle at hi
  rw [if_pos hlt] at hi
  split_ifs at hi
  exact Option.some.inj hi

/-- C20 on the two-bone chain along the x axis over the reals, the child bone pulled
by `(1, 0)` at its tail. -/
theorem C20_accumulators_empty_and_short_angles_kept_witness :
    Tree.All RigidBone.AtRest
      (BoneDynamics.pullBone (realEnv 1) (BoneDynamics.create (realEnv 1) (axisSource 0))
        (axisFocus 0 0 0) ⟨1, 0⟩ 1).plug :=
  (C20_accumulators_empty_and_short_angles_kept (realEnv 1)
    (BoneDynamics.create (realEnv 1) (axisSource 0)) (axisFocus 0 0 0) ⟨1, 0⟩ 1
    (by simp [axisFocus, Focus.plug, plugChain, Crumb.close, Tree.All, Tree.AllList,
      RigidBone.AtRest, axisChild, axisTop])).1

end Properties

end Pose
